import Mathlib

/-!
# miner-spy: the analysis pipeline of `src/server/index.js`

A shallow embedding of `calculateCentralization`, `classifyHostingType`, `getLocationFromIP`,
the build loop of the snapshot endpoint, the two endpoints, `rateLimitedRequest` and the
client function `fetchWithRetry` of `src/client/src/App.js`, and of the values they work on.

Modelling conventions, used throughout:

* A JavaScript number is a `JSNum`: an exact rational, `NaN`, or a signed infinity.
  The arithmetic follows IEEE-754 on the special values (`0/0 = NaN`, `x/0 = ±Infinity`,
  `NaN` is absorbing, comparisons with `NaN` are false); on finite values the operators
  `+ - * /` of `calculateCentralization` are exact, so binary64 rounding error and the sign of
  zero are not represented there.
* Where the rounding of binary64 decides what is reported, the computation is given a second
  time with every operation rounded to the nearest binary64 number, ties to even
  (`baseHHI64`, `hhi64`, `decentralizationScore64`): these are the values that the code
  computes, and the exact ones are their idealisation. An array length or counter is
  converted exactly, as it is below `2^53`; the exponent range is not bounded, since no value
  of these computations leaves the normal range.
* A plain object used as a dictionary (`coldkeyGroups`, `ipGroups`, `asnGroups`,
  `hostingTypes`, `countries`) is an association list in insertion order, which is the
  order in which `Object.entries`, `Object.values` and `Object.keys` enumerate string keys.
  Keys that name a member of `Object.prototype` and keys that are canonical array indices
  (which JavaScript enumerates first) are not distinguished from other keys.
* An optional property (`undefined` when absent) is an `Option`.
* `new Date()` is an explicit argument `now`, the instant in milliseconds; the ISO string
  written to `lastAnalyzed` is an injective rendering of that instant.
* A string is a sequence of characters; the built-in `toLowerCase` is an argument of
  `classifyHostingType`, so that what is proved of it holds for the real method.
* The `node-cache` store is a map from keys to entries with an expiry instant; a request
  handler is a function from the cache state and the instant of the request to the response
  and the cache state it leaves.
* What an `await` on the outside world gives is an argument: the answers of the lookup
  service (`geo`), of the registry (`upstream`) and of `fetch`. What a function does to the
  outside world is a list of events that it returns: resolver calls, pauses, attempts, sleeps.
* Code that runs between two `await`s is one step; callers that interleave are a list of such
  steps (`LimiterStep`, `ServerStep`), with the clock part of the state.
-/

namespace MinerSpy

/-! ## JavaScript numbers -/

/-- JavaScript number: a finite value held exactly, `NaN`, or `±Infinity`
(`inf true` is `-Infinity`). -/
inductive JSNum where
  | nan : JSNum
  | inf (negative : Bool) : JSNum
  | fin (q : ℚ) : JSNum
deriving DecidableEq

namespace JSNum

/-- Conversion of an array length or a counter. -/
def ofNat (n : Nat) : JSNum := fin (n : ℚ)

/-- Unary minus. -/
def neg : JSNum → JSNum
  | nan => nan
  | inf s => inf (!s)
  | fin q => fin (-q)

/-- The operator `+` on numbers. -/
def add : JSNum → JSNum → JSNum
  | nan, _ => nan
  | _, nan => nan
  | fin a, fin b => fin (a + b)
  | fin _, inf s => inf s
  | inf s, fin _ => inf s
  | inf s, inf t => if s = t then inf s else nan

/-- The operator `-` on numbers. -/
def sub (a b : JSNum) : JSNum := add a (neg b)

/-- The operator `*` on numbers. -/
def mul : JSNum → JSNum → JSNum
  | nan, _ => nan
  | _, nan => nan
  | fin a, fin b => fin (a * b)
  | fin a, inf s => if a = 0 then nan else inf (xor s (decide (a < 0)))
  | inf s, fin b => if b = 0 then nan else inf (xor s (decide (b < 0)))
  | inf s, inf t => inf (xor s t)

/-- The operator `/` on numbers: `0/0` is `NaN`, a non-zero value over zero is an infinity. -/
def div : JSNum → JSNum → JSNum
  | nan, _ => nan
  | _, nan => nan
  | fin a, fin b =>
    if b = 0 then (if a = 0 then nan else inf (decide (a < 0))) else fin (a / b)
  | fin _, inf _ => fin 0
  | inf s, fin b => inf (xor s (decide (b < 0)))
  | inf _, inf _ => nan

/-- The operator `>` on numbers; false as soon as one side is `NaN`. -/
def gt : JSNum → JSNum → Bool
  | fin a, fin b => decide (b < a)
  | inf false, fin _ => true
  | inf false, inf true => true
  | fin _, inf true => true
  | _, _ => false

/-- The function `Math.max` on two arguments: `NaN` if either is `NaN`. -/
def mathMax : JSNum → JSNum → JSNum
  | nan, _ => nan
  | _, nan => nan
  | a, b => if gt b a then b else a

/-- The function `Math.min` on two arguments: `NaN` if either is `NaN`. -/
def mathMin : JSNum → JSNum → JSNum
  | nan, _ => nan
  | _, nan => nan
  | a, b => if gt a b then b else a

/-- The function `Math.round`: nearest integer, a tie going up. -/
def mathRound : JSNum → JSNum
  | nan => nan
  | inf s => inf s
  | fin q => fin ((⌊q + 1 / 2⌋ : ℤ) : ℚ)

/-- The decimal that `x.toFixed(d)` prints, as a number: `d` digits after the point, a tie
going away from zero. -/
def toFixed (d : Nat) : JSNum → JSNum
  | nan => nan
  | inf s => inf s
  | fin q =>
    if q < 0 then fin (-(((⌊-q * 10 ^ d + 1 / 2⌋ : ℤ) : ℚ) / 10 ^ d))
    else fin (((⌊q * 10 ^ d + 1 / 2⌋ : ℤ) : ℚ) / 10 ^ d)

instance : Add JSNum := ⟨add⟩
instance : Sub JSNum := ⟨sub⟩
instance : Mul JSNum := ⟨mul⟩
instance : Div JSNum := ⟨div⟩
instance (n : Nat) : OfNat JSNum n := ⟨ofNat n⟩

/-- The idiom `Math.round(x * 100) / 100`. -/
def round2 (x : JSNum) : JSNum := mathRound (x * 100) / 100

end JSNum

/-! ## Strings and optional values -/

/-- The idiom `x || d` on an optional string: `undefined` and the empty string are falsy. -/
def orDefault (x : Option String) (d : String) : String :=
  match x with
  | none => d
  | some s => if s ≠ "" then s else d

/-- String conversion of an optional string in a concatenation. -/
def jsString : Option String → String
  | none => "undefined"
  | some s => s

/-! ## Snapshot data -/

/-- The fields of `miner.location` that the analyzer reads. -/
structure Location where
  country : Option String
  city : Option String
  asn : Option String
  asname : Option String
  hostingType : Option String
deriving DecidableEq

/-- The field of `miner.axon_info` that the analyzer reads. -/
structure AxonInfo where
  ip : Option String
deriving DecidableEq

/-- One entry of the `miners` array of a snapshot, as far as the analyzer reads it. -/
structure Miner where
  uid : Nat
  coldkey : Option String
  validator_permit : Bool
  axon_info : Option AxonInfo
  location : Option Location
deriving DecidableEq

/-- The `subnet` object of a snapshot; the analyzer receives it and reads nothing of it. -/
structure Subnet where
  netuid : Nat
deriving DecidableEq

/-! ## Dictionaries -/

/-- A plain object used as a dictionary, in insertion order. -/
abbrev Dict (α : Type) := List (String × α)

/-- The two statements `if (!groups[k]) groups[k] = []; groups[k].push(m)`. -/
def groupPush {α : Type} : Dict (List α) → String → α → Dict (List α)
  | [], k, m => [(k, [m])]
  | (k', g) :: rest, k, m =>
    if k' = k then (k', g ++ [m]) :: rest else (k', g) :: groupPush rest k m

/-- The statement `counts[k] = (counts[k] || 0) + 1`. -/
def countInc : Dict Nat → String → Dict Nat
  | [], k => [(k, 0 + 1)]
  | (k', c) :: rest, k =>
    if k' = k then (k', c + 1) :: rest else (k', c) :: countInc rest k

/-- The expression `counts[k] || 0`. -/
def countOf : Dict Nat → String → Nat
  | [], _ => 0
  | (k', c) :: rest, k => if k' = k then c else countOf rest k

/-! ## The analyzer -/

/-- The expression `miner.coldkey || 'unknown'`. -/
def ownerKey (m : Miner) : String := orDefault m.coldkey "unknown"

/-- The expression `miner.axon_info?.ip`. -/
def Miner.ip (m : Miner) : Option String := m.axon_info.bind (·.ip)

/-- The expression `miner.location?.asn`. -/
def Miner.asn (m : Miner) : Option String := m.location.bind (·.asn)

/-- The expression `miner.location?.hostingType`. -/
def Miner.hostingType (m : Miner) : Option String := m.location.bind (·.hostingType)

/-- The expression `miner.location?.hostingType || 'Unknown'`. -/
def hostingKey (m : Miner) : String := orDefault m.hostingType "Unknown"

/-- The expression `miner.location?.country || 'Unknown'`. -/
def countryKey (m : Miner) : String := orDefault (m.location.bind (·.country)) "Unknown"

/-- The test `ip && ip !== 'N/A'`. -/
def hasIP (m : Miner) : Bool :=
  match m.ip with
  | none => false
  | some s => s ≠ "" && s ≠ "N/A"

/-- The test `asn && asn !== 'Unknown'`. -/
def hasASN (m : Miner) : Bool :=
  match m.asn with
  | none => false
  | some s => s ≠ "" && s ≠ "Unknown"

/-- The object `coldkeyGroups` after the first loop. -/
def coldkeyGroups (miners : List Miner) : Dict (List Miner) :=
  miners.foldl (fun groups miner => groupPush groups (ownerKey miner) miner) []

/-- The object `ipGroups` after the second loop. That loop updates three accumulators that
do not read one another (`ipGroups`, `asnGroups`, `hostingTypes`); each is a fold of its own. -/
def ipGroups (miners : List Miner) : Dict (List Miner) :=
  miners.foldl
    (fun groups miner =>
      if hasIP miner then groupPush groups (jsString miner.ip) miner else groups) []

/-- The object `asnGroups` after the second loop. -/
def asnGroups (miners : List Miner) : Dict (List Miner) :=
  miners.foldl
    (fun groups miner =>
      if hasASN miner then groupPush groups (jsString miner.asn) miner else groups) []

/-- The object `hostingTypes` after the second loop. -/
def hostingTypes (miners : List Miner) : Dict Nat :=
  miners.foldl (fun counts miner => countInc counts (hostingKey miner)) []

/-- The object `countries` after the third loop. -/
def countries (miners : List Miner) : Dict Nat :=
  miners.foldl (fun counts miner => countInc counts (countryKey miner)) []

/-- An element of `ipClusters`. -/
structure IpCluster where
  ip : String
  count : Nat
  uids : List Nat
  location : String
  hostingType : Option String
deriving DecidableEq

/-- An element of `asnConcentration`; `percentage` is the decimal printed by `toFixed(2)`. -/
structure AsnEntry where
  asn : String
  asname : String
  count : Nat
  percentage : JSNum
  hostingType : Option String
deriving DecidableEq

/-- An element of `hostingDistribution`; `percentage` is the decimal printed by `toFixed(1)`. -/
structure HostingEntry where
  type : String
  count : Nat
  percentage : JSNum
deriving DecidableEq

/-- An element of `topOwners`; `percentage` is the decimal printed by `toFixed(2)`. -/
structure OwnerEntry where
  coldkey : String
  count : Nat
  percentage : JSNum
deriving DecidableEq

/-- The comparator `(a, b) => b.count - a.count` of a stable sort, as the order it induces:
`a` may stay before `b` when its count is not smaller. -/
def sortByCountDesc {α : Type} (count : α → Nat) (l : List α) : List α :=
  l.insertionSort (fun a b => count b ≤ count a)

/-- The array `ipClusters`: groups of more than one miner, largest first. A group is never
empty, so `miners[0]` is its head. -/
def ipClusters (miners : List Miner) : List IpCluster :=
  sortByCountDesc IpCluster.count
    (((ipGroups miners).filter (fun e => decide (e.2.length > 1))).map (fun e =>
      { ip := e.1
        count := e.2.length
        uids := e.2.map (·.uid)
        location :=
          jsString ((e.2.head?.bind (·.location)).bind (·.city)) ++ ", " ++
            jsString ((e.2.head?.bind (·.location)).bind (·.country))
        hostingType := (e.2.head?.bind (·.location)).bind (·.hostingType) }))

/-- The expression `asn.split(' ')[0]`: the part of the string before its first space, the
whole string when it has none. -/
def asnNumber (asn : String) : String := String.mk (asn.toList.takeWhile (fun c => c ≠ ' '))

/-- The array `asnConcentration`. -/
def asnConcentration (miners : List Miner) : List AsnEntry :=
  (sortByCountDesc AsnEntry.count
    ((asnGroups miners).map (fun e =>
      { asn := asnNumber e.1
        asname := orDefault ((e.2.head?.bind (·.location)).bind (·.asname)) "Unknown"
        count := e.2.length
        percentage :=
          JSNum.toFixed 2 (JSNum.ofNat e.2.length / JSNum.ofNat miners.length * 100)
        hostingType := (e.2.head?.bind (·.location)).bind (·.hostingType) }))).take 10

/-- The number `baseHHI`: the reduction over `Object.values(coldkeyGroups)`. -/
def baseHHI (miners : List Miner) : JSNum :=
  (coldkeyGroups miners).foldl
    (fun sum e =>
      let share := JSNum.ofNat e.2.length / JSNum.ofNat miners.length * 100
      sum + share * share) 0

/-- The number `ipClusterPenalty`: the reduction over `ipClusters`. -/
def ipClusterPenalty (miners : List Miner) : JSNum :=
  (ipClusters miners).foldl
    (fun penalty cluster =>
      let clusterShare := JSNum.ofNat cluster.count / JSNum.ofNat miners.length * 100
      penalty + clusterShare * clusterShare * JSNum.fin (1 / 2)) 0

/-- The number `adjustedHHI`, not rounded. -/
def adjustedHHI (miners : List Miner) : JSNum := baseHHI miners + ipClusterPenalty miners

/-- The string `concentrationLevel`. -/
def concentrationLevel (miners : List Miner) : String :=
  if (adjustedHHI miners).gt 2500 || decide ((ipClusters miners).length > 5) then
    "Highly Concentrated"
  else if (adjustedHHI miners).gt 1500 || decide ((ipClusters miners).length > 2) then
    "Moderately Concentrated"
  else if (adjustedHHI miners).gt 1000 || decide ((ipClusters miners).length > 0) then
    "Unconcentrated"
  else "Highly Decentralized"

/-- The array `hostingDistribution`. -/
def hostingDistribution (miners : List Miner) : List HostingEntry :=
  sortByCountDesc HostingEntry.count
    ((hostingTypes miners).map (fun e =>
      { type := e.1
        count := e.2
        percentage := JSNum.toFixed 1 (JSNum.ofNat e.2 / JSNum.ofNat miners.length * 100) }))

/-- The number `cloudCentralizationRisk`, not rounded. -/
def cloudCentralizationRisk (miners : List Miner) : JSNum :=
  let cloudMiners := countOf (hostingTypes miners) "Cloud Provider"
  let hostingMiners :=
    countOf (hostingTypes miners) "Hosting/Cloud" + countOf (hostingTypes miners) "VPS/Hosting"
  JSNum.ofNat (cloudMiners + hostingMiners) / JSNum.ofNat miners.length * 100

/-- The array `topOwners`. -/
def topOwners (miners : List Miner) : List OwnerEntry :=
  (sortByCountDesc OwnerEntry.count
    ((coldkeyGroups miners).map (fun e =>
      { coldkey := e.1.take 8 ++ "..."
        count := e.2.length
        percentage :=
          JSNum.toFixed 2 (JSNum.ofNat e.2.length / JSNum.ofNat miners.length * 100) }))).take 10

/-- The number `enhancedDecentralizationScore`, not rounded. -/
def enhancedDecentralizationScore (miners : List Miner) : JSNum :=
  let baseScore := JSNum.mathMax 0 (100 - baseHHI miners / 100)
  let ipClusterPenalty_score := JSNum.mathMin 20 (JSNum.ofNat (ipClusters miners).length * 5)
  let cloudPenalty := JSNum.mathMin 30 (cloudCentralizationRisk miners * JSNum.fin (1 / 2))
  JSNum.mathMax 0 (baseScore - ipClusterPenalty_score - cloudPenalty)

/-- The number `minersWithIPs`. -/
def minersWithIPs (miners : List Miner) : Nat := (miners.filter hasIP).length

/-- The test `!m.axon_info?.ip || m.axon_info.ip === 'N/A'`. -/
def lacksIP (m : Miner) : Bool :=
  match m.ip with
  | none => true
  | some s => s = "" || s = "N/A"

/-- The number `validatorsWithoutAxons`. -/
def validatorsWithoutAxons (miners : List Miner) : Nat :=
  (miners.filter (fun m => lacksIP m && m.validator_permit)).length

/-- The number `nonValidatorsWithoutAxons`. -/
def nonValidatorsWithoutAxons (miners : List Miner) : Nat :=
  (miners.filter (fun m => lacksIP m && !m.validator_permit)).length

/-- The number `minerAxonCoverage`, not rounded. -/
def minerAxonCoverage (miners : List Miner) : JSNum :=
  JSNum.ofNat (minersWithIPs miners) / JSNum.ofNat miners.length * 100

/-- The object returned by `calculateCentralization`. -/
structure Report where
  totalMiners : Nat
  uniqueOwners : Nat
  hhi : JSNum
  adjustedHHI : JSNum
  concentrationLevel : String
  topOwners : List OwnerEntry
  geographicDistribution : Dict Nat
  decentralizationScore : JSNum
  ipClusters : List IpCluster
  ipClusterCount : Nat
  asnConcentration : List AsnEntry
  hostingDistribution : List HostingEntry
  cloudCentralizationRisk : JSNum
  totalUniqueIPs : Nat
  totalUniqueASNs : Nat
  minersWithIPs : Nat
  minersWithoutIPs : Nat
  validatorCount : Nat
  validatorsWithoutAxons : Nat
  potentiallyInactiveMiners : Nat
  minerAxonCoverage : JSNum
  axonCoverage : JSNum
  lastAnalyzed : Nat
deriving DecidableEq

/-- The function `calculateCentralization(subnet, miners)`, with the clock reading `now`
that `new Date()` takes. -/
def calculateCentralization (_subnet : Subnet) (miners : List Miner) (now : Nat) : Report :=
  { totalMiners := miners.length
    uniqueOwners := (coldkeyGroups miners).length
    hhi := JSNum.mathRound (baseHHI miners)
    adjustedHHI := JSNum.mathRound (adjustedHHI miners)
    concentrationLevel := concentrationLevel miners
    topOwners := topOwners miners
    geographicDistribution := countries miners
    decentralizationScore := JSNum.round2 (enhancedDecentralizationScore miners)
    ipClusters := ipClusters miners
    ipClusterCount := (ipClusters miners).length
    asnConcentration := asnConcentration miners
    hostingDistribution := hostingDistribution miners
    cloudCentralizationRisk := JSNum.round2 (cloudCentralizationRisk miners)
    totalUniqueIPs := (ipGroups miners).length
    totalUniqueASNs := (asnGroups miners).length
    minersWithIPs := minersWithIPs miners
    minersWithoutIPs := miners.length - minersWithIPs miners
    validatorCount := (miners.filter (·.validator_permit)).length
    validatorsWithoutAxons := validatorsWithoutAxons miners
    potentiallyInactiveMiners := nonValidatorsWithoutAxons miners
    minerAxonCoverage := JSNum.round2 (minerAxonCoverage miners)
    axonCoverage := JSNum.round2 (minerAxonCoverage miners)
    lastAnalyzed := now }

/-! ## Definitions used in the statements and proofs -/

/-- The expression `groups[k]`, an absent group read as the empty array. -/
def groupOf {α : Type} : Dict (List α) → String → List α
  | [], _ => []
  | (k', g) :: rest, k => if k' = k then g else groupOf rest k

/-- The loop that files every element of `l` under its key. -/
def groupBy {α : Type} (key : α → String) (l : List α) : Dict (List α) :=
  l.foldl (fun groups m => groupPush groups (key m) m) []

/-- The loop that counts the elements of `l` per key. -/
def countBy {α : Type} (key : α → String) (l : List α) : Dict Nat :=
  l.foldl (fun counts m => countInc counts (key m)) []

/-- The squared percentage share of a group of `c` among `n`. -/
def shareSq (n c : Nat) : ℚ := ((c : ℚ) / (n : ℚ) * 100) ^ 2

/-- The base concentration index as the specification writes it. -/
def baseIndex (miners : List Miner) : ℚ :=
  ∑ k ∈ (miners.map ownerKey).toFinset,
    shareSq miners.length (miners.filter (fun m => ownerKey m = k)).length

/-- A subnet object for the concrete instances below. -/
def sampleSubnet : Subnet := { netuid := 8 }

/-- A participant without location record, for the concrete instances below. -/
def sampleMiner (uid : Nat) (coldkey : Option String) (ip : Option String) : Miner :=
  { uid := uid
    coldkey := coldkey
    validator_permit := false
    axon_info := some { ip := ip }
    location := none }

/-- The number of participants whose hosting type is one of the three cloud types. -/
def cloudCount (miners : List Miner) : Nat :=
  miners.countP (fun m => hostingKey m = "Cloud Provider") +
    miners.countP (fun m => hostingKey m = "Hosting/Cloud") +
    miners.countP (fun m => hostingKey m = "VPS/Hosting")

/-- The decentralization score before rounding, in rational arithmetic. -/
def scoreValue (miners : List Miner) : ℚ :=
  max 0 (max 0 (100 - baseIndex miners / 100) - min 20 (((ipClusters miners).length : ℚ) * 5) -
    min 30 ((cloudCount miners : ℚ) / (miners.length : ℚ) * 100 * (1 / 2)))

/-- The key under which the second loop files a participant in `ipGroups`. -/
def ipKey (m : Miner) : String := jsString m.ip

/-- The key under which the second loop files a participant in `asnGroups`. -/
def asnKey (m : Miner) : String := jsString m.asn

/-- The element of `ipClusters` made from one entry of `ipGroups`. -/
def ipClusterOf (e : String × List Miner) : IpCluster :=
  { ip := e.1
    count := e.2.length
    uids := e.2.map (·.uid)
    location :=
      jsString ((e.2.head?.bind (·.location)).bind (·.city)) ++ ", " ++
        jsString ((e.2.head?.bind (·.location)).bind (·.country))
    hostingType := (e.2.head?.bind (·.location)).bind (·.hostingType) }

/-- Ten participants with distinct uids and owners; the first two advertise "1.2.3.4", the
other eight advertise eight further addresses. -/
def tenMiners : List Miner :=
  [sampleMiner 0 (some "owner0") (some "1.2.3.4"),
   sampleMiner 1 (some "owner1") (some "1.2.3.4"),
   sampleMiner 2 (some "owner2") (some "10.0.0.2"),
   sampleMiner 3 (some "owner3") (some "10.0.0.3"),
   sampleMiner 4 (some "owner4") (some "10.0.0.4"),
   sampleMiner 5 (some "owner5") (some "10.0.0.5"),
   sampleMiner 6 (some "owner6") (some "10.0.0.6"),
   sampleMiner 7 (some "owner7") (some "10.0.0.7"),
   sampleMiner 8 (some "owner8") (some "10.0.0.8"),
   sampleMiner 9 (some "owner9") (some "10.0.0.9")]

/-- A validator that advertises no axon, for the concrete instances below. -/
def sampleValidator : Miner :=
  { uid := 7
    coldkey := some "5Fval"
    validator_permit := true
    axon_info := none
    location := none }

/-! ## The analyzer in binary64 arithmetic -/

/-- The integer nearest to `x`, a tie going to the even one. -/
def roundHalfEven (x : ℚ) : ℤ :=
  if x - ⌊x⌋ < 1 / 2 then ⌊x⌋
  else if 1 / 2 < x - ⌊x⌋ then ⌊x⌋ + 1
  else if ⌊x⌋ % 2 = 0 then ⌊x⌋ else ⌊x⌋ + 1

/-- The binary64 number nearest to `q`, a tie going to the even significand: with `e` the
exponent of `q`, that is `2 ^ e ≤ |q| < 2 ^ (e + 1)`, it is the multiple of `2 ^ (e - 52)`
nearest to `q`, so that the significand has 53 bits. The exponent is not bounded: overflow
and subnormal numbers are not represented. -/
def binary64 (q : ℚ) : ℚ :=
  if q = 0 then 0
  else (roundHalfEven (q / 2 ^ (Int.log 2 |q| - 52)) : ℚ) * 2 ^ (Int.log 2 |q| - 52)

/-- The unit roundoff of binary64, `2 ^ (-53)`. -/
def unitRoundoff : ℚ := 1 / 2 ^ 53

namespace JSNum

/-- The rounding that ends every arithmetic operation on numbers. -/
def rnd : JSNum → JSNum
  | nan => nan
  | inf s => inf s
  | fin q => fin (binary64 q)

/-- The operator `+` as binary64 computes it: the exact sum, rounded. -/
def add64 (a b : JSNum) : JSNum := rnd (a + b)

/-- The operator `-` as binary64 computes it: the exact difference, rounded. -/
def sub64 (a b : JSNum) : JSNum := rnd (a - b)

/-- The operator `*` as binary64 computes it: the exact product, rounded. -/
def mul64 (a b : JSNum) : JSNum := rnd (a * b)

/-- The operator `/` as binary64 computes it: the exact quotient, rounded. -/
def div64 (a b : JSNum) : JSNum := rnd (a / b)

/-- The idiom `Math.round(x * 100) / 100` as binary64 computes it; `Math.round` is exact. -/
def round2_64 (x : JSNum) : JSNum := div64 (mathRound (mul64 x 100)) 100

end JSNum

/-- The term `share * share` of the reduction for a group of `c` among `n`, with
`share = (c / n) * 100`, as binary64 computes it. -/
def shareSq64 (n c : Nat) : JSNum :=
  let share := JSNum.mul64 (JSNum.div64 (JSNum.ofNat c) (JSNum.ofNat n)) 100
  JSNum.mul64 share share

/-- The number `baseHHI` as binary64 computes it: the reduction over
`Object.values(coldkeyGroups)`, each operation rounded. -/
def baseHHI64 (miners : List Miner) : JSNum :=
  (coldkeyGroups miners).foldl
    (fun sum e => JSNum.add64 sum (shareSq64 miners.length e.2.length)) 0

/-- The field `hhi` of the report as binary64 computes it: `Math.round(baseHHI)`. -/
def hhi64 (miners : List Miner) : JSNum := JSNum.mathRound (baseHHI64 miners)

/-- The number `cloudCentralizationRisk` as binary64 computes it. -/
def cloudCentralizationRisk64 (miners : List Miner) : JSNum :=
  let cloudMiners := countOf (hostingTypes miners) "Cloud Provider"
  let hostingMiners :=
    countOf (hostingTypes miners) "Hosting/Cloud" + countOf (hostingTypes miners) "VPS/Hosting"
  JSNum.mul64 (JSNum.div64 (JSNum.ofNat (cloudMiners + hostingMiners))
    (JSNum.ofNat miners.length)) 100

/-- The number `enhancedDecentralizationScore` as binary64 computes it. -/
def enhancedDecentralizationScore64 (miners : List Miner) : JSNum :=
  let baseScore := JSNum.mathMax 0 (JSNum.sub64 100 (JSNum.div64 (baseHHI64 miners) 100))
  let ipClusterPenalty_score :=
    JSNum.mathMin 20 (JSNum.mul64 (JSNum.ofNat (ipClusters miners).length) 5)
  let cloudPenalty :=
    JSNum.mathMin 30 (JSNum.mul64 (cloudCentralizationRisk64 miners) (JSNum.fin (1 / 2)))
  JSNum.mathMax 0 (JSNum.sub64 (JSNum.sub64 baseScore ipClusterPenalty_score) cloudPenalty)

/-- The field `decentralizationScore` of the report as binary64 computes it. -/
def decentralizationScore64 (miners : List Miner) : JSNum :=
  JSNum.round2_64 (enhancedDecentralizationScore64 miners)

/-- The value `a` is `A` up to `p` roundings: it lies between `(1 - u) ^ p * A` and
`(1 + u) ^ p * A`, with `u` the unit roundoff. -/
def Near (p : ℕ) (A a : ℚ) : Prop :=
  (1 - unitRoundoff) ^ p * A ≤ a ∧ a ≤ (1 + unitRoundoff) ^ p * A

/-- Participants `first`, ..., `first + count - 1` of one owner, for the concrete instances
below. -/
def ownedBy (coldkey : String) (first count : Nat) : List Miner :=
  (List.range count).map (fun i => sampleMiner (first + i) (some coldkey) none)

/-- The distinct strings of a list, in the order in which they first occur. -/
def firstOccurrences (keys : List String) : List String :=
  keys.foldl (fun seen k => if k ∈ seen then seen else seen ++ [k]) []

/-- Twenty-four participants: twenty-two of one owner and one of each of two others. -/
def unevenOwners : List Miner :=
  ownedBy "5Fa" 0 22 ++ [sampleMiner 22 (some "5Fb") none, sampleMiner 23 (some "5Fc") none]

/-- Eight participants of six owners: three of one owner and one of each of five others. -/
def smallOwners : List Miner :=
  ownedBy "5Fb" 16 3 ++
    [sampleMiner 19 (some "5Fc") none, sampleMiner 20 (some "5Fd") none,
     sampleMiner 21 (some "5Fe") none, sampleMiner 22 (some "5Ff") none,
     sampleMiner 23 (some "5Fg") none]

/-- Twenty-four participants of seven owners, the sixteen of the largest owner first. -/
def largestOwnerFirst : List Miner := ownedBy "5Fa" 0 16 ++ smallOwners

/-- The same twenty-four participants, the sixteen of the largest owner last. -/
def largestOwnerLast : List Miner := smallOwners ++ ownedBy "5Fa" 0 16

/-- Twenty-four participants of four owners who hold 17, 3, 2 and 2 of them; none has an
address or a location record. -/
def fourOwners : List Miner :=
  ownedBy "5Fa" 0 17 ++ ownedBy "5Fb" 17 3 ++ ownedBy "5Fc" 20 2 ++ ownedBy "5Fd" 22 2

/-! ## Hosting classification -/

/-- The method `s.includes(t)`: `t` occurs in `s` as a contiguous run of characters. For a
needle of ASCII characters, as all needles below are, the test on characters agrees with the
test on UTF-16 code units. -/
def includes (s t : String) : Bool := s.toList.tails.any (fun u => t.toList.isPrefixOf u)

/-- The array `cloudProviders`. -/
def cloudProviders : List String :=
  ["amazon", "aws", "microsoft", "azure", "google", "gcp", "digitalocean",
   "vultr", "linode", "ovh", "hetzner", "cloudflare", "oracle"]

/-- The array `vpsProviders`. -/
def vpsProviders : List String :=
  ["contabo", "hostinger", "godaddy", "namecheap", "dreamhost", "bluehost"]

/-- The array `residentialISPs`. -/
def residentialISPs : List String :=
  ["comcast", "verizon", "att", "charter", "cox", "spectrum", "frontier",
   "centurylink", "telus", "rogers", "bell", "shaw", "bt", "sky", "vodafone"]

/-- The function `classifyHostingType(isp, org, asn, isHosting)`. The built-in method
`toLowerCase` is an argument; a loop that returns on its first hit is `List.any`. -/
def classifyHostingType (toLowerCase : String → String) (isp org asn : Option String)
    (isHosting : Bool) : String :=
  let lowerISP := toLowerCase (orDefault isp "")
  let lowerOrg := toLowerCase (orDefault org "")
  let lowerASN := toLowerCase (orDefault asn "")
  if isHosting then "Hosting/Cloud"
  else if cloudProviders.any (fun provider =>
      includes lowerISP provider || includes lowerOrg provider || includes lowerASN provider)
  then "Cloud Provider"
  else if vpsProviders.any (fun provider =>
      includes lowerISP provider || includes lowerOrg provider)
  then "VPS/Hosting"
  else if residentialISPs.any (fun provider =>
      includes lowerISP provider || includes lowerOrg provider)
  then "Residential"
  else if includes lowerISP "datacenter" || includes lowerISP "server" ||
      includes lowerISP "hosting"
  then "Hosting/Datacenter"
  else if includes lowerISP "cable" || includes lowerISP "fiber" ||
      includes lowerISP "broadband"
  then "Residential"
  else "Unknown"

/-- The seven-step precedence list as the specification words it, with every textual step
evaluated on the lower-cased ISP name, organization name and AS description alike. -/
def classifyOnAllThree (toLowerCase : String → String) (isp org asn : Option String)
    (isHosting : Bool) : String :=
  let texts :=
    [toLowerCase (orDefault isp ""), toLowerCase (orDefault org ""),
      toLowerCase (orDefault asn "")]
  let hit := fun (tokens : List String) =>
    tokens.any (fun token => texts.any (fun text => includes text token))
  if isHosting then "Hosting/Cloud"
  else if hit cloudProviders then "Cloud Provider"
  else if hit vpsProviders then "VPS/Hosting"
  else if hit residentialISPs then "Residential"
  else if hit ["datacenter", "server", "hosting"] then "Hosting/Datacenter"
  else if hit ["cable", "fiber", "broadband"] then "Residential"
  else "Unknown"

/-- Lower-casing of the letters A to Z, which is what `toLowerCase` does to a string of ASCII
characters; used for the concrete instances below. -/
def asciiLower (s : String) : String := String.mk (s.toList.map Char.toLower)

/-- The element of `asnConcentration` made from one entry of `asnGroups`, for a snapshot of
`total` participants. -/
def asnEntryOf (total : Nat) (e : String × List Miner) : AsnEntry :=
  { asn := asnNumber e.1
    asname := orDefault ((e.2.head?.bind (·.location)).bind (·.asname)) "Unknown"
    count := e.2.length
    percentage := JSNum.toFixed 2 (JSNum.ofNat e.2.length / JSNum.ofNat total * 100)
    hostingType := (e.2.head?.bind (·.location)).bind (·.hostingType) }

/-- A participant with a location record that holds only the AS string. -/
def sampleMinerWithAsn (uid : Nat) (asn : String) : Miner :=
  { uid := uid
    coldkey := some "5Fowner"
    validator_permit := false
    axon_info := none
    location := some
      { country := none, city := none, asn := some asn, asname := none, hostingType := none } }

/-- The element of `hostingDistribution` made from one entry of `hostingTypes`, for a
snapshot of `total` participants. -/
def hostingEntryOf (total : Nat) (e : String × Nat) : HostingEntry :=
  { type := e.1
    count := e.2
    percentage := JSNum.toFixed 1 (JSNum.ofNat e.2 / JSNum.ofNat total * 100) }

/-- The element of `topOwners` made from one entry of `coldkeyGroups`, for a snapshot of
`total` participants. -/
def ownerEntryOf (total : Nat) (e : String × List Miner) : OwnerEntry :=
  { coldkey := e.1.take 8 ++ "..."
    count := e.2.length
    percentage := JSNum.toFixed 2 (JSNum.ofNat e.2.length / JSNum.ofNat total * 100) }

/-- The percentage of `c` among `n` as `toFixed(2)` prints it, in rational arithmetic. -/
def percent2 (n c : Nat) : ℚ := ((⌊(c : ℚ) / (n : ℚ) * 100 * 100 + 1 / 2⌋ : ℤ) : ℚ) / 100

/-- Eleven participants under eleven different coldkeys. -/
def elevenMiners : List Miner :=
  [sampleMiner 0 (some "owner00") none, sampleMiner 1 (some "owner01") none,
   sampleMiner 2 (some "owner02") none, sampleMiner 3 (some "owner03") none,
   sampleMiner 4 (some "owner04") none, sampleMiner 5 (some "owner05") none,
   sampleMiner 6 (some "owner06") none, sampleMiner 7 (some "owner07") none,
   sampleMiner 8 (some "owner08") none, sampleMiner 9 (some "owner09") none,
   sampleMiner 10 (some "owner10") none]

/-! ## The result cache and the analyze endpoint -/

/-- The object that the snapshot endpoint caches: `{ subnet, miners, lastUpdated }`. -/
structure SubnetData where
  subnet : Subnet
  miners : List Miner
  lastUpdated : Nat
deriving DecidableEq

/-- A value held in the cache: a snapshot, stored under a `subnet_` key, or a report, stored
under an `analysis_` key. -/
inductive CacheValue where
  | subnetData (data : SubnetData)
  | analysis (report : Report)
deriving DecidableEq

/-- Modelled from the spec: an entry of the `node-cache` store, a library whose source is not
under `src/`: the value and the instant, in milliseconds, up to which `get` returns it. -/
structure CacheEntry where
  value : CacheValue
  expires : Nat

/-- Modelled from the spec: the store `cache = new NodeCache({ stdTTL: 300 })`, keyed by
strings. -/
structure Cache where
  entries : String → Option CacheEntry

/-- The option `stdTTL: 300`, in milliseconds. -/
def stdTTL : Nat := 300 * 1000

/-- The store before any `set`. -/
def Cache.empty : Cache := { entries := fun _ => none }

/-- Modelled from the spec: the method `cache.get(key)` at the instant `now`; the stored value
if present and not expired, else a miss. -/
def Cache.get (cache : Cache) (key : String) (now : Nat) : Option CacheValue :=
  match cache.entries key with
  | none => none
  | some entry => if entry.expires < now then none else some entry.value

/-- Modelled from the spec: the method `cache.set(key, value)` at the instant `now`; it
replaces any entry of the key and starts its time to live afresh. -/
def Cache.set (cache : Cache) (key : String) (value : CacheValue) (now : Nat) : Cache :=
  { entries := fun k =>
      if k = key then some { value := value, expires := now + stdTTL } else cache.entries k }

/-- The body of a response: a cached or fresh object sent by `res.json`, or an error
object `{ error, details }`. -/
inductive Body where
  | data (value : CacheValue)
  | error (error : String) (details : Option String)
deriving DecidableEq

/-- A response: the HTTP status, 200 unless `res.status` sets it, and the body. -/
structure Response where
  status : Nat
  body : Body
deriving DecidableEq

/-- The handler of `GET /api/analyze/:subnetId`, run at the instant `now` on the cache state
`cache`; it gives the response and the cache state it leaves. A value under the `subnet_` key
that is no snapshot makes `calculateCentralization` throw, which the handler answers
with 500. -/
def analyzeEndpoint (SUBNET_ID : String) (cache : Cache) (param : Option String) (now : Nat) :
    Response × Cache :=
  let subnetId := orDefault param SUBNET_ID
  let cacheKey := "analysis_" ++ subnetId
  match cache.get cacheKey now with
  | some cachedAnalysis => ({ status := 200, body := Body.data cachedAnalysis }, cache)
  | none =>
    let subnetDataKey := "subnet_" ++ subnetId
    match cache.get subnetDataKey now with
    | none =>
      ({ status := 400
         body := Body.error "Subnet data not found. Fetch subnet data first." none }, cache)
    | some (CacheValue.subnetData subnetData) =>
      let analysis := calculateCentralization subnetData.subnet subnetData.miners now
      ({ status := 200, body := Body.data (CacheValue.analysis analysis) },
        cache.set cacheKey (CacheValue.analysis analysis) now)
    | some (CacheValue.analysis _) =>
      ({ status := 500
         body := Body.error "Failed to analyze centralization"
           (some "Cannot read properties of undefined (reading 'length')") }, cache)

/-- A cache state reached in three steps: the snapshot of subnet 8 is stored at instant 0,
and the analyze endpoint is called at 100 seconds, which stores the report. -/
def cacheAfterAnalysis : Cache :=
  (analyzeEndpoint "8"
    (Cache.empty.set "subnet_8"
      (CacheValue.subnetData { subnet := sampleSubnet, miners := tenMiners, lastUpdated := 0 })
      0)
    (some "8") 100000).2

/-- The address-cluster penalty in rational arithmetic: half the squared percentage share of
every cluster, summed. -/
def penaltyValue (miners : List Miner) : ℚ :=
  ((ipClusters miners).map (fun c => shareSq miners.length c.count * (1 / 2))).sum

/-! ## The geolocation resolver and the snapshot builder -/

/-- A value that the pipeline carries through without reading it. -/
inductive JsValue where
  | undefined : JsValue
  | null : JsValue
  | bool (b : Bool) : JsValue
  | number (x : JSNum) : JsValue
  | string (s : String) : JsValue
deriving DecidableEq

/-- The object `response.data` of a lookup that ended with `status === 'success'`. -/
structure IpApiData where
  country : Option String
  city : Option String
  lat : Option JSNum
  lon : Option JSNum
  regionName : Option String
  isp : Option String
  org : Option String
  as_ : Option String
  asname : Option String
  proxy : Option Bool
  mobile : Option Bool
  hosting : Option Bool
  timezone : Option String
deriving DecidableEq

/-- A location record as the server builds it; a field that the record does not have
is `none`. -/
structure GeoRecord where
  country : Option String
  city : Option String
  lat : Option JSNum
  lon : Option JSNum
  region : Option String
  isp : Option String
  organization : Option String
  asn : Option String
  asname : Option String
  hostingType : Option String
  isProxy : Option Bool
  isMobile : Option Bool
  isHosting : Option Bool
  timezone : Option String
deriving DecidableEq

/-- The function `getLocationFromIP(ip)`, given what the lookup service answers: `some data`
when the request succeeds with `status === 'success'`, `none` when it throws or reports
another status. -/
def getLocationFromIP (toLowerCase : String → String) (response : Option IpApiData) :
    GeoRecord :=
  match response with
  | some data =>
    { country := data.country
      city := data.city
      lat := data.lat
      lon := data.lon
      region := data.regionName
      isp := data.isp
      organization := data.org
      asn := data.as_
      asname := data.asname
      hostingType :=
        some (classifyHostingType toLowerCase data.isp data.org data.as_
          (data.hosting.getD false))
      isProxy := some (data.proxy.getD false)
      isMobile := some (data.mobile.getD false)
      isHosting := some (data.hosting.getD false)
      timezone := data.timezone }
  | none =>
    { country := some "Unknown"
      city := some "Unknown"
      lat := some 0
      lon := some 0
      region := some "Unknown"
      isp := some "Unknown"
      organization := some "Unknown"
      asn := some "Unknown"
      asname := some "Unknown"
      hostingType := some "Unknown"
      isProxy := some false
      isMobile := some false
      isHosting := some false
      timezone := some "Unknown" }

/-- The object `miner.axon` of a registry entry. -/
structure RegistryAxon where
  ip : Option String
  port : JsValue
  protocol : JsValue
deriving DecidableEq

/-- An element of `minersResponse.data.data`; `hotkey` and `coldkey` stand for
`miner.hotkey?.ss58` and `miner.coldkey?.ss58`. -/
structure RegistryMiner where
  uid : Nat
  hotkey : Option String
  coldkey : Option String
  stake : JsValue
  trust : JsValue
  consensus : JsValue
  incentive : JsValue
  dividends : JsValue
  emission : JsValue
  active : JsValue
  validator_permit : Bool
  daily_reward : JsValue
  axon : Option RegistryAxon
deriving DecidableEq

/-- The object `axon_info` of a processed participant. -/
structure ProcessedAxon where
  ip : String
  port : JsValue
  protocol : JsValue
deriving DecidableEq

/-- An element of `processedMiners`. -/
structure ProcessedMiner where
  uid : Nat
  hotkey : Option String
  coldkey : Option String
  stake : JsValue
  trust : JsValue
  consensus : JsValue
  incentive : JsValue
  dividends : JsValue
  emission : JsValue
  active : JsValue
  validator_permit : Bool
  daily_reward : JsValue
  axon_info : ProcessedAxon
  location : GeoRecord
deriving DecidableEq

/-- What the build loop does besides filling `processedMiners`: a call of
`getLocationFromIP` with an address, and a pacing delay of so many milliseconds. -/
inductive BuildEvent where
  | lookup (ip : String) : BuildEvent
  | pause (ms : Nat) : BuildEvent
deriving DecidableEq

/-- The state of the build loop. -/
structure BuildState where
  processedMiners : List ProcessedMiner
  events : List BuildEvent

/-- The addresses looked up so far, in the order of the calls. -/
def lookups : List BuildEvent → List String
  | [] => []
  | BuildEvent.lookup ip :: rest => ip :: lookups rest
  | BuildEvent.pause _ :: rest => lookups rest

/-- The test `axonIp && axonIp !== '0.0.0.0' && axonIp !== '127.0.0.1'` on
`miner.axon?.ip`. -/
def isRoutable (miner : RegistryMiner) : Bool :=
  match miner.axon.bind (·.ip) with
  | none => false
  | some axonIp => axonIp ≠ "" && axonIp ≠ "0.0.0.0" && axonIp ≠ "127.0.0.1"

/-- The object pushed in the first branch of the loop. -/
def resolvedEntry (miner : RegistryMiner) (axonIp : String) (location : GeoRecord) :
    ProcessedMiner :=
  { uid := miner.uid
    hotkey := miner.hotkey
    coldkey := miner.coldkey
    stake := miner.stake
    trust := miner.trust
    consensus := miner.consensus
    incentive := miner.incentive
    dividends := miner.dividends
    emission := miner.emission
    active := miner.active
    validator_permit := miner.validator_permit
    daily_reward := miner.daily_reward
    axon_info :=
      { ip := axonIp
        port := (miner.axon.map (·.port)).getD JsValue.undefined
        protocol := (miner.axon.map (·.protocol)).getD JsValue.undefined }
    location := location }

/-- The object pushed in the `else` branch of the loop. -/
def unresolvedEntry (miner : RegistryMiner) : ProcessedMiner :=
  { uid := miner.uid
    hotkey := miner.hotkey
    coldkey := miner.coldkey
    stake := miner.stake
    trust := miner.trust
    consensus := miner.consensus
    incentive := miner.incentive
    dividends := miner.dividends
    emission := miner.emission
    active := miner.active
    validator_permit := miner.validator_permit
    daily_reward := miner.daily_reward
    axon_info := { ip := "N/A", port := JsValue.null, protocol := JsValue.null }
    location :=
      { country := some "Unknown"
        city := some "Unknown"
        lat := some 0
        lon := some 0
        region := some "Unknown"
        isp := some "Unknown"
        organization := none
        asn := none
        asname := none
        hostingType := none
        isProxy := none
        isMobile := none
        isHosting := none
        timezone := none } }

/-- One turn of the loop `for (const miner of miners)`. The lookup service is `geo`: its
answer to the call with the given number, counted from 0, for the given address. -/
def processMiner (toLowerCase : String → String) (geo : Nat → String → Option IpApiData)
    (state : BuildState) (miner : RegistryMiner) : BuildState :=
  match miner.axon.bind (·.ip) with
  | none =>
    { processedMiners := state.processedMiners ++ [unresolvedEntry miner]
      events := state.events }
  | some axonIp =>
    if axonIp ≠ "" && axonIp ≠ "0.0.0.0" && axonIp ≠ "127.0.0.1" then
      let location := getLocationFromIP toLowerCase (geo (lookups state.events).length axonIp)
      let processedMiners := state.processedMiners ++ [resolvedEntry miner axonIp location]
      { processedMiners := processedMiners
        events :=
          state.events ++ [BuildEvent.lookup axonIp] ++
            (if processedMiners.length % 20 = 0 then [BuildEvent.pause 1000] else []) }
    else
      { processedMiners := state.processedMiners ++ [unresolvedEntry miner]
        events := state.events }

/-- The loop that fills `processedMiners` from the registry's list. -/
def processMiners (toLowerCase : String → String) (geo : Nat → String → Option IpApiData)
    (miners : List RegistryMiner) : BuildState :=
  miners.foldl (processMiner toLowerCase geo) { processedMiners := [], events := [] }

/-- A registry entry that advertises the given address, if any. -/
def sampleEntry (uid : Nat) (ip : Option String) : RegistryMiner :=
  { uid := uid
    hotkey := some "5Hot"
    coldkey := some "5Cold"
    stake := JsValue.string "1000"
    trust := JsValue.null
    consensus := JsValue.null
    incentive := JsValue.null
    dividends := JsValue.null
    emission := JsValue.null
    active := JsValue.bool true
    validator_permit := false
    daily_reward := JsValue.null
    axon := some { ip := ip, port := JsValue.null, protocol := JsValue.null } }

/-- A lookup service that never answers. -/
def noGeo : Nat → String → Option IpApiData := fun _ _ => none

/-- The address with which the loop calls the resolver for a registry entry, if it
does. -/
def routableIp (miner : RegistryMiner) : Option String :=
  if isRoutable miner then miner.axon.bind (·.ip) else none

/-- How a registry entry and the element of `processedMiners` made from it are related. -/
def BuiltFrom (miner : RegistryMiner) (entry : ProcessedMiner) : Prop :=
  (isRoutable miner = false ∧ entry = unresolvedEntry miner) ∨
    (isRoutable miner = true ∧
      ∃ axonIp location, miner.axon.bind (·.ip) = some axonIp ∧
        entry = resolvedEntry miner axonIp location)

/-- Twenty-one registry entries: nineteen that advertise "1.1.1.1", then one that advertises
the non-routable "0.0.0.0", then one more that advertises "1.1.1.1". -/
def pausedRegistry : List RegistryMiner :=
  (List.range 19).map (fun i => sampleEntry i (some "1.1.1.1")) ++
    [sampleEntry 19 (some "0.0.0.0"), sampleEntry 20 (some "1.1.1.1")]

/-! ## The client function `fetchWithRetry` -/

/-- What one `await fetch(url)` gives: a response, of which the loop reads the status and
the `Retry-After` header (in seconds, when present), or a rejection. -/
inductive FetchResult where
  | response (status : Nat) (retryAfter : Option Nat) : FetchResult
  | rejected (message : String) : FetchResult
deriving DecidableEq

/-- An error that the loop throws or rethrows: `new Error('HTTP error! status: ...')` for a
response that is not ok, or the rejection of `fetch`. -/
inductive FetchError where
  | http (status : Nat) : FetchError
  | network (message : String) : FetchError
deriving DecidableEq

/-- How a call of `fetchWithRetry` ends: it returns the response, it falls out of the loop
and returns `undefined`, or it throws. -/
inductive RetryOutcome where
  | returned (status : Nat) : RetryOutcome
  | returnedUndefined : RetryOutcome
  | threw (error : FetchError) : RetryOutcome
deriving DecidableEq

/-- What the loop does on the way: the attempt with the given number, and a sleep of so many
milliseconds. -/
inductive RetryEvent where
  | attempt (number : Nat) : RetryEvent
  | sleep (ms : Nat) : RetryEvent
deriving DecidableEq

/-- The `catch` block of the loop body, followed by the rest of the loop. -/
def retryCatch (maxRetries delay attempt : Nat) (error : FetchError)
    (rest : RetryOutcome × List RetryEvent) : RetryOutcome × List RetryEvent :=
  if attempt = maxRetries then (RetryOutcome.threw error, [])
  else (rest.1, RetryEvent.sleep delay :: rest.2)

/-- The loop `for (attempt = 1; attempt <= maxRetries; attempt++)` from the turn `attempt` on,
with `remaining` turns left, which is `maxRetries + 1 - attempt`. The answer of the server to
the attempt number `n` is `fetch n`. Without header, `retryAfter * 1000` is `delay`. -/
def fetchLoop (fetch : Nat → FetchResult) (maxRetries delay : Nat) :
    Nat → Nat → RetryOutcome × List RetryEvent
  | 0, _ => (RetryOutcome.returnedUndefined, [])
  | remaining + 1, attempt =>
    let rest := fetchLoop fetch maxRetries delay remaining (attempt + 1)
    let turn :=
      match fetch attempt with
      | FetchResult.response status retryAfter =>
        if status = 429 then
          let waitTime :=
            match retryAfter with
            | some seconds => max delay (seconds * 1000)
            | none => delay
          (rest.1, RetryEvent.sleep waitTime :: rest.2)
        else if ¬ (200 ≤ status ∧ status ≤ 299) then
          retryCatch maxRetries delay attempt (FetchError.http status) rest
        else (RetryOutcome.returned status, [])
      | FetchResult.rejected message =>
        retryCatch maxRetries delay attempt (FetchError.network message) rest
    (turn.1, RetryEvent.attempt attempt :: turn.2)

/-- The function `fetchWithRetry(url, maxRetries, delay)`. -/
def fetchWithRetry (fetch : Nat → FetchResult) (maxRetries delay : Nat) :
    RetryOutcome × List RetryEvent :=
  fetchLoop fetch maxRetries delay maxRetries 1

/-! ## The rate limiter `rateLimitedRequest` -/

/-- The constant `MIN_INTERVAL`. -/
def MIN_INTERVAL : Nat := 12000

/-- The state in which calls of `rateLimitedRequest` run: the clock, the variable
`lastApiCall`, the callers suspended in `await new Promise(...)` with the instant at which
their timer fires, and the upstream calls issued so far with their instants. -/
structure LimiterState where
  now : Nat
  lastApiCall : Nat
  sleeping : List (Nat × Nat)
  issued : List (Nat × Nat)
deriving DecidableEq

/-- A step of the event loop: a caller enters `rateLimitedRequest`, the timer of a suspended
caller fires and the caller runs on, or time passes. -/
inductive LimiterStep where
  | call (caller : Nat) : LimiterStep
  | wake (caller : Nat) : LimiterStep
  | elapse (ms : Nat) : LimiterStep
deriving DecidableEq

/-- The last two statements of `rateLimitedRequest`: `lastApiCall = Date.now()` and the
upstream call. -/
def issueCall (state : LimiterState) (caller : Nat) : LimiterState :=
  { state with lastApiCall := state.now, issued := state.issued ++ [(caller, state.now)] }

/-- One step of the event loop. A caller that enters runs up to the `await` if it has to
wait, and to the end otherwise; a caller whose timer is due runs from the `await` to the end;
a `wake` of a caller that is not due changes nothing. -/
def limiterStep (state : LimiterState) : LimiterStep → LimiterState
  | LimiterStep.call caller =>
    let timeSinceLastCall : Int := (state.now : Int) - (state.lastApiCall : Int)
    if timeSinceLastCall < (MIN_INTERVAL : Int) then
      let waitTime : Int := (MIN_INTERVAL : Int) - timeSinceLastCall
      { state with sleeping := state.sleeping ++ [(caller, state.now + waitTime.toNat)] }
    else issueCall state caller
  | LimiterStep.wake caller =>
    match state.sleeping.find? (fun s => s.1 = caller) with
    | none => state
    | some s =>
      if s.2 ≤ state.now then
        issueCall { state with sleeping := state.sleeping.filter (fun x => x.1 ≠ caller) } caller
      else state
  | LimiterStep.elapse ms => { state with now := state.now + ms }

/-- A run of the event loop. -/
def limiterRun (state : LimiterState) (steps : List LimiterStep) : LimiterState :=
  steps.foldl limiterStep state

/-! ## The snapshot endpoint and runs of the server -/

/-- The outcome of the two registry calls as far as the build uses it: the `subnet` object
assembled from the first, and the list `miners` of the second. -/
structure Upstream where
  subnet : Subnet
  miners : List RegistryMiner

/-- A processed participant as the analyzer reads it. -/
def toMiner (p : ProcessedMiner) : Miner :=
  { uid := p.uid
    coldkey := p.coldkey
    validator_permit := p.validator_permit
    axon_info := some { ip := some p.axon_info.ip }
    location := some
      { country := p.location.country
        city := p.location.city
        asn := p.location.asn
        asname := p.location.asname
        hostingType := p.location.hostingType } }

/-- The handler of `GET /api/subnet/:subnetId` for a request that arrives at the instant `now`
and, when it has to build, ends at the instant `finished`, with no other request running in
between. The registry calls give `upstream`, or throw with a message. -/
def snapshotEndpoint (SUBNET_ID : String) (toLowerCase : String → String) (cache : Cache)
    (param : Option String) (now : Nat) (upstream : Except String Upstream)
    (geo : Nat → String → Option IpApiData) (finished : Nat) : Response × Cache :=
  let subnetId := orDefault param SUBNET_ID
  let cacheKey := "subnet_" ++ subnetId
  match cache.get cacheKey now with
  | some cachedData => ({ status := 200, body := Body.data cachedData }, cache)
  | none =>
    match upstream with
    | Except.error message =>
      ({ status := 500, body := Body.error "Failed to fetch subnet data" (some message) },
        cache)
    | Except.ok registry =>
      let processedMiners := (processMiners toLowerCase geo registry.miners).processedMiners
      let result : SubnetData :=
        { subnet := registry.subnet
          miners := processedMiners.map toMiner
          lastUpdated := finished }
      ({ status := 200, body := Body.data (CacheValue.subnetData result) },
        cache.set cacheKey (CacheValue.subnetData result) finished)

/-- A step that reads or writes the cache, at the granularity at which handlers interleave:
the `cache.set(cacheKey, result)` that ends a build of the snapshot endpoint, a request to the
analyze endpoint (which runs without suspension), the `flushAll` of the clear endpoint, and
the passing of time. A snapshot request that finds its snapshot cached writes nothing. -/
inductive ServerStep where
  | store (param : Option String) (data : SubnetData) : ServerStep
  | analyze (param : Option String) : ServerStep
  | clear : ServerStep
  | elapse (ms : Nat) : ServerStep

/-- The cache and the clock of the server. -/
structure ServerState where
  cache : Cache
  now : Nat

/-- One step of the server. -/
def serverStep (SUBNET_ID : String) (state : ServerState) : ServerStep → ServerState
  | ServerStep.store param data =>
    { state with
      cache := state.cache.set ("subnet_" ++ orDefault param SUBNET_ID)
        (CacheValue.subnetData data) state.now }
  | ServerStep.analyze param =>
    { state with cache := (analyzeEndpoint SUBNET_ID state.cache param state.now).2 }
  | ServerStep.clear => { state with cache := Cache.empty }
  | ServerStep.elapse ms => { state with now := state.now + ms }

/-- A run of the server from a state. -/
def serverRun (SUBNET_ID : String) (state : ServerState) (steps : List ServerStep) :
    ServerState :=
  steps.foldl (serverStep SUBNET_ID) state

/-- The snapshots that a run stores, each with the subnet id it is stored for. -/
def storedIn (SUBNET_ID : String) : List ServerStep → List (String × SubnetData)
  | [] => []
  | ServerStep.store param data :: rest =>
    (orDefault param SUBNET_ID, data) :: storedIn SUBNET_ID rest
  | _ :: rest => storedIn SUBNET_ID rest

/-- The cache after a snapshot of one participant is built at instant 0, analysed at 100
seconds, and, the snapshot having expired, a snapshot of two participants is built at
310 seconds. -/
def cacheAfterRebuild : Cache :=
  (snapshotEndpoint "8" asciiLower
    (analyzeEndpoint "8"
      (snapshotEndpoint "8" asciiLower Cache.empty (some "8") 0
        (Except.ok { subnet := sampleSubnet, miners := [sampleEntry 0 (some "1.1.1.1")] })
        noGeo 0).2
      (some "8") 100000).2
    (some "8") 310000
    (Except.ok
      { subnet := sampleSubnet
        miners := [sampleEntry 0 (some "1.1.1.1"), sampleEntry 1 (some "2.2.2.2")] })
    noGeo 310000).2

/-- An analyze request of the run `steps` from `start` computed a report for `subnetId` from
the snapshot `data` at the instant `t`: the request is the step that follows a first part
`pre` of the run, after which the clock shows `t`, no report is cached for the id, the lookup
`cache.get` of the `subnet_` key gives `data`, and `pre` has stored `data` for the id. -/
def ComputedAt (SUBNET_ID : String) (start : ServerState) (steps : List ServerStep)
    (subnetId : String) (data : SubnetData) (t : Nat) : Prop :=
  ∃ (pre rest : List ServerStep) (param : Option String),
    steps = pre ++ ServerStep.analyze param :: rest ∧
    orDefault param SUBNET_ID = subnetId ∧
    (serverRun SUBNET_ID start pre).now = t ∧
    (serverRun SUBNET_ID start pre).cache.get ("analysis_" ++ subnetId) t = none ∧
    (serverRun SUBNET_ID start pre).cache.get ("subnet_" ++ subnetId) t =
      some (CacheValue.subnetData data) ∧
    (subnetId, data) ∈ storedIn SUBNET_ID pre

/-- The cache holds only what the run `steps` from `start` has put there: a report under the
`analysis_` key of a subnet id is the analysis, at an instant `t` not in the future and with
its time to live counted from `t`, of the snapshot that was cached for that id at `t`, when
an analyze request of the run computed it; a value under the `subnet_` key of a subnet id is
a snapshot that the run stored for that id. -/
def Coherent (SUBNET_ID : String) (start : ServerState) (steps : List ServerStep)
    (state : ServerState) : Prop :=
  (∀ (subnetId : String) (entry : CacheEntry),
      state.cache.entries ("analysis_" ++ subnetId) = some entry →
        ∃ (data : SubnetData) (t : Nat), ComputedAt SUBNET_ID start steps subnetId data t ∧
          t ≤ state.now ∧ entry.expires = t + stdTTL ∧
          entry.value = CacheValue.analysis (calculateCentralization data.subnet data.miners t)) ∧
    ∀ (subnetId : String) (entry : CacheEntry),
      state.cache.entries ("subnet_" ++ subnetId) = some entry →
        ∃ data : SubnetData, (subnetId, data) ∈ storedIn SUBNET_ID steps ∧
          entry.value = CacheValue.subnetData data

/-! ## Lemmas -/

open JSNum

namespace JSNum

@[simp]
theorem ofNat_eq_fin (n : Nat) : ofNat n = fin (n : ℚ) := rfl

@[simp]
theorem lit_eq_fin (n : Nat) : (OfNat.ofNat n : JSNum) = fin (n : ℚ) := rfl

@[simp]
theorem fin_add_fin (a b : ℚ) : fin a + fin b = fin (a + b) := rfl

@[simp]
theorem fin_sub_fin (a b : ℚ) : fin a - fin b = fin (a - b) := by
  show add (fin a) (neg (fin b)) = _
  simp [add, neg, sub_eq_add_neg]

@[simp]
theorem fin_mul_fin (a b : ℚ) : fin a * fin b = fin (a * b) := rfl

theorem fin_div_fin (a b : ℚ) (hb : b ≠ 0) : fin a / fin b = fin (a / b) := by
  show div (fin a) (fin b) = _
  simp [div, hb]

@[simp]
theorem fin_div_zero_zero : fin 0 / fin 0 = nan := by
  show div (fin 0) (fin 0) = _
  simp [div]

@[simp]
theorem nan_mul (x : JSNum) : nan * x = nan := by
  show mul nan x = nan
  cases x <;> rfl

@[simp]
theorem nan_div (x : JSNum) : nan / x = nan := by
  show div nan x = nan
  cases x <;> rfl

@[simp]
theorem sub_nan (x : JSNum) : x - nan = nan := by
  show add x (neg nan) = nan
  cases x <;> rfl

@[simp]
theorem mathMax_nan_right (x : JSNum) : mathMax x nan = nan := by
  cases x <;> rfl

@[simp]
theorem mathMin_nan_right (x : JSNum) : mathMin x nan = nan := by
  cases x <;> rfl

@[simp]
theorem mathRound_nan : mathRound nan = nan := rfl

@[simp]
theorem mathRound_fin (q : ℚ) : mathRound (fin q) = fin ((⌊q + 1 / 2⌋ : ℤ) : ℚ) := rfl

@[simp]
theorem gt_fin_fin (a b : ℚ) : gt (fin a) (fin b) = decide (b < a) := rfl

@[simp]
theorem mathMax_fin_fin (a b : ℚ) : mathMax (fin a) (fin b) = fin (max a b) := by
  show (if gt (fin b) (fin a) then fin b else fin a) = _
  rcases le_or_lt b a with h | h
  · simp [not_lt.mpr h, max_eq_left h]
  · simp [h, max_eq_right h.le]

@[simp]
theorem mathMin_fin_fin (a b : ℚ) : mathMin (fin a) (fin b) = fin (min a b) := by
  show (if gt (fin a) (fin b) then fin b else fin a) = _
  rcases le_or_lt a b with h | h
  · simp [not_lt.mpr h, min_eq_left h]
  · simp [h, min_eq_right h.le]

theorem round2_fin (q : ℚ) :
    round2 (fin q) = fin (((⌊q * 100 + 1 / 2⌋ : ℤ) : ℚ) / 100) := by
  simp [round2, fin_div_fin]

@[simp]
theorem round2_nan : round2 nan = nan := by
  simp [round2]

end JSNum

theorem groupPush_keys {α : Type} (G : Dict (List α)) (k : String) (m : α) :
    (groupPush G k m).map Prod.fst =
      if k ∈ G.map Prod.fst then G.map Prod.fst else G.map Prod.fst ++ [k] := by
  induction G with
  | nil => simp [groupPush]
  | cons e rest ih =>
    obtain ⟨k', g⟩ := e
    by_cases h : k' = k
    · simp [groupPush, h]
    · have h' : ¬ k = k' := fun c => h c.symm
      by_cases hm : k ∈ rest.map Prod.fst
      · simp [groupPush, h, h', ih, hm]
      · simp [groupPush, h, h', ih, hm]

theorem groupOf_groupPush {α : Type} (G : Dict (List α)) (k : String) (m : α) (k' : String) :
    groupOf (groupPush G k m) k' = if k' = k then groupOf G k ++ [m] else groupOf G k' := by
  induction G with
  | nil =>
    by_cases h : k' = k
    · simp [groupPush, groupOf, h]
    · have h' : ¬ k = k' := fun c => h c.symm
      simp [groupPush, groupOf, h, h']
  | cons e rest ih =>
    obtain ⟨k₀, g⟩ := e
    by_cases h0 : k₀ = k
    · subst h0
      by_cases h : k' = k₀
      · simp [groupPush, groupOf, h]
      · have h' : ¬ k₀ = k' := fun c => h c.symm
        simp [groupPush, groupOf, h, h']
    · by_cases h : k' = k
      · subst h
        simp [groupPush, groupOf, h0, ih]
      · by_cases h1 : k₀ = k'
        · simp [groupPush, groupOf, h0, h, h1]
        · simp [groupPush, groupOf, h0, h, h1, ih]

theorem eq_map_groupOf {α : Type} (G : Dict (List α)) (h : (G.map Prod.fst).Nodup) :
    G = (G.map Prod.fst).map (fun k => (k, groupOf G k)) := by
  induction G with
  | nil => rfl
  | cons e rest ih =>
    obtain ⟨k₀, g⟩ := e
    simp only [List.map_cons, List.nodup_cons] at h
    have hrest := ih h.2
    simp only [List.map_cons, groupOf, if_true, List.map_map]
    congr 1
    conv_lhs => rw [hrest]
    rw [List.map_map]
    apply List.map_congr_left
    intro e he
    have : k₀ ≠ e.1 := by
      intro c
      apply h.1
      rw [c]
      exact List.mem_map_of_mem _ he
    simp [groupOf, this]

theorem groupBy_append {α : Type} (key : α → String) (l : List α) (m : α) :
    groupBy key (l ++ [m]) = groupPush (groupBy key l) (key m) m := by
  simp [groupBy, List.foldl_append]

theorem groupBy_keys_nodup {α : Type} (key : α → String) (l : List α) :
    ((groupBy key l).map Prod.fst).Nodup := by
  induction l using List.reverseRecOn with
  | nil => simp [groupBy]
  | append_singleton l m ih =>
    rw [groupBy_append, groupPush_keys]
    split
    · exact ih
    · next hm =>
      rw [List.nodup_append]
      refine ⟨ih, List.nodup_singleton _, ?_⟩
      intro a ha hb
      simp at hb
      subst hb
      exact hm ha

theorem mem_groupBy_keys {α : Type} (key : α → String) (l : List α) :
    ∀ k : String, k ∈ (groupBy key l).map Prod.fst ↔ k ∈ l.map key := by
  induction l using List.reverseRecOn with
  | nil => simp [groupBy]
  | append_singleton l m ih =>
    intro k
    rw [groupBy_append, groupPush_keys]
    split
    · next hm =>
      rw [ih] at hm
      rw [ih]
      simp only [List.map_append, List.mem_append, List.map_cons, List.map_nil,
        List.mem_singleton]
      constructor
      · exact Or.inl
      · rintro (h | h)
        · exact h
        · rw [h]; exact hm
    · simp only [List.map_append, List.mem_append, List.map_cons, List.map_nil,
        List.mem_singleton, ih]

theorem groupOf_groupBy {α : Type} (key : α → String) (l : List α) (k : String) :
    groupOf (groupBy key l) k = l.filter (fun m => key m = k) := by
  induction l using List.reverseRecOn with
  | nil => simp [groupBy, groupOf]
  | append_singleton l m ih =>
    rw [groupBy_append, groupOf_groupPush, List.filter_append]
    by_cases h : k = key m
    · subst h
      simp [ih]
    · have h' : ¬ key m = k := fun c => h c.symm
      simp [h, h', ih]

theorem groupBy_eq {α : Type} (key : α → String) (l : List α) :
    groupBy key l =
      ((groupBy key l).map Prod.fst).map (fun k => (k, l.filter (fun m => key m = k))) := by
  conv_lhs => rw [eq_map_groupOf _ (groupBy_keys_nodup key l)]
  apply List.map_congr_left
  intro k _
  rw [groupOf_groupBy]

theorem groupBy_keys_toFinset {α : Type} (key : α → String) (l : List α) :
    ((groupBy key l).map Prod.fst).toFinset = (l.map key).toFinset := by
  ext k
  simp only [List.mem_toFinset]
  exact mem_groupBy_keys key l k

theorem groupBy_length {α : Type} (key : α → String) (l : List α) :
    (groupBy key l).length = (l.map key).toFinset.card := by
  rw [← groupBy_keys_toFinset, List.toFinset_card_of_nodup (groupBy_keys_nodup key l)]
  simp

theorem coldkeyGroups_eq (miners : List Miner) : coldkeyGroups miners = groupBy ownerKey miners :=
  rfl

theorem hostingTypes_eq (miners : List Miner) : hostingTypes miners = countBy hostingKey miners :=
  rfl

theorem shareSq_nonneg (n c : Nat) : 0 ≤ shareSq n c := sq_nonneg _

theorem foldl_add_fin {α : Type} (t : α → JSNum) (g : α → ℚ) (ht : ∀ e, t e = fin (g e))
    (L : List α) :
    ∀ acc : ℚ, L.foldl (fun sum e => sum + t e) (fin acc) = fin (acc + (L.map g).sum) := by
  induction L with
  | nil => intro acc; simp
  | cons e rest ih =>
    intro acc
    simp only [List.foldl_cons, List.map_cons, List.sum_cons]
    rw [ht e, fin_add_fin, ih]
    congr 1
    ring

theorem share_mul_share (n c : Nat) (hn : n ≠ 0) :
    (JSNum.ofNat c / JSNum.ofNat n * 100) * (JSNum.ofNat c / JSNum.ofNat n * 100) =
      fin (shareSq n c) := by
  have hn' : (n : ℚ) ≠ 0 := Nat.cast_ne_zero.mpr hn
  simp [fin_div_fin _ _ hn', shareSq, sq]

theorem baseHHI_eq (miners : List Miner) : baseHHI miners = fin (baseIndex miners) := by
  rcases eq_or_ne miners [] with h | h
  · subst h
    simp [baseHHI, coldkeyGroups, baseIndex]
  · have hn : miners.length ≠ 0 := by simpa using h
    have key := foldl_add_fin
      (fun e : String × List Miner =>
        (JSNum.ofNat e.2.length / JSNum.ofNat miners.length * 100) *
          (JSNum.ofNat e.2.length / JSNum.ofNat miners.length * 100))
      (fun e => shareSq miners.length e.2.length)
      (fun e => share_mul_share _ _ hn) (coldkeyGroups miners) 0
    have h0 : (0 : JSNum) = fin 0 := rfl
    unfold baseHHI
    rw [h0]
    refine key.trans ?_
    congr 1
    rw [zero_add, coldkeyGroups_eq]
    unfold baseIndex
    conv_lhs => rw [groupBy_eq]
    rw [List.map_map, ← groupBy_keys_toFinset, List.sum_toFinset _ (groupBy_keys_nodup _ _)]
    rfl

theorem baseIndex_nonneg (miners : List Miner) : 0 ≤ baseIndex miners :=
  Finset.sum_nonneg (fun _ _ => shareSq_nonneg _ _)

theorem ipClusterPenalty_eq (miners : List Miner) :
    ∃ p : ℚ, ipClusterPenalty miners = fin p ∧ 0 ≤ p := by
  rcases eq_or_ne miners [] with h | h
  · subst h
    exact ⟨0, by simp [ipClusterPenalty, ipClusters, ipGroups, sortByCountDesc], le_refl _⟩
  · have hn : miners.length ≠ 0 := by simpa using h
    have key := foldl_add_fin
      (fun c : IpCluster =>
        (JSNum.ofNat c.count / JSNum.ofNat miners.length * 100) *
          (JSNum.ofNat c.count / JSNum.ofNat miners.length * 100) * fin (1 / 2))
      (fun c => shareSq miners.length c.count * (1 / 2))
      (fun c => by simp only [share_mul_share _ _ hn, fin_mul_fin]) (ipClusters miners) 0
    have h0 : (0 : JSNum) = fin 0 := rfl
    refine ⟨(List.map (fun c => shareSq miners.length c.count * (1 / 2)) (ipClusters miners)).sum,
      ?_, ?_⟩
    · unfold ipClusterPenalty
      rw [h0]
      refine key.trans ?_
      rw [zero_add]
    · apply List.sum_nonneg
      intro x hx
      simp only [List.mem_map] at hx
      obtain ⟨c, _, rfl⟩ := hx
      exact mul_nonneg (shareSq_nonneg _ _) (by norm_num)

theorem adjustedHHI_eq (miners : List Miner) :
    ∃ p : ℚ, adjustedHHI miners = fin (baseIndex miners + p) ∧ 0 ≤ p := by
  obtain ⟨p, hp, hp0⟩ := ipClusterPenalty_eq miners
  exact ⟨p, by rw [adjustedHHI, baseHHI_eq, hp, fin_add_fin], hp0⟩

theorem mem_coldkeyGroups (miners : List Miner) (e : String × List Miner)
    (he : e ∈ coldkeyGroups miners) :
    e.2 = miners.filter (fun m => ownerKey m = e.1) := by
  rw [coldkeyGroups_eq, groupBy_eq] at he
  simp only [List.mem_map] at he
  obtain ⟨k, _, rfl⟩ := he
  rfl

theorem baseIndex_perm (miners miners₂ : List Miner) (h : miners.Perm miners₂) :
    baseIndex miners = baseIndex miners₂ := by
  unfold baseIndex
  rw [List.toFinset_eq_of_perm _ _ (h.map ownerKey), h.length_eq]
  apply Finset.sum_congr rfl
  intro k _
  rw [(h.filter _).length_eq]

theorem sum_group_sizes (miners : List Miner) :
    ∑ k ∈ (miners.map ownerKey).toFinset, (miners.filter (fun m => ownerKey m = k)).length =
      miners.length := by
  have := List.sum_toFinset_count_eq_length (miners.map ownerKey)
  rw [List.length_map] at this
  rw [← this]
  apply Finset.sum_congr rfl
  intro k _
  rw [List.count, List.countP_map, List.countP_eq_length_filter]
  congr 1

theorem baseIndex_le (miners : List Miner) : baseIndex miners ≤ 10000 := by
  rcases eq_or_ne miners [] with h | h
  · subst h
    simp [baseIndex]
  · have hn : miners.length ≠ 0 := by simpa using h
    have hn' : (0 : ℚ) < (miners.length : ℚ) := by
      exact_mod_cast Nat.pos_of_ne_zero hn
    have hterm : ∀ k ∈ (miners.map ownerKey).toFinset,
        shareSq miners.length (miners.filter (fun m => ownerKey m = k)).length ≤
          10000 / (miners.length : ℚ) *
            ((miners.filter (fun m => ownerKey m = k)).length : ℚ) := by
      intro k _
      have hc : ((miners.filter (fun m => ownerKey m = k)).length : ℚ) ≤ (miners.length : ℚ) := by
        exact_mod_cast List.length_filter_le _ _
      have hc0 : (0 : ℚ) ≤ ((miners.filter (fun m => ownerKey m = k)).length : ℚ) :=
        Nat.cast_nonneg _
      unfold shareSq
      generalize ((miners.filter (fun m => ownerKey m = k)).length : ℚ) = c at hc hc0 ⊢
      have h1 : c / (miners.length : ℚ) ≤ 1 := (div_le_one hn').mpr hc
      have h0 : 0 ≤ c / (miners.length : ℚ) := div_nonneg hc0 hn'.le
      have : (c / (miners.length : ℚ) * 100) ^ 2 ≤ 10000 * (c / (miners.length : ℚ)) := by
        nlinarith
      calc (c / (miners.length : ℚ) * 100) ^ 2 ≤ 10000 * (c / (miners.length : ℚ)) := this
        _ = 10000 / (miners.length : ℚ) * c := by ring
    calc baseIndex miners
        ≤ ∑ k ∈ (miners.map ownerKey).toFinset, 10000 / (miners.length : ℚ) *
            ((miners.filter (fun m => ownerKey m = k)).length : ℚ) := Finset.sum_le_sum hterm
      _ = 10000 / (miners.length : ℚ) * (miners.length : ℚ) := by
          rw [← Finset.mul_sum]
          congr 1
          exact_mod_cast sum_group_sizes miners
      _ = 10000 := by field_simp

theorem baseIndex_single_owner (miners : List Miner) (hne : miners ≠ [])
    (h : ∀ m ∈ miners, ∀ m₂ ∈ miners, m.coldkey = m₂.coldkey) : baseIndex miners = 10000 := by
  obtain ⟨m₀, hm₀⟩ := List.exists_mem_of_ne_nil miners hne
  have hkey : ∀ m ∈ miners, ownerKey m = ownerKey m₀ := by
    intro m hm
    unfold ownerKey
    rw [h m hm m₀ hm₀]
  have hfin : (miners.map ownerKey).toFinset = {ownerKey m₀} := by
    ext k
    simp only [List.mem_toFinset, List.mem_map, Finset.mem_singleton]
    constructor
    · rintro ⟨m, hm, rfl⟩
      exact hkey m hm
    · rintro rfl
      exact ⟨m₀, hm₀, rfl⟩
  have hfilter : miners.filter (fun m => ownerKey m = ownerKey m₀) = miners := by
    rw [List.filter_eq_self]
    intro m hm
    simpa using hkey m hm
  have hn : (miners.length : ℚ) ≠ 0 := by
    have : miners.length ≠ 0 := by simpa using hne
    exact_mod_cast this
  unfold baseIndex
  rw [hfin, Finset.sum_singleton, hfilter, shareSq, div_self hn]
  norm_num

theorem countOf_countInc (C : Dict Nat) (k k' : String) :
    countOf (countInc C k) k' = if k' = k then countOf C k + 1 else countOf C k' := by
  induction C with
  | nil =>
    by_cases h : k' = k
    · simp [countInc, countOf, h]
    · have h' : ¬ k = k' := fun c => h c.symm
      simp [countInc, countOf, h, h']
  | cons e rest ih =>
    obtain ⟨k₀, c⟩ := e
    by_cases h0 : k₀ = k
    · subst h0
      by_cases h : k' = k₀
      · simp [countInc, countOf, h]
      · have h' : ¬ k₀ = k' := fun c => h c.symm
        simp [countInc, countOf, h, h']
    · by_cases h : k' = k
      · subst h
        simp [countInc, countOf, h0, ih]
      · by_cases h1 : k₀ = k'
        · simp [countInc, countOf, h0, h, h1]
        · simp [countInc, countOf, h0, h, h1, ih]

theorem countOf_countBy {α : Type} (key : α → String) (l : List α) (k : String) :
    countOf (countBy key l) k = l.countP (fun m => key m = k) := by
  induction l using List.reverseRecOn with
  | nil => simp [countBy, countOf]
  | append_singleton l m ih =>
    have : countBy key (l ++ [m]) = countInc (countBy key l) (key m) := by
      simp [countBy, List.foldl_append]
    rw [this, countOf_countInc, List.countP_append]
    by_cases h : k = key m
    · subst h
      simp [ih]
    · have h' : ¬ key m = k := fun c => h c.symm
      simp [h, h', ih]

theorem cloudCentralizationRisk_eq (miners : List Miner) :
    cloudCentralizationRisk miners =
      JSNum.ofNat (cloudCount miners) / JSNum.ofNat miners.length * 100 := by
  unfold cloudCentralizationRisk cloudCount
  simp only [hostingTypes_eq, countOf_countBy, Nat.add_assoc]

theorem cloudCentralizationRisk_fin (miners : List Miner) (h : miners ≠ []) :
    cloudCentralizationRisk miners =
      fin ((cloudCount miners : ℚ) / (miners.length : ℚ) * 100) := by
  have hn : (miners.length : ℚ) ≠ 0 := by
    have : miners.length ≠ 0 := by simpa using h
    exact_mod_cast this
  rw [cloudCentralizationRisk_eq]
  simp [fin_div_fin _ _ hn]

theorem enhancedDecentralizationScore_fin (miners : List Miner) (h : miners ≠ []) :
    enhancedDecentralizationScore miners = fin (scoreValue miners) := by
  unfold enhancedDecentralizationScore scoreValue
  rw [baseHHI_eq, cloudCentralizationRisk_fin miners h]
  simp [fin_div_fin]

theorem scoreValue_bounds (miners : List Miner) :
    0 ≤ scoreValue miners ∧ scoreValue miners ≤ 100 := by
  unfold scoreValue
  refine ⟨le_max_left _ _, ?_⟩
  have hb := baseIndex_nonneg miners
  have h1 : max 0 (100 - baseIndex miners / 100) ≤ 100 := by
    apply max_le (by norm_num)
    linarith [div_nonneg hb (by norm_num : (0 : ℚ) ≤ 100)]
  have h2 : (0 : ℚ) ≤ min 20 (((ipClusters miners).length : ℚ) * 5) :=
    le_min (by norm_num) (mul_nonneg (Nat.cast_nonneg _) (by norm_num))
  have h3 : (0 : ℚ) ≤
      min 30 ((cloudCount miners : ℚ) / (miners.length : ℚ) * 100 * (1 / 2)) := by
    apply le_min (by norm_num)
    apply mul_nonneg _ (by norm_num)
    apply mul_nonneg _ (by norm_num)
    exact div_nonneg (Nat.cast_nonneg _) (Nat.cast_nonneg _)
  apply max_le (by norm_num)
  linarith

theorem round2_bounds (x : ℚ) (h0 : 0 ≤ x) (h1 : x ≤ 100) :
    0 ≤ ((⌊x * 100 + 1 / 2⌋ : ℤ) : ℚ) / 100 ∧ ((⌊x * 100 + 1 / 2⌋ : ℤ) : ℚ) / 100 ≤ 100 := by
  have hlo : (0 : ℤ) ≤ ⌊x * 100 + 1 / 2⌋ := Int.floor_nonneg.mpr (by linarith)
  have hhi : ⌊x * 100 + 1 / 2⌋ ≤ (10000 : ℤ) := by
    have : ⌊x * 100 + 1 / 2⌋ < (10001 : ℤ) := by
      rw [Int.floor_lt]
      push_cast
      linarith
    omega
  have hlo' : (0 : ℚ) ≤ ((⌊x * 100 + 1 / 2⌋ : ℤ) : ℚ) := by exact_mod_cast hlo
  have hhi' : ((⌊x * 100 + 1 / 2⌋ : ℤ) : ℚ) ≤ 10000 := by exact_mod_cast hhi
  constructor
  · exact div_nonneg hlo' (by norm_num)
  · rw [div_le_iff₀ (by norm_num : (0 : ℚ) < 100)]
    linarith

theorem foldl_groupPush_filter {α : Type} (p : α → Bool) (key : α → String) (l : List α) :
    ∀ init : Dict (List α),
      l.foldl (fun groups m => if p m then groupPush groups (key m) m else groups) init =
        (l.filter p).foldl (fun groups m => groupPush groups (key m) m) init := by
  induction l with
  | nil => intro init; rfl
  | cons m rest ih =>
    intro init
    by_cases h : p m
    · simp [List.filter_cons, h, ih]
    · simp [List.filter_cons, h, ih]

theorem ipGroups_eq (miners : List Miner) :
    ipGroups miners = groupBy ipKey (miners.filter hasIP) :=
  foldl_groupPush_filter hasIP ipKey miners []

theorem asnGroups_eq (miners : List Miner) :
    asnGroups miners = groupBy asnKey (miners.filter hasASN) :=
  foldl_groupPush_filter hasASN asnKey miners []

theorem sortByCountDesc_perm {α : Type} (count : α → Nat) (l : List α) :
    (sortByCountDesc count l).Perm l :=
  List.perm_insertionSort _ l

theorem sortByCountDesc_sorted {α : Type} (count : α → Nat) (l : List α) :
    (sortByCountDesc count l).Pairwise (fun a b => count b ≤ count a) := by
  haveI : IsTotal α (fun a b => count b ≤ count a) := ⟨fun a b => le_total _ _⟩
  haveI : IsTrans α (fun a b => count b ≤ count a) := ⟨fun _ _ _ h₁ h₂ => le_trans h₂ h₁⟩
  exact List.sorted_insertionSort _ l

theorem ipClusters_eq (miners : List Miner) :
    ipClusters miners =
      sortByCountDesc IpCluster.count
        (((ipGroups miners).filter (fun e => decide (e.2.length > 1))).map ipClusterOf) :=
  rfl

theorem lacksIP_eq_not_hasIP (m : Miner) : lacksIP m = !hasIP m := by
  unfold lacksIP hasIP
  cases m.ip with
  | none => rfl
  | some s => by_cases h1 : s = "" <;> by_cases h2 : s = "N/A" <;> simp [h1, h2]

theorem hasIP_iff (m : Miner) :
    hasIP m = true ↔ ∃ a, m.ip = some a ∧ a ≠ "" ∧ a ≠ "N/A" := by
  unfold hasIP
  cases m.ip with
  | none => simp
  | some s => simp

theorem hasIP_and_ipKey (m : Miner) (a : String) :
    (hasIP m = true ∧ ipKey m = a) ↔ (m.ip = some a ∧ a ≠ "" ∧ a ≠ "N/A") := by
  unfold hasIP ipKey jsString
  cases m.ip with
  | none => simp
  | some s =>
    simp only [Option.some.injEq, Bool.and_eq_true, decide_eq_true_eq, ne_eq]
    constructor
    · rintro ⟨⟨h1, h2⟩, rfl⟩
      exact ⟨rfl, h1, h2⟩
    · rintro ⟨rfl, h1, h2⟩
      exact ⟨⟨h1, h2⟩, rfl⟩

theorem mem_groupBy {α : Type} (key : α → String) (l : List α) (e : String × List α) :
    e ∈ groupBy key l ↔ e.1 ∈ l.map key ∧ e.2 = l.filter (fun m => key m = e.1) := by
  constructor
  · intro he
    have hk : e.1 ∈ (groupBy key l).map Prod.fst := List.mem_map_of_mem _ he
    rw [groupBy_eq] at he
    simp only [List.mem_map] at he
    obtain ⟨k, _, rfl⟩ := he
    exact ⟨(mem_groupBy_keys key l _).mp hk, rfl⟩
  · rintro ⟨hk, he⟩
    rw [groupBy_eq]
    simp only [List.mem_map]
    refine ⟨e.1, ?_, ?_⟩
    · have := (mem_groupBy_keys key l e.1).mpr hk
      simpa using this
    · rw [← he]

theorem groupBy_map_fst_nodup {α : Type} (key : α → String) (l : List α) :
    ((groupBy key l).map Prod.fst).Nodup := groupBy_keys_nodup key l

theorem filter_hasIP_ipKey (miners : List Miner) (a : String) (h1 : a ≠ "") (h2 : a ≠ "N/A") :
    (miners.filter hasIP).filter (fun m => ipKey m = a) =
      miners.filter (fun m => m.ip = some a) := by
  rw [List.filter_filter]
  apply List.filter_congr
  intro m _
  have := hasIP_and_ipKey m a
  by_cases h : m.ip = some a
  · have h' := this.mpr ⟨h, h1, h2⟩
    simp [h, h'.1, h'.2]
  · have h' : ¬ (hasIP m = true ∧ ipKey m = a) := fun c => h (this.mp c).1
    simp only [h, decide_False]
    by_cases hk : ipKey m = a
    · have : hasIP m = false := by
        cases hh : hasIP m
        · rfl
        · exact absurd ⟨hh, hk⟩ h'
      simp [this]
    · simp [hk]

theorem mem_ipGroups (miners : List Miner) (e : String × List Miner) :
    e ∈ ipGroups miners ↔
      e.1 ≠ "" ∧ e.1 ≠ "N/A" ∧ e.2 = miners.filter (fun m => m.ip = some e.1) ∧ e.2 ≠ [] := by
  rw [ipGroups_eq, mem_groupBy]
  constructor
  · rintro ⟨hk, he⟩
    simp only [List.mem_map, List.mem_filter] at hk
    obtain ⟨m, ⟨hm, hip⟩, hkey⟩ := hk
    obtain ⟨hma, h1, h2⟩ := (hasIP_and_ipKey m e.1).mp ⟨hip, hkey⟩
    rw [filter_hasIP_ipKey miners e.1 h1 h2] at he
    refine ⟨h1, h2, he, ?_⟩
    rw [he]
    intro hnil
    have : m ∈ miners.filter (fun m => m.ip = some e.1) := by
      simp [List.mem_filter, hm, hma]
    rw [hnil] at this
    simp at this
  · rintro ⟨h1, h2, he, hne⟩
    rw [filter_hasIP_ipKey miners e.1 h1 h2]
    refine ⟨?_, he⟩
    obtain ⟨m, hm⟩ := List.exists_mem_of_ne_nil _ hne
    rw [he] at hm
    simp only [List.mem_filter, decide_eq_true_eq] at hm
    obtain ⟨hip, hkey⟩ := (hasIP_and_ipKey m e.1).mpr ⟨hm.2, h1, h2⟩
    simp only [List.mem_map, List.mem_filter]
    exact ⟨m, ⟨hm.1, hip⟩, hkey⟩

theorem mem_ipClusters (miners : List Miner) (c : IpCluster) :
    c ∈ ipClusters miners ↔
      ∃ e ∈ ipGroups miners, 1 < e.2.length ∧ c = ipClusterOf e := by
  rw [ipClusters_eq, (sortByCountDesc_perm _ _).mem_iff]
  simp only [List.mem_map, List.mem_filter, decide_eq_true_eq, gt_iff_lt]
  constructor
  · rintro ⟨e, ⟨he, hl⟩, rfl⟩
    exact ⟨e, he, hl, rfl⟩
  · rintro ⟨e, he, hl, rfl⟩
    exact ⟨e, ⟨he, hl⟩, rfl⟩

theorem ipClusters_ip_nodup (miners : List Miner) :
    ((ipClusters miners).map (·.ip)).Nodup := by
  rw [ipClusters_eq]
  refine ((sortByCountDesc_perm _ _).map _).nodup_iff.mpr ?_
  rw [List.map_map]
  have h : (fun c : IpCluster => c.ip) ∘ ipClusterOf = Prod.fst := rfl
  rw [h]
  have hnd : ((ipGroups miners).map Prod.fst).Nodup := by
    rw [ipGroups_eq]
    exact groupBy_keys_nodup _ _
  exact (List.Sublist.map _ (List.filter_sublist _)).nodup hnd

theorem lacksIP_iff (m : Miner) :
    lacksIP m = true ↔ (m.ip = none ∨ m.ip = some "" ∨ m.ip = some "N/A") := by
  unfold lacksIP
  cases m.ip with
  | none => simp
  | some s => simp

theorem includes_iff (s t : String) : includes s t = true ↔ t.toList <:+: s.toList := by
  unfold includes
  simp only [List.any_eq_true, List.mem_tails, List.isPrefixOf_iff_prefix]
  rw [List.infix_iff_prefix_suffix]
  constructor
  · rintro ⟨u, hu, hp⟩
    exact ⟨u, hp, hu⟩
  · rintro ⟨u, hp, hu⟩
    exact ⟨u, hu, hp⟩

theorem hasASN_and_asnKey (m : Miner) (a : String) :
    (hasASN m = true ∧ asnKey m = a) ↔ (m.asn = some a ∧ a ≠ "" ∧ a ≠ "Unknown") := by
  unfold hasASN asnKey jsString
  cases m.asn with
  | none => simp
  | some s =>
    simp only [Option.some.injEq, Bool.and_eq_true, decide_eq_true_eq, ne_eq]
    constructor
    · rintro ⟨⟨h1, h2⟩, rfl⟩
      exact ⟨rfl, h1, h2⟩
    · rintro ⟨rfl, h1, h2⟩
      exact ⟨⟨h1, h2⟩, rfl⟩

theorem filter_hasASN_asnKey (miners : List Miner) (a : String) (h1 : a ≠ "")
    (h2 : a ≠ "Unknown") :
    (miners.filter hasASN).filter (fun m => asnKey m = a) =
      miners.filter (fun m => m.asn = some a) := by
  rw [List.filter_filter]
  apply List.filter_congr
  intro m _
  have := hasASN_and_asnKey m a
  by_cases h : m.asn = some a
  · have h' := this.mpr ⟨h, h1, h2⟩
    simp [h, h'.1, h'.2]
  · have h' : ¬ (hasASN m = true ∧ asnKey m = a) := fun c => h (this.mp c).1
    simp only [h, decide_False]
    by_cases hk : asnKey m = a
    · have : hasASN m = false := by
        cases hh : hasASN m
        · rfl
        · exact absurd ⟨hh, hk⟩ h'
      simp [this]
    · simp [hk]

theorem mem_asnGroups (miners : List Miner) (e : String × List Miner) :
    e ∈ asnGroups miners ↔
      e.1 ≠ "" ∧ e.1 ≠ "Unknown" ∧ e.2 = miners.filter (fun m => m.asn = some e.1) ∧
        e.2 ≠ [] := by
  rw [asnGroups_eq, mem_groupBy]
  constructor
  · rintro ⟨hk, he⟩
    simp only [List.mem_map, List.mem_filter] at hk
    obtain ⟨m, ⟨hm, hip⟩, hkey⟩ := hk
    obtain ⟨hma, h1, h2⟩ := (hasASN_and_asnKey m e.1).mp ⟨hip, hkey⟩
    rw [filter_hasASN_asnKey miners e.1 h1 h2] at he
    refine ⟨h1, h2, he, ?_⟩
    rw [he]
    intro hnil
    have : m ∈ miners.filter (fun m => m.asn = some e.1) := by
      simp [List.mem_filter, hm, hma]
    rw [hnil] at this
    simp at this
  · rintro ⟨h1, h2, he, hne⟩
    rw [filter_hasASN_asnKey miners e.1 h1 h2]
    refine ⟨?_, he⟩
    obtain ⟨m, hm⟩ := List.exists_mem_of_ne_nil _ hne
    rw [he] at hm
    simp only [List.mem_filter, decide_eq_true_eq] at hm
    obtain ⟨hip, hkey⟩ := (hasASN_and_asnKey m e.1).mpr ⟨hm.2, h1, h2⟩
    simp only [List.mem_map, List.mem_filter]
    exact ⟨m, ⟨hm.1, hip⟩, hkey⟩

theorem sortByCountDesc_map {α β : Type} (count : β → Nat) (f : α → β) (l : List α) :
    sortByCountDesc count (l.map f) = (sortByCountDesc (fun a => count (f a)) l).map f := by
  unfold sortByCountDesc
  exact (List.map_insertionSort (fun a b => count (f b) ≤ count (f a))
    (fun a b => count b ≤ count a) f l (fun _ _ _ _ => Iff.rfl)).symm

theorem asnConcentration_eq (miners : List Miner) :
    asnConcentration miners =
      ((sortByCountDesc (fun e : String × List Miner => e.2.length) (asnGroups miners)).take
        10).map (asnEntryOf miners.length) := by
  have h : asnConcentration miners =
      (sortByCountDesc AsnEntry.count
        ((asnGroups miners).map (asnEntryOf miners.length))).take 10 := rfl
  rw [h, sortByCountDesc_map, List.map_take]
  rfl

theorem countInc_keys (C : Dict Nat) (k : String) :
    (countInc C k).map Prod.fst =
      if k ∈ C.map Prod.fst then C.map Prod.fst else C.map Prod.fst ++ [k] := by
  induction C with
  | nil => simp [countInc]
  | cons e rest ih =>
    obtain ⟨k', c⟩ := e
    by_cases h : k' = k
    · simp [countInc, h]
    · have h' : ¬ k = k' := fun c => h c.symm
      by_cases hm : k ∈ rest.map Prod.fst
      · simp [countInc, h, h', ih, hm]
      · simp [countInc, h, h', ih, hm]

theorem countBy_append {α : Type} (key : α → String) (l : List α) (m : α) :
    countBy key (l ++ [m]) = countInc (countBy key l) (key m) := by
  simp [countBy, List.foldl_append]

theorem countBy_keys_nodup {α : Type} (key : α → String) (l : List α) :
    ((countBy key l).map Prod.fst).Nodup := by
  induction l using List.reverseRecOn with
  | nil => simp [countBy]
  | append_singleton l m ih =>
    rw [countBy_append, countInc_keys]
    split
    · exact ih
    · next hm =>
      rw [List.nodup_append]
      refine ⟨ih, List.nodup_singleton _, ?_⟩
      intro a ha hb
      simp at hb
      subst hb
      exact hm ha

theorem mem_countBy_keys {α : Type} (key : α → String) (l : List α) :
    ∀ k : String, k ∈ (countBy key l).map Prod.fst ↔ k ∈ l.map key := by
  induction l using List.reverseRecOn with
  | nil => simp [countBy]
  | append_singleton l m ih =>
    intro k
    rw [countBy_append, countInc_keys]
    split
    · next hm =>
      rw [ih] at hm
      rw [ih]
      simp only [List.map_append, List.mem_append, List.map_cons, List.map_nil,
        List.mem_singleton]
      constructor
      · exact Or.inl
      · rintro (h | h)
        · exact h
        · rw [h]; exact hm
    · simp only [List.map_append, List.mem_append, List.map_cons, List.map_nil,
        List.mem_singleton, ih]

theorem eq_map_countOf (C : Dict Nat) (h : (C.map Prod.fst).Nodup) :
    C = (C.map Prod.fst).map (fun k => (k, countOf C k)) := by
  induction C with
  | nil => rfl
  | cons e rest ih =>
    obtain ⟨k₀, c⟩ := e
    simp only [List.map_cons, List.nodup_cons] at h
    have hrest := ih h.2
    simp only [List.map_cons, countOf, if_true, List.map_map]
    congr 1
    conv_lhs => rw [hrest]
    rw [List.map_map]
    apply List.map_congr_left
    intro e he
    have : k₀ ≠ e.1 := by
      intro c
      apply h.1
      rw [c]
      exact List.mem_map_of_mem _ he
    simp [countOf, this]

theorem countBy_eq {α : Type} (key : α → String) (l : List α) :
    countBy key l =
      ((countBy key l).map Prod.fst).map (fun k => (k, l.countP (fun m => key m = k))) := by
  conv_lhs => rw [eq_map_countOf _ (countBy_keys_nodup key l)]
  apply List.map_congr_left
  intro k _
  rw [countOf_countBy]

theorem mem_countBy {α : Type} (key : α → String) (l : List α) (e : String × Nat) :
    e ∈ countBy key l ↔ e.1 ∈ l.map key ∧ e.2 = l.countP (fun m => key m = e.1) := by
  constructor
  · intro he
    have hk : e.1 ∈ (countBy key l).map Prod.fst := List.mem_map_of_mem _ he
    rw [countBy_eq] at he
    simp only [List.mem_map] at he
    obtain ⟨k, _, rfl⟩ := he
    exact ⟨(mem_countBy_keys key l _).mp hk, rfl⟩
  · rintro ⟨hk, he⟩
    rw [countBy_eq]
    simp only [List.mem_map]
    refine ⟨e.1, ?_, ?_⟩
    · have := (mem_countBy_keys key l e.1).mpr hk
      simpa using this
    · rw [← he]

theorem countBy_sum {α : Type} (key : α → String) (l : List α) :
    ((countBy key l).map Prod.snd).sum = l.length := by
  conv_lhs => rw [countBy_eq, List.map_map]
  have hfin : ((countBy key l).map Prod.fst).toFinset = (l.map key).toFinset := by
    ext k
    simp only [List.mem_toFinset]
    exact mem_countBy_keys key l k
  have h := List.sum_toFinset (fun k => l.countP (fun m => key m = k))
    (countBy_keys_nodup key l)
  have h₂ := List.sum_toFinset_count_eq_length (l.map key)
  rw [List.length_map] at h₂
  rw [← h₂, ← hfin]
  refine Eq.trans ?_ (Eq.trans h.symm ?_)
  · rfl
  · apply Finset.sum_congr rfl
    intro k _
    rw [List.count, List.countP_map]
    rfl

theorem hostingDistribution_eq (miners : List Miner) :
    hostingDistribution miners =
      sortByCountDesc HostingEntry.count
        ((hostingTypes miners).map (hostingEntryOf miners.length)) :=
  rfl

theorem topOwners_eq (miners : List Miner) :
    topOwners miners =
      ((sortByCountDesc (fun e : String × List Miner => e.2.length)
        (coldkeyGroups miners)).take 10).map (ownerEntryOf miners.length) := by
  have h : topOwners miners =
      (sortByCountDesc OwnerEntry.count
        ((coldkeyGroups miners).map (ownerEntryOf miners.length))).take 10 := rfl
  rw [h, sortByCountDesc_map, List.map_take]
  rfl

theorem toFixed_two_percentage (n c : Nat) (hn : n ≠ 0) :
    JSNum.toFixed 2 (JSNum.ofNat c / JSNum.ofNat n * 100) = fin (percent2 n c) := by
  have hn' : (n : ℚ) ≠ 0 := Nat.cast_ne_zero.mpr hn
  have hpos : ¬ ((c : ℚ) / (n : ℚ) * 100 < 0) := by
    have : (0 : ℚ) ≤ (c : ℚ) / (n : ℚ) * 100 :=
      mul_nonneg (div_nonneg (Nat.cast_nonneg _) (Nat.cast_nonneg _)) (by norm_num)
    exact not_lt.mpr this
  simp only [ofNat_eq_fin, lit_eq_fin, fin_div_fin _ _ hn', fin_mul_fin, toFixed, Nat.cast_ofNat,
    hpos, if_false, percent2]
  norm_num

theorem percent2_near (n c : Nat) : |percent2 n c - (c : ℚ) / (n : ℚ) * 100| ≤ 1 / 200 := by
  unfold percent2
  generalize (c : ℚ) / (n : ℚ) * 100 = x
  have h1 : ((⌊x * 100 + 1 / 2⌋ : ℤ) : ℚ) ≤ x * 100 + 1 / 2 := Int.floor_le _
  have h2 : x * 100 + 1 / 2 < ((⌊x * 100 + 1 / 2⌋ : ℤ) : ℚ) + 1 := Int.lt_floor_add_one _
  rw [abs_le]
  constructor <;> linarith

theorem sum_near {α : Type} (f g : α → ℚ) (ε : ℚ) (l : List α)
    (h : ∀ a ∈ l, |f a - g a| ≤ ε) :
    |(l.map f).sum - (l.map g).sum| ≤ (l.length : ℚ) * ε := by
  induction l with
  | nil => simp
  | cons a rest ih =>
    have ha := h a (List.mem_cons_self _ _)
    have hrest := ih (fun b hb => h b (List.mem_cons_of_mem _ hb))
    simp only [List.map_cons, List.sum_cons, List.length_cons, Nat.cast_add, Nat.cast_one]
    rw [abs_le] at ha hrest ⊢
    constructor <;> nlinarith [ha.1, ha.2, hrest.1, hrest.2]

theorem groupBy_sum_lengths {α : Type} (key : α → String) (l : List α) :
    ((groupBy key l).map (fun e => e.2.length)).sum = l.length := by
  conv_lhs => rw [groupBy_eq, List.map_map]
  have hfin := groupBy_keys_toFinset key l
  have h := List.sum_toFinset (fun k => (l.filter (fun m => key m = k)).length)
    (groupBy_keys_nodup key l)
  have h₂ := List.sum_toFinset_count_eq_length (l.map key)
  rw [List.length_map] at h₂
  rw [← h₂, ← hfin]
  refine Eq.trans ?_ (Eq.trans h.symm ?_)
  · rfl
  · apply Finset.sum_congr rfl
    intro k _
    rw [List.count, List.countP_map, List.countP_eq_length_filter]
    rfl

theorem topOwners_percentages (miners : List Miner) (h : miners ≠ []) :
    (topOwners miners).map (·.percentage) =
      ((topOwners miners).map (·.count)).map (fun c => fin (percent2 miners.length c)) := by
  have hn : miners.length ≠ 0 := by simpa using h
  rw [topOwners_eq, List.map_map, List.map_map, List.map_map]
  apply List.map_congr_left
  intro e _
  exact toFixed_two_percentage miners.length e.2.length hn

theorem sum_shares (miners : List Miner) (h : miners ≠ []) (L : List (String × List Miner))
    (hL : L.Perm (coldkeyGroups miners)) :
    (L.map (fun e => ((e.2.length : ℕ) : ℚ) / (miners.length : ℚ) * 100)).sum = 100 := by
  have hn : (miners.length : ℚ) ≠ 0 := by
    have : miners.length ≠ 0 := by simpa using h
    exact_mod_cast this
  have hsum : (L.map (fun e : String × List Miner => e.2.length)).sum = miners.length := by
    have := groupBy_sum_lengths ownerKey miners
    rw [← coldkeyGroups_eq, ← (hL.map _).sum_eq] at this
    exact this
  have hlin : ∀ M : List (String × List Miner),
      (M.map (fun e => ((e.2.length : ℕ) : ℚ) / (miners.length : ℚ) * 100)).sum =
        (Nat.cast (M.map (fun e : String × List Miner => e.2.length)).sum : ℚ) /
          (miners.length : ℚ) * 100 := by
    intro M
    induction M with
    | nil => simp
    | cons a rest ih =>
      simp only [List.map_cons, List.sum_cons, ih, Nat.cast_add]
      ring
  rw [hlin L, hsum, div_self hn]
  norm_num

theorem ipClusterPenalty_value (miners : List Miner) :
    ipClusterPenalty miners = fin (penaltyValue miners) := by
  rcases eq_or_ne miners [] with h | h
  · subst h
    simp [ipClusterPenalty, penaltyValue, ipClusters, ipGroups, sortByCountDesc]
  · have hn : miners.length ≠ 0 := by simpa using h
    have key := foldl_add_fin
      (fun c : IpCluster =>
        (JSNum.ofNat c.count / JSNum.ofNat miners.length * 100) *
          (JSNum.ofNat c.count / JSNum.ofNat miners.length * 100) * fin (1 / 2))
      (fun c => shareSq miners.length c.count * (1 / 2))
      (fun c => by simp only [share_mul_share _ _ hn, fin_mul_fin]) (ipClusters miners) 0
    have h0 : (0 : JSNum) = fin 0 := rfl
    unfold ipClusterPenalty penaltyValue
    rw [h0]
    refine key.trans ?_
    rw [zero_add]

theorem adjustedHHI_value (miners : List Miner) :
    adjustedHHI miners = fin (baseIndex miners + penaltyValue miners) := by
  rw [adjustedHHI, baseHHI_eq, ipClusterPenalty_value, fin_add_fin]

theorem ipGroups_sizes_sum (miners : List Miner) :
    ((ipGroups miners).map (fun e => e.2.length)).sum = (miners.filter hasIP).length := by
  rw [ipGroups_eq]
  exact groupBy_sum_lengths ipKey _

theorem ipClusters_counts (miners : List Miner) :
    ((ipClusters miners).map (·.count)).Perm
      (((ipGroups miners).filter (fun e => decide (e.2.length > 1))).map
        (fun e => e.2.length)) := by
  rw [ipClusters_eq]
  have h := (sortByCountDesc_perm IpCluster.count
    (((ipGroups miners).filter (fun e => decide (e.2.length > 1))).map ipClusterOf)).map
    (fun c : IpCluster => c.count)
  rw [List.map_map] at h
  exact h

theorem ipClusters_counts_sum_le (miners : List Miner) :
    ((ipClusters miners).map (·.count)).sum ≤ miners.length := by
  rw [(ipClusters_counts miners).sum_eq]
  have hsub : (((ipGroups miners).filter (fun e => decide (e.2.length > 1))).map
      (fun e => e.2.length)).Sublist ((ipGroups miners).map (fun e => e.2.length)) :=
    List.Sublist.map _ (List.filter_sublist _)
  calc _ ≤ ((ipGroups miners).map (fun e => e.2.length)).sum :=
        hsub.sum_le_sum (fun _ _ => Nat.zero_le _)
    _ = (miners.filter hasIP).length := ipGroups_sizes_sum miners
    _ ≤ miners.length := List.length_filter_le _ _

theorem ipCluster_count_le (miners : List Miner) (c : IpCluster) (hc : c ∈ ipClusters miners) :
    c.count ≤ miners.length := by
  obtain ⟨e, he, _, rfl⟩ := (mem_ipClusters miners c).mp hc
  obtain ⟨_, _, hg, _⟩ := (mem_ipGroups miners e).mp he
  show e.2.length ≤ miners.length
  rw [hg]
  exact List.length_filter_le _ _

theorem penaltyValue_nonneg (miners : List Miner) : 0 ≤ penaltyValue miners := by
  unfold penaltyValue
  apply List.sum_nonneg
  intro x hx
  simp only [List.mem_map] at hx
  obtain ⟨c, _, rfl⟩ := hx
  exact mul_nonneg (shareSq_nonneg _ _) (by norm_num)

theorem shareSq_le_linear (n c : Nat) (hn : n ≠ 0) (hc : c ≤ n) :
    shareSq n c ≤ 10000 / (n : ℚ) * (c : ℚ) := by
  have hn' : (0 : ℚ) < (n : ℚ) := by exact_mod_cast Nat.pos_of_ne_zero hn
  have hc' : (c : ℚ) ≤ (n : ℚ) := by exact_mod_cast hc
  have hc0 : (0 : ℚ) ≤ (c : ℚ) := Nat.cast_nonneg _
  unfold shareSq
  have h1 : (c : ℚ) / (n : ℚ) ≤ 1 := (div_le_one hn').mpr hc'
  have h0 : 0 ≤ (c : ℚ) / (n : ℚ) := div_nonneg hc0 hn'.le
  have : ((c : ℚ) / (n : ℚ) * 100) ^ 2 ≤ 10000 * ((c : ℚ) / (n : ℚ)) := by nlinarith
  calc ((c : ℚ) / (n : ℚ) * 100) ^ 2 ≤ 10000 * ((c : ℚ) / (n : ℚ)) := this
    _ = 10000 / (n : ℚ) * (c : ℚ) := by ring

theorem penaltyValue_le (miners : List Miner) : penaltyValue miners ≤ 5000 := by
  rcases eq_or_ne miners [] with h | h
  · subst h
    simp [penaltyValue, ipClusters, ipGroups, sortByCountDesc]
  · have hn : miners.length ≠ 0 := by simpa using h
    have hn' : (0 : ℚ) < (miners.length : ℚ) := by exact_mod_cast Nat.pos_of_ne_zero hn
    unfold penaltyValue
    have hterm : ∀ c ∈ ipClusters miners,
        shareSq miners.length c.count * (1 / 2) ≤
          5000 / (miners.length : ℚ) * (c.count : ℚ) := by
      intro c hc
      have := shareSq_le_linear miners.length c.count hn (ipCluster_count_le miners c hc)
      calc shareSq miners.length c.count * (1 / 2)
          ≤ 10000 / (miners.length : ℚ) * (c.count : ℚ) * (1 / 2) :=
            mul_le_mul_of_nonneg_right this (by norm_num)
        _ = 5000 / (miners.length : ℚ) * (c.count : ℚ) := by ring
    have hlin : ∀ L : List IpCluster,
        (L.map (fun c => 5000 / (miners.length : ℚ) * (c.count : ℚ))).sum =
          5000 / (miners.length : ℚ) * (Nat.cast (L.map (fun c : IpCluster => c.count)).sum : ℚ) := by
      intro L
      induction L with
      | nil => simp
      | cons a rest ih =>
        simp only [List.map_cons, List.sum_cons, ih, Nat.cast_add]
        ring
    have hsum : (Nat.cast ((ipClusters miners).map (fun c : IpCluster => c.count)).sum : ℚ) ≤
        (miners.length : ℚ) := by
      exact_mod_cast ipClusters_counts_sum_le miners
    calc ((ipClusters miners).map (fun c => shareSq miners.length c.count * (1 / 2))).sum
        ≤ ((ipClusters miners).map
            (fun c => 5000 / (miners.length : ℚ) * (c.count : ℚ))).sum :=
          List.sum_le_sum hterm
      _ = 5000 / (miners.length : ℚ) *
            (Nat.cast ((ipClusters miners).map (fun c : IpCluster => c.count)).sum : ℚ) :=
          hlin _
      _ ≤ 5000 / (miners.length : ℚ) * (miners.length : ℚ) :=
          mul_le_mul_of_nonneg_left hsum (div_nonneg (by norm_num) hn'.le)
      _ = 5000 := by field_simp

theorem length_add_big_le_sum (L : List Nat) (hpos : ∀ x ∈ L, 1 ≤ x) :
    L.length + (L.filter (fun x => decide (x > 1))).length ≤ L.sum := by
  induction L with
  | nil => simp
  | cons a rest ih =>
    have ha := hpos a (List.mem_cons_self _ _)
    have hrest := ih (fun x hx => hpos x (List.mem_cons_of_mem _ hx))
    by_cases h : a > 1
    · simp only [List.length_cons, List.filter_cons, h, decide_True, if_true, List.sum_cons]
      omega
    · simp only [List.length_cons, List.filter_cons, h, decide_False, List.sum_cons]
      simp only [Bool.false_eq_true, if_false]
      omega

theorem ipGroups_length_add_clusters_le (miners : List Miner) :
    (ipGroups miners).length + (ipClusters miners).length ≤ minersWithIPs miners := by
  have hpos : ∀ x ∈ (ipGroups miners).map (fun e => e.2.length), 1 ≤ x := by
    intro x hx
    simp only [List.mem_map] at hx
    obtain ⟨e, he, rfl⟩ := hx
    obtain ⟨_, _, _, hne⟩ := (mem_ipGroups miners e).mp he
    exact List.length_pos.mpr hne
  have h := length_add_big_le_sum _ hpos
  rw [ipGroups_sizes_sum, List.length_map] at h
  have hc : (ipClusters miners).length =
      (((ipGroups miners).map (fun e => e.2.length)).filter (fun x => decide (x > 1))).length := by
    rw [← List.length_map (ipClusters miners) (·.count), (ipClusters_counts miners).length_eq,
      List.length_map, List.filter_map, List.length_map]
    rfl
  rw [hc]
  exact h

theorem minersWithIPs_le (miners : List Miner) : minersWithIPs miners ≤ miners.length :=
  List.length_filter_le _ _

theorem without_axons_split (miners : List Miner) :
    validatorsWithoutAxons miners + nonValidatorsWithoutAxons miners =
      miners.length - minersWithIPs miners := by
  unfold validatorsWithoutAxons nonValidatorsWithoutAxons minersWithIPs
  induction miners with
  | nil => rfl
  | cons m rest ih =>
    have hl := lacksIP_eq_not_hasIP m
    have hle : (rest.filter hasIP).length ≤ rest.length := List.length_filter_le _ _
    cases hip : hasIP m <;> cases hv : m.validator_permit <;>
      simp only [List.filter_cons, hl, hip, hv, Bool.not_false, Bool.not_true, Bool.and_true,
        Bool.and_false, Bool.true_and, Bool.false_and, if_true, if_false, List.length_cons,
        Bool.false_eq_true] <;> omega

theorem validatorsWithoutAxons_le (miners : List Miner) :
    validatorsWithoutAxons miners ≤ (miners.filter (·.validator_permit)).length := by
  unfold validatorsWithoutAxons
  rw [← List.countP_eq_length_filter, ← List.countP_eq_length_filter]
  apply List.countP_mono_left
  intro m _ h
  simp only [Bool.and_eq_true] at h
  exact h.2

theorem mem_ipClusters_ip (miners : List Miner) (a : String) :
    a ∈ (ipClusters miners).map (·.ip) ↔
      a ≠ "" ∧ a ≠ "N/A" ∧ 2 ≤ (miners.filter (fun m => m.ip = some a)).length := by
  simp only [List.mem_map]
  constructor
  · rintro ⟨c, hc, rfl⟩
    obtain ⟨e, he, hl, rfl⟩ := (mem_ipClusters miners c).mp hc
    obtain ⟨h1, h2, hg, _⟩ := (mem_ipGroups miners e).mp he
    refine ⟨h1, h2, ?_⟩
    show 2 ≤ (miners.filter (fun m => m.ip = some e.1)).length
    rw [← hg]
    exact hl
  · rintro ⟨h1, h2, hl⟩
    refine ⟨ipClusterOf (a, miners.filter (fun m => m.ip = some a)), ?_, rfl⟩
    rw [mem_ipClusters]
    refine ⟨(a, miners.filter (fun m => m.ip = some a)), ?_, hl, rfl⟩
    rw [mem_ipGroups]
    refine ⟨h1, h2, rfl, ?_⟩
    intro hnil
    simp only at hnil
    rw [hnil] at hl
    simp at hl

theorem sum_shares_finset (miners : List Miner) (h : miners ≠ []) :
    ∑ k ∈ (miners.map ownerKey).toFinset,
        ((miners.filter (fun m => ownerKey m = k)).length : ℚ) / (miners.length : ℚ) * 100 =
      100 := by
  have hn : (miners.length : ℚ) ≠ 0 := by
    have : miners.length ≠ 0 := by simpa using h
    exact_mod_cast this
  rw [← Finset.sum_mul, ← Finset.sum_div]
  have : (∑ k ∈ (miners.map ownerKey).toFinset,
      ((miners.filter (fun m => ownerKey m = k)).length : ℚ)) = (miners.length : ℚ) := by
    exact_mod_cast sum_group_sizes miners
  rw [this, div_self hn]
  norm_num

theorem baseIndex_mul_owners_ge (miners : List Miner) (h : miners ≠ []) :
    10000 ≤ baseIndex miners * ((miners.map ownerKey).toFinset.card : ℚ) := by
  have hcs : (∑ k ∈ (miners.map ownerKey).toFinset,
        ((miners.filter (fun m => ownerKey m = k)).length : ℚ) / (miners.length : ℚ) * 100) ^ 2 ≤
      ((miners.map ownerKey).toFinset.card : ℚ) *
        ∑ k ∈ (miners.map ownerKey).toFinset,
          (((miners.filter (fun m => ownerKey m = k)).length : ℚ) / (miners.length : ℚ) * 100)
            ^ 2 :=
    sq_sum_le_card_mul_sum_sq
  rw [sum_shares_finset miners h] at hcs
  unfold baseIndex shareSq
  nlinarith [hcs]

theorem concentrationLevel_eq (miners : List Miner) :
    concentrationLevel miners =
      if 2500 < baseIndex miners + penaltyValue miners ∨ 5 < (ipClusters miners).length then
        "Highly Concentrated"
      else if 1500 < baseIndex miners + penaltyValue miners ∨ 2 < (ipClusters miners).length then
        "Moderately Concentrated"
      else if 1000 < baseIndex miners + penaltyValue miners ∨ 0 < (ipClusters miners).length then
        "Unconcentrated"
      else "Highly Decentralized" := by
  unfold concentrationLevel
  rw [adjustedHHI_value]
  simp only [lit_eq_fin, gt_fin_fin, Bool.or_eq_true, decide_eq_true_eq, gt_iff_lt,
    Nat.cast_ofNat]

theorem processMiners_append (toLowerCase : String → String)
    (geo : Nat → String → Option IpApiData) (l : List RegistryMiner) (m : RegistryMiner) :
    processMiners toLowerCase geo (l ++ [m]) =
      processMiner toLowerCase geo (processMiners toLowerCase geo l) m := by
  simp [processMiners, List.foldl_append]

theorem processMiner_routable (toLowerCase : String → String)
    (geo : Nat → String → Option IpApiData) (state : BuildState) (m : RegistryMiner)
    (axonIp : String) (hip : m.axon.bind (·.ip) = some axonIp) (h : isRoutable m = true) :
    processMiner toLowerCase geo state m =
      { processedMiners := state.processedMiners ++
          [resolvedEntry m axonIp
            (getLocationFromIP toLowerCase (geo (lookups state.events).length axonIp))]
        events :=
          state.events ++ [BuildEvent.lookup axonIp] ++
            (if (state.processedMiners.length + 1) % 20 = 0 then [BuildEvent.pause 1000]
             else []) } := by
  unfold isRoutable at h
  rw [hip] at h
  simp only at h
  unfold processMiner
  rw [hip]
  simp only [h, if_true, List.length_append, List.length_singleton]

theorem processMiner_not_routable (toLowerCase : String → String)
    (geo : Nat → String → Option IpApiData) (state : BuildState) (m : RegistryMiner)
    (h : isRoutable m = false) :
    processMiner toLowerCase geo state m =
      { processedMiners := state.processedMiners ++ [unresolvedEntry m]
        events := state.events } := by
  unfold isRoutable at h
  unfold processMiner
  cases hip : m.axon.bind (·.ip) with
  | none => rfl
  | some axonIp =>
    rw [hip] at h
    simp only at h
    simp only [h, Bool.false_eq_true, if_false]

theorem isRoutable_iff (m : RegistryMiner) :
    isRoutable m = true ↔
      ∃ axonIp, m.axon.bind (·.ip) = some axonIp ∧ axonIp ≠ "" ∧ axonIp ≠ "0.0.0.0" ∧
        axonIp ≠ "127.0.0.1" := by
  unfold isRoutable
  cases m.axon.bind (·.ip) with
  | none => simp
  | some s => simp [and_assoc]

theorem processMiners_builtFrom (toLowerCase : String → String)
    (geo : Nat → String → Option IpApiData) (l : List RegistryMiner) :
    List.Forall₂ BuiltFrom l (processMiners toLowerCase geo l).processedMiners := by
  induction l using List.reverseRecOn with
  | nil => exact List.Forall₂.nil
  | append_singleton l m ih =>
    rw [processMiners_append]
    cases h : isRoutable m with
    | false =>
      rw [processMiner_not_routable _ _ _ _ h]
      exact List.rel_append ih (List.Forall₂.cons (Or.inl ⟨h, rfl⟩) List.Forall₂.nil)
    | true =>
      obtain ⟨axonIp, hip, _⟩ := (isRoutable_iff m).mp h
      rw [processMiner_routable _ _ _ _ _ hip h]
      exact List.rel_append ih
        (List.Forall₂.cons (Or.inr ⟨h, axonIp, _, hip, rfl⟩) List.Forall₂.nil)

theorem map_eq_of_forall₂ {α β γ : Type} (R : α → β → Prop) (f : β → γ) (g : α → γ)
    (hR : ∀ a b, R a b → f b = g a) (l : List α) (ps : List β) (h : List.Forall₂ R l ps) :
    ps.map f = l.map g := by
  induction h with
  | nil => rfl
  | cons hab _ ih => simp [hR _ _ hab, ih]

theorem processMiners_lookups (toLowerCase : String → String)
    (geo : Nat → String → Option IpApiData) (l : List RegistryMiner) :
    lookups (processMiners toLowerCase geo l).events = l.filterMap routableIp := by
  have happ : ∀ a b : List BuildEvent, lookups (a ++ b) = lookups a ++ lookups b := by
    intro a b
    induction a with
    | nil => rfl
    | cons e rest ih => cases e <;> simp [lookups, ih]
  induction l using List.reverseRecOn with
  | nil => rfl
  | append_singleton l m ih =>
    rw [processMiners_append, List.filterMap_append]
    cases h : isRoutable m with
    | false =>
      rw [processMiner_not_routable _ _ _ _ h]
      simp [ih, routableIp, h]
    | true =>
      obtain ⟨axonIp, hip, _⟩ := (isRoutable_iff m).mp h
      rw [processMiner_routable _ _ _ _ _ hip h]
      simp only [happ, ih]
      have hp : lookups (if ((processMiners toLowerCase geo l).processedMiners.length + 1) % 20
          = 0 then [BuildEvent.pause 1000] else []) = [] := by
        split <;> rfl
      rw [hp]
      simp [lookups, routableIp, h, hip]

theorem append_left_cancel_string (p a b : String) (h : p ++ a = p ++ b) : a = b := by
  have := congrArg String.data h
  rw [String.data_append, String.data_append] at this
  exact String.ext (List.append_cancel_left this)

theorem analysis_key_ne_subnet_key (a b : String) : "analysis_" ++ a ≠ "subnet_" ++ b := by
  intro h
  have := congrArg String.data h
  rw [String.data_append, String.data_append] at this
  have hhead := congrArg List.head? this
  simp at hhead

theorem cache_get_eq_some (cache : Cache) (key : String) (now : Nat) (v : CacheValue)
    (h : cache.get key now = some v) :
    ∃ entry, cache.entries key = some entry ∧ now ≤ entry.expires ∧ entry.value = v := by
  unfold Cache.get at h
  cases he : cache.entries key with
  | none => rw [he] at h; simp at h
  | some entry =>
    rw [he] at h
    simp only at h
    by_cases hx : entry.expires < now
    · simp [hx] at h
    · simp only [hx, if_false, Option.some.injEq] at h
      exact ⟨entry, rfl, not_lt.mp hx, h⟩

theorem analyzeEndpoint_cases (SUBNET_ID : String) (cache : Cache) (param : Option String)
    (now : Nat) :
    (∃ v, cache.get ("analysis_" ++ orDefault param SUBNET_ID) now = some v ∧
        analyzeEndpoint SUBNET_ID cache param now =
          ({ status := 200, body := Body.data v }, cache)) ∨
      (cache.get ("analysis_" ++ orDefault param SUBNET_ID) now = none ∧
        cache.get ("subnet_" ++ orDefault param SUBNET_ID) now = none ∧
        analyzeEndpoint SUBNET_ID cache param now =
          ({ status := 400
             body := Body.error "Subnet data not found. Fetch subnet data first." none },
            cache)) ∨
      (cache.get ("analysis_" ++ orDefault param SUBNET_ID) now = none ∧
        ∃ data, cache.get ("subnet_" ++ orDefault param SUBNET_ID) now =
            some (CacheValue.subnetData data) ∧
          analyzeEndpoint SUBNET_ID cache param now =
            ({ status := 200
               body := Body.data
                 (CacheValue.analysis (calculateCentralization data.subnet data.miners now)) },
              cache.set ("analysis_" ++ orDefault param SUBNET_ID)
                (CacheValue.analysis (calculateCentralization data.subnet data.miners now))
                now)) ∨
      (cache.get ("analysis_" ++ orDefault param SUBNET_ID) now = none ∧
        ∃ report, cache.get ("subnet_" ++ orDefault param SUBNET_ID) now =
            some (CacheValue.analysis report) ∧
          analyzeEndpoint SUBNET_ID cache param now =
            ({ status := 500
               body := Body.error "Failed to analyze centralization"
                 (some "Cannot read properties of undefined (reading 'length')") }, cache)) := by
  unfold analyzeEndpoint
  cases ha : cache.get ("analysis_" ++ orDefault param SUBNET_ID) now with
  | some v => exact Or.inl ⟨v, rfl, by simp only [ha]⟩
  | none =>
    cases hs : cache.get ("subnet_" ++ orDefault param SUBNET_ID) now with
    | none => exact Or.inr (Or.inl ⟨rfl, rfl, by simp only [ha, hs]⟩)
    | some v =>
      cases v with
      | subnetData data =>
        exact Or.inr (Or.inr (Or.inl ⟨rfl, data, rfl, by simp only [ha, hs]⟩))
      | analysis report =>
        exact Or.inr (Or.inr (Or.inr ⟨rfl, report, rfl, by simp only [ha, hs]⟩))

theorem storedIn_append (SUBNET_ID : String) (pre post : List ServerStep) :
    storedIn SUBNET_ID (pre ++ post) = storedIn SUBNET_ID pre ++ storedIn SUBNET_ID post := by
  induction pre with
  | nil => rfl
  | cons step rest ih =>
    cases step <;> simp [storedIn, ih]

theorem serverRun_append (SUBNET_ID : String) (state : ServerState)
    (pre post : List ServerStep) :
    serverRun SUBNET_ID state (pre ++ post) =
      serverRun SUBNET_ID (serverRun SUBNET_ID state pre) post := by
  simp [serverRun, List.foldl_append]

theorem ComputedAt.snoc {SUBNET_ID : String} {start : ServerState} {steps : List ServerStep}
    {subnetId : String} {data : SubnetData} {t : Nat}
    (h : ComputedAt SUBNET_ID start steps subnetId data t) (step : ServerStep) :
    ComputedAt SUBNET_ID start (steps ++ [step]) subnetId data t := by
  obtain ⟨pre, rest, param, hsplit, hid, hnow, hmiss, hget, hstored⟩ := h
  exact ⟨pre, rest ++ [step], param, by rw [hsplit, List.append_assoc, List.cons_append], hid,
    hnow, hmiss, hget, hstored⟩

theorem coherent_step (SUBNET_ID : String) (start : ServerState) (steps : List ServerStep)
    (step : ServerStep)
    (h : Coherent SUBNET_ID start steps (serverRun SUBNET_ID start steps)) :
    Coherent SUBNET_ID start (steps ++ [step])
      (serverStep SUBNET_ID (serverRun SUBNET_ID start steps) step) := by
  obtain ⟨h1, h2⟩ := h
  have hkeep : ∀ x, x ∈ storedIn SUBNET_ID steps → x ∈ storedIn SUBNET_ID (steps ++ [step]) := by
    intro x hx
    rw [storedIn_append]
    exact List.mem_append_left _ hx
  generalize hstate : serverRun SUBNET_ID start steps = state at h1 h2
  cases step with
  | store param data =>
    constructor
    · intro id e he
      simp only [serverStep, Cache.set] at he
      rw [if_neg (analysis_key_ne_subnet_key _ _)] at he
      obtain ⟨d, t, hd, ht, hexp, hv⟩ := h1 id e he
      exact ⟨d, t, hd.snoc _, ht, hexp, hv⟩
    · intro id e he
      simp only [serverStep, Cache.set] at he
      by_cases hk : "subnet_" ++ id = "subnet_" ++ orDefault param SUBNET_ID
      · rw [if_pos hk] at he
        have hid := append_left_cancel_string _ _ _ hk
        simp only [Option.some.injEq] at he
        refine ⟨data, ?_, ?_⟩
        · rw [hid, storedIn_append]
          simp [storedIn]
        · rw [← he]
      · rw [if_neg hk] at he
        obtain ⟨d, hd, hv⟩ := h2 id e he
        exact ⟨d, hkeep _ hd, hv⟩
  | analyze param =>
    have hold : Coherent SUBNET_ID start (steps ++ [ServerStep.analyze param]) state := by
      constructor
      · intro id e he
        obtain ⟨d, t, hd, ht, hexp, hv⟩ := h1 id e he
        exact ⟨d, t, hd.snoc _, ht, hexp, hv⟩
      · intro id e he
        obtain ⟨d, hd, hv⟩ := h2 id e he
        exact ⟨d, hkeep _ hd, hv⟩
    rcases analyzeEndpoint_cases SUBNET_ID state.cache param state.now with
      ⟨v, _, heq⟩ | ⟨_, _, heq⟩ | ⟨hmiss, data, hsnap, heq⟩ | ⟨_, report, _, heq⟩
    · simp only [serverStep, heq]
      exact hold
    · simp only [serverStep, heq]
      exact hold
    · simp only [serverStep, heq]
      obtain ⟨entry, hentry, _, hval⟩ := cache_get_eq_some _ _ _ _ hsnap
      obtain ⟨d, hd, hv⟩ := h2 _ entry hentry
      have hdd : d = data := by
        rw [hval] at hv
        injection hv with hv
        exact hv.symm
      constructor
      · intro id e he
        simp only [Cache.set] at he
        by_cases hk : "analysis_" ++ id = "analysis_" ++ orDefault param SUBNET_ID
        · rw [if_pos hk] at he
          have hid := append_left_cancel_string _ _ _ hk
          simp only [Option.some.injEq] at he
          refine ⟨data, state.now, ?_, le_refl _, ?_, ?_⟩
          · refine ⟨steps, [], param, rfl, hid.symm, ?_, ?_, ?_, ?_⟩
            · rw [hstate]
            · rw [hstate, hid]
              exact hmiss
            · rw [hstate, hid]
              exact hsnap
            · rw [hid, ← hdd]
              exact hd
          · rw [← he]
          · rw [← he]
        · rw [if_neg hk] at he
          exact hold.1 id e he
      · intro id e he
        simp only [Cache.set] at he
        rw [if_neg (fun c => analysis_key_ne_subnet_key _ _ c.symm)] at he
        exact hold.2 id e he
    · simp only [serverStep, heq]
      exact hold
  | clear =>
    constructor
    · intro id e he
      simp [serverStep, Cache.empty] at he
    · intro id e he
      simp [serverStep, Cache.empty] at he
  | elapse ms =>
    constructor
    · intro id e he
      obtain ⟨d, t, hd, ht, hexp, hv⟩ := h1 id e he
      exact ⟨d, t, hd.snoc _, Nat.le_add_right_of_le ht, hexp, hv⟩
    · intro id e he
      obtain ⟨d, hd, hv⟩ := h2 id e he
      exact ⟨d, hkeep _ hd, hv⟩

theorem coherent_run (SUBNET_ID : String) (start : Nat) (steps : List ServerStep) :
    Coherent SUBNET_ID { cache := Cache.empty, now := start } steps
      (serverRun SUBNET_ID { cache := Cache.empty, now := start } steps) := by
  induction steps using List.reverseRecOn with
  | nil =>
    constructor
    · intro id e he
      simp [serverRun, Cache.empty] at he
    · intro id e he
      simp [serverRun, Cache.empty] at he
  | append_singleton steps step ih =>
    rw [serverRun_append]
    exact coherent_step SUBNET_ID _ steps step ih

theorem snapshotEndpoint_cache (SUBNET_ID : String) (toLowerCase : String → String)
    (cache : Cache) (param : Option String) (now : Nat) (upstream : Except String Upstream)
    (geo : Nat → String → Option IpApiData) (finished : Nat) :
    (snapshotEndpoint SUBNET_ID toLowerCase cache param now upstream geo finished).2 = cache ∨
      ∃ data : SubnetData,
        (snapshotEndpoint SUBNET_ID toLowerCase cache param now upstream geo finished).2 =
          cache.set ("subnet_" ++ orDefault param SUBNET_ID) (CacheValue.subnetData data)
            finished := by
  unfold snapshotEndpoint
  cases hget : cache.get ("subnet_" ++ orDefault param SUBNET_ID) now with
  | some v =>
    left
    simp only [hget]
  | none =>
    cases upstream with
    | error message =>
      left
      simp only [hget]
    | ok registry =>
      right
      simp only [hget]
      exact ⟨_, rfl⟩

theorem roundHalfEven_near (x : ℚ) : |(roundHalfEven x : ℚ) - x| ≤ 1 / 2 := by
  have h1 := Int.floor_le x
  have h2 := Int.lt_floor_add_one x
  unfold roundHalfEven
  rw [abs_le]
  split_ifs with ha hb hc
  · constructor <;> linarith
  · push_cast
    constructor <;> linarith
  · constructor <;> linarith
  · push_cast
    constructor <;> linarith

theorem roundHalfEven_eq (x : ℚ) (m : ℤ) (h1 : (m : ℚ) - 1 / 2 < x) (h2 : x < m + 1 / 2) :
    roundHalfEven x = m := by
  unfold roundHalfEven
  by_cases hm : (m : ℚ) ≤ x
  · have hf : ⌊x⌋ = m := by
      rw [Int.floor_eq_iff]
      constructor
      · exact hm
      · linarith
    rw [hf, if_pos (by linarith)]
  · push_neg at hm
    have hf : ⌊x⌋ = m - 1 := by
      rw [Int.floor_eq_iff]
      push_cast
      constructor
      · linarith
      · linarith
    rw [hf]
    push_cast
    rw [if_neg (by linarith), if_pos (by linarith)]
    ring

theorem log_two_eq (q : ℚ) (e : ℤ) (hlo : (2 : ℚ) ^ e ≤ q) (hhi : q < (2 : ℚ) ^ (e + 1)) :
    Int.log 2 q = e := by
  have hpos : 0 < q := lt_of_lt_of_le (by positivity) hlo
  have h1 : e ≤ Int.log 2 q := by
    rw [← Int.zpow_le_iff_le_log (by norm_num) hpos]
    simpa using hlo
  have h2 : Int.log 2 q < e + 1 := by
    rw [← Int.lt_zpow_iff_log_lt (by norm_num) hpos]
    simpa using hhi
  omega

theorem binary64_eq (q r : ℚ) (e m : ℤ) (hlo : (2 : ℚ) ^ e ≤ q) (hhi : q < (2 : ℚ) ^ (e + 1))
    (h1 : (m : ℚ) - 1 / 2 < q / 2 ^ (e - 52)) (h2 : q / 2 ^ (e - 52) < m + 1 / 2)
    (hr : r = m * 2 ^ (e - 52)) : binary64 q = r := by
  have hpos : 0 < q := lt_of_lt_of_le (by positivity) hlo
  unfold binary64
  rw [if_neg hpos.ne', abs_of_pos hpos, log_two_eq q e hlo hhi, roundHalfEven_eq _ m h1 h2, hr]

theorem binary64_zero : binary64 0 = 0 := by simp [binary64]

theorem unitRoundoff_pos : 0 < unitRoundoff := by
  unfold unitRoundoff
  positivity

theorem unitRoundoff_lt_one : unitRoundoff < 1 := by
  unfold unitRoundoff
  norm_num

theorem binary64_error (q : ℚ) (hq : 0 ≤ q) : |binary64 q - q| ≤ unitRoundoff * q := by
  rcases eq_or_lt_of_le hq with h | hpos
  · subst h
    simp [binary64_zero]
  · unfold binary64
    rw [if_neg hpos.ne', abs_of_pos hpos]
    have hlo : (2 : ℚ) ^ Int.log 2 q ≤ q := by
      simpa using Int.zpow_log_le_self (b := 2) (by norm_num) hpos
    generalize Int.log 2 q = e at hlo ⊢
    have hs : (0 : ℚ) < 2 ^ (e - 52) := by positivity
    have hnear := roundHalfEven_near (q / 2 ^ (e - 52))
    have heq : (roundHalfEven (q / 2 ^ (e - 52)) : ℚ) * 2 ^ (e - 52) - q =
        ((roundHalfEven (q / 2 ^ (e - 52)) : ℚ) - q / 2 ^ (e - 52)) * 2 ^ (e - 52) := by
      field_simp
    rw [heq, abs_mul, abs_of_pos hs]
    have hsplit : (2 : ℚ) ^ (e - 52) = 2 ^ e * (1 / 2 ^ 52) := by
      rw [zpow_sub₀ (by norm_num : (2 : ℚ) ≠ 0)]
      norm_num
      ring
    calc |(roundHalfEven (q / 2 ^ (e - 52)) : ℚ) - q / 2 ^ (e - 52)| * 2 ^ (e - 52)
        ≤ 1 / 2 * 2 ^ (e - 52) := by
          exact mul_le_mul_of_nonneg_right hnear hs.le
      _ = unitRoundoff * 2 ^ e := by
          rw [hsplit]
          unfold unitRoundoff
          ring
      _ ≤ unitRoundoff * q := by
          apply mul_le_mul_of_nonneg_left hlo
          unfold unitRoundoff
          positivity

theorem Near.nonneg {p : ℕ} {A a : ℚ} (h : Near p A a) (hA : 0 ≤ A) : 0 ≤ a := by
  have h1 : (0 : ℚ) ≤ 1 - unitRoundoff := by linarith [unitRoundoff_lt_one]
  exact le_trans (mul_nonneg (pow_nonneg h1 p) hA) h.1

theorem near_exact (A : ℚ) : Near 0 A A := by
  simp [Near]

theorem Near.mono {p p₂ : ℕ} {A a : ℚ} (h : Near p A a) (hA : 0 ≤ A) (hp : p ≤ p₂) :
    Near p₂ A a := by
  have h0 : (0 : ℚ) ≤ 1 - unitRoundoff := by linarith [unitRoundoff_lt_one]
  have h1 : (1 : ℚ) - unitRoundoff ≤ 1 := by linarith [unitRoundoff_pos]
  have h2 : (1 : ℚ) ≤ 1 + unitRoundoff := by linarith [unitRoundoff_pos]
  constructor
  · calc (1 - unitRoundoff) ^ p₂ * A ≤ (1 - unitRoundoff) ^ p * A :=
          mul_le_mul_of_nonneg_right (pow_le_pow_of_le_one h0 h1 hp) hA
      _ ≤ a := h.1
  · calc a ≤ (1 + unitRoundoff) ^ p * A := h.2
      _ ≤ (1 + unitRoundoff) ^ p₂ * A :=
          mul_le_mul_of_nonneg_right (pow_le_pow_right₀ h2 hp) hA

theorem Near.rnd {p : ℕ} {A a : ℚ} (h : Near p A a) (hA : 0 ≤ A) :
    Near (p + 1) A (binary64 a) := by
  have ha := h.nonneg hA
  have herr := abs_le.mp (binary64_error a ha)
  have h0 : (0 : ℚ) ≤ 1 - unitRoundoff := by linarith [unitRoundoff_lt_one]
  have h2 : (0 : ℚ) ≤ 1 + unitRoundoff := by linarith [unitRoundoff_pos]
  constructor
  · calc (1 - unitRoundoff) ^ (p + 1) * A = (1 - unitRoundoff) * ((1 - unitRoundoff) ^ p * A) := by
          ring
      _ ≤ (1 - unitRoundoff) * a := mul_le_mul_of_nonneg_left h.1 h0
      _ ≤ binary64 a := by linarith [herr.1]
  · calc binary64 a ≤ (1 + unitRoundoff) * a := by linarith [herr.2]
      _ ≤ (1 + unitRoundoff) * ((1 + unitRoundoff) ^ p * A) := mul_le_mul_of_nonneg_left h.2 h2
      _ = (1 + unitRoundoff) ^ (p + 1) * A := by ring

theorem Near.mul {p r : ℕ} {A a B b : ℚ} (ha : Near p A a) (hb : Near r B b) (hA : 0 ≤ A)
    (hB : 0 ≤ B) : Near (p + r) (A * B) (a * b) := by
  have h0 : (0 : ℚ) ≤ 1 - unitRoundoff := by linarith [unitRoundoff_lt_one]
  have ha0 := ha.nonneg hA
  have hb0 := hb.nonneg hB
  constructor
  · calc (1 - unitRoundoff) ^ (p + r) * (A * B)
        = ((1 - unitRoundoff) ^ p * A) * ((1 - unitRoundoff) ^ r * B) := by ring
      _ ≤ a * b :=
          mul_le_mul ha.1 hb.1 (mul_nonneg (pow_nonneg h0 r) hB) ha0
  · calc a * b ≤ ((1 + unitRoundoff) ^ p * A) * ((1 + unitRoundoff) ^ r * B) :=
          mul_le_mul ha.2 hb.2 hb0 (le_trans ha0 ha.2)
      _ = (1 + unitRoundoff) ^ (p + r) * (A * B) := by ring

theorem Near.add {p : ℕ} {A a B b : ℚ} (ha : Near p A a) (hb : Near p B b) :
    Near p (A + B) (a + b) := by
  constructor
  · have := ha.1
    have := hb.1
    rw [mul_add]
    linarith
  · have := ha.2
    have := hb.2
    rw [mul_add]
    linarith

namespace JSNum

theorem add64_fin (a b : ℚ) : add64 (fin a) (fin b) = fin (binary64 (a + b)) := rfl

theorem sub64_fin (a b : ℚ) : sub64 (fin a) (fin b) = fin (binary64 (a - b)) := by
  simp [sub64, rnd]

theorem mul64_fin (a b : ℚ) : mul64 (fin a) (fin b) = fin (binary64 (a * b)) := rfl

theorem div64_fin (a b : ℚ) (hb : b ≠ 0) : div64 (fin a) (fin b) = fin (binary64 (a / b)) := by
  simp [div64, rnd, fin_div_fin _ _ hb]

end JSNum

theorem shareSq64_eq (n c : Nat) (hn : n ≠ 0) :
    shareSq64 n c =
      fin (binary64 (binary64 (binary64 ((c : ℚ) / (n : ℚ)) * 100) *
        binary64 (binary64 ((c : ℚ) / (n : ℚ)) * 100))) := by
  have hn' : (n : ℚ) ≠ 0 := Nat.cast_ne_zero.mpr hn
  simp [shareSq64, div64_fin _ _ hn', mul64_fin]

theorem shareSq64_near (n c : Nat) (hn : n ≠ 0) :
    ∃ t : ℚ, shareSq64 n c = fin t ∧ Near 5 (shareSq n c) t := by
  refine ⟨_, shareSq64_eq n c hn, ?_⟩
  have hA : (0 : ℚ) ≤ (c : ℚ) / (n : ℚ) := by positivity
  have h1 : Near 1 ((c : ℚ) / (n : ℚ)) (binary64 ((c : ℚ) / (n : ℚ))) :=
    (near_exact _).rnd hA
  have h2 : Near 2 ((c : ℚ) / (n : ℚ) * 100) (binary64 (binary64 ((c : ℚ) / (n : ℚ)) * 100)) :=
    (h1.mul (near_exact 100) hA (by norm_num)).rnd (by positivity)
  have h5 := (h2.mul h2 (by positivity) (by positivity)).rnd (by positivity)
  have hsq : shareSq n c = (c : ℚ) / (n : ℚ) * 100 * ((c : ℚ) / (n : ℚ) * 100) := by
    unfold shareSq
    ring
  rw [hsq]
  exact h5

theorem foldl_add64_near (n : Nat) (hn : n ≠ 0) (cs : List Nat) :
    ∀ (acc S : ℚ) (p : ℕ), 5 ≤ p → 0 ≤ S → Near p S acc →
      ∃ b : ℚ, cs.foldl (fun sum c => JSNum.add64 sum (shareSq64 n c)) (fin acc) = fin b ∧
        Near (p + cs.length) (S + (cs.map (shareSq n)).sum) b := by
  induction cs with
  | nil =>
    intro acc S p _ _ h
    exact ⟨acc, rfl, by simpa using h⟩
  | cons c rest ih =>
    intro acc S p hp hS h
    obtain ⟨t, ht, hnear⟩ := shareSq64_near n c hn
    have hsum : Near (p + 1) (S + shareSq n c) (binary64 (acc + t)) :=
      (h.add (hnear.mono (shareSq_nonneg n c) hp)).rnd (add_nonneg hS (shareSq_nonneg n c))
    obtain ⟨b, hb, hbn⟩ := ih (binary64 (acc + t)) (S + shareSq n c) (p + 1) (by omega)
      (add_nonneg hS (shareSq_nonneg n c)) hsum
    refine ⟨b, ?_, ?_⟩
    · simp only [List.foldl_cons, ht, add64_fin]
      exact hb
    · have hlen : p + (c :: rest).length = p + 1 + rest.length := by
        simp only [List.length_cons]
        omega
      rw [hlen, List.map_cons, List.sum_cons, ← add_assoc]
      exact hbn

theorem baseHHI64_sizes (miners : List Miner) :
    baseHHI64 miners =
      ((coldkeyGroups miners).map (fun e => e.2.length)).foldl
        (fun sum c => JSNum.add64 sum (shareSq64 miners.length c)) (fin 0) := by
  unfold baseHHI64
  rw [List.foldl_map]
  rfl

theorem sum_shareSq_coldkeyGroups (miners : List Miner) :
    (((coldkeyGroups miners).map (fun e => e.2.length)).map (shareSq miners.length)).sum =
      baseIndex miners := by
  rw [coldkeyGroups_eq]
  unfold baseIndex
  conv_lhs => rw [groupBy_eq]
  rw [List.map_map, List.map_map, ← groupBy_keys_toFinset,
    List.sum_toFinset _ (groupBy_keys_nodup _ _)]
  rfl

theorem baseHHI64_near (miners : List Miner) :
    ∃ b : ℚ, baseHHI64 miners = fin b ∧
      Near ((coldkeyGroups miners).length + 5) (baseIndex miners) b := by
  rcases eq_or_ne miners [] with h | h
  · subst h
    refine ⟨0, rfl, ?_⟩
    simp [Near, baseIndex]
  · have hn : miners.length ≠ 0 := by simpa using h
    have h0 : Near 5 0 0 := by simp [Near]
    obtain ⟨b, hb, hnear⟩ := foldl_add64_near miners.length hn
      ((coldkeyGroups miners).map (fun e => e.2.length)) 0 0 5 (le_refl _) (le_refl _) h0
    refine ⟨b, (baseHHI64_sizes miners).trans hb, ?_⟩
    rw [sum_shareSq_coldkeyGroups, zero_add, List.length_map, add_comm] at hnear
    exact hnear

theorem groupBy_keys_eq {α : Type} (key : α → String) (l : List α) :
    (groupBy key l).map Prod.fst = firstOccurrences (l.map key) := by
  induction l using List.reverseRecOn with
  | nil => rfl
  | append_singleton l m ih =>
    rw [groupBy_append, groupPush_keys, ih]
    simp [firstOccurrences, List.foldl_append]

theorem baseHHI64_eq_foldl (miners : List Miner) :
    baseHHI64 miners =
      (firstOccurrences (miners.map ownerKey)).foldl
        (fun sum k =>
          JSNum.add64 sum
            (shareSq64 miners.length (miners.filter (fun m => ownerKey m = k)).length)) 0 := by
  unfold baseHHI64
  rw [coldkeyGroups_eq]
  conv_lhs => rw [groupBy_eq]
  rw [List.foldl_map, groupBy_keys_eq]

theorem pow_one_add_le (u : ℚ) (hu : 0 ≤ u) (p : ℕ) (h : 2 * (p : ℚ) * u ≤ 1) :
    (1 + u) ^ p ≤ 1 + 2 * (p : ℚ) * u := by
  induction p with
  | zero => simp
  | succ p ih =>
    have hp : 2 * (p : ℚ) * u ≤ 1 := by
      push_cast at h
      nlinarith
    have h1 := ih hp
    have h2 : (1 + u) ^ (p + 1) = (1 + u) ^ p * (1 + u) := pow_succ _ _
    rw [h2]
    push_cast
    have h3 : (1 + u) ^ p * (1 + u) ≤ (1 + 2 * (p : ℚ) * u) * (1 + u) :=
      mul_le_mul_of_nonneg_right h1 (by linarith)
    nlinarith [mul_nonneg hu hu, mul_le_mul_of_nonneg_right hp hu]

theorem one_sub_mul_le_pow (u : ℚ) (hu : u ≤ 1) (p : ℕ) : 1 - (p : ℚ) * u ≤ (1 - u) ^ p := by
  have h := one_add_mul_le_pow (show (-2 : ℚ) ≤ -u by linarith) p
  have h1 : (1 : ℚ) + (p : ℚ) * -u = 1 - (p : ℚ) * u := by ring
  have h2 : (1 : ℚ) + -u = 1 - u := by ring
  rw [h1, h2] at h
  exact h

theorem Near.abs_sub_le {p : ℕ} {S b : ℚ} (h : Near p S b) (hS0 : 0 ≤ S) (hS : S ≤ 10000)
    (hp : p ≤ 2 ^ 32 + 5) : |b - S| ≤ 1 / 100 := by
  have hpq : (p : ℚ) ≤ 2 ^ 32 + 5 := by exact_mod_cast hp
  have hu : unitRoundoff = 1 / 2 ^ 53 := rfl
  have hpu : (p : ℚ) * unitRoundoff ≤ (2 ^ 32 + 5) * (1 / 2 ^ 53) := by
    rw [hu]
    exact mul_le_mul_of_nonneg_right hpq (by positivity)
  have hup := pow_one_add_le unitRoundoff unitRoundoff_pos.le p (by
    have : (2 ^ 32 + 5 : ℚ) * (1 / 2 ^ 53) ≤ 1 / 2 := by norm_num
    linarith)
  have hlow := one_sub_mul_le_pow unitRoundoff unitRoundoff_lt_one.le p
  have hnum : (2 ^ 32 + 5 : ℚ) * (1 / 2 ^ 53) * 10000 ≤ 1 / 200 := by norm_num
  have hpuS : (p : ℚ) * unitRoundoff * S ≤ 1 / 200 := by
    calc (p : ℚ) * unitRoundoff * S ≤ (2 ^ 32 + 5) * (1 / 2 ^ 53) * S :=
          mul_le_mul_of_nonneg_right hpu hS0
      _ ≤ (2 ^ 32 + 5) * (1 / 2 ^ 53) * 10000 :=
          mul_le_mul_of_nonneg_left hS (by positivity)
      _ ≤ 1 / 200 := hnum
  obtain ⟨h1, h2⟩ := h
  rw [abs_le]
  constructor
  · have : (1 - (p : ℚ) * unitRoundoff) * S ≤ (1 - unitRoundoff) ^ p * S :=
      mul_le_mul_of_nonneg_right hlow hS0
    nlinarith
  · have : (1 + unitRoundoff) ^ p * S ≤ (1 + 2 * (p : ℚ) * unitRoundoff) * S :=
      mul_le_mul_of_nonneg_right hup hS0
    nlinarith

theorem abs_round_sub_round_le (x y : ℚ) (h : |x - y| ≤ 1) : |round x - round y| ≤ 1 := by
  rw [round_eq, round_eq]
  obtain ⟨h1, h2⟩ := abs_le.mp h
  rw [abs_le]
  constructor
  · have : ⌊y + 1 / 2⌋ ≤ ⌊x + 1 / 2 + 1⌋ := Int.floor_mono (by linarith)
    rw [Int.floor_add_one] at this
    omega
  · have : ⌊x + 1 / 2⌋ ≤ ⌊y + 1 / 2 + 1⌋ := Int.floor_mono (by linarith)
    rw [Int.floor_add_one] at this
    omega

theorem coldkeyGroups_length_le (miners : List Miner) :
    (coldkeyGroups miners).length ≤ miners.length := by
  rw [coldkeyGroups_eq, groupBy_length]
  exact (List.toFinset_card_le _).trans (by simp)

theorem baseHHI64_abs_sub_le (miners : List Miner) (hsize : miners.length < 2 ^ 32) :
    ∃ b : ℚ, baseHHI64 miners = fin b ∧ |b - baseIndex miners| ≤ 1 / 100 := by
  obtain ⟨b, hb, hnear⟩ := baseHHI64_near miners
  refine ⟨b, hb, hnear.abs_sub_le (baseIndex_nonneg miners) (baseIndex_le miners) ?_⟩
  have := coldkeyGroups_length_le miners
  omega

theorem binary64_abs_error (q : ℚ) : |binary64 q - q| ≤ unitRoundoff * |q| := by
  rcases eq_or_ne q 0 with h | hne
  · subst h
    simp [binary64_zero]
  · have hpos : 0 < |q| := abs_pos.mpr hne
    unfold binary64
    rw [if_neg hne]
    have hlo : (2 : ℚ) ^ Int.log 2 |q| ≤ |q| := by
      simpa using Int.zpow_log_le_self (b := 2) (by norm_num) hpos
    generalize Int.log 2 |q| = e at hlo ⊢
    have hs : (0 : ℚ) < 2 ^ (e - 52) := by positivity
    have hnear := roundHalfEven_near (q / 2 ^ (e - 52))
    have heq : (roundHalfEven (q / 2 ^ (e - 52)) : ℚ) * 2 ^ (e - 52) - q =
        ((roundHalfEven (q / 2 ^ (e - 52)) : ℚ) - q / 2 ^ (e - 52)) * 2 ^ (e - 52) := by
      field_simp
    rw [heq, abs_mul, abs_of_pos hs]
    have hsplit : (2 : ℚ) ^ (e - 52) = 2 ^ e * (1 / 2 ^ 52) := by
      rw [zpow_sub₀ (by norm_num : (2 : ℚ) ≠ 0)]
      norm_num
      ring
    calc |(roundHalfEven (q / 2 ^ (e - 52)) : ℚ) - q / 2 ^ (e - 52)| * 2 ^ (e - 52)
        ≤ 1 / 2 * 2 ^ (e - 52) := by
          exact mul_le_mul_of_nonneg_right hnear hs.le
      _ = unitRoundoff * 2 ^ e := by
          rw [hsplit]
          unfold unitRoundoff
          ring
      _ ≤ unitRoundoff * |q| := by
          apply mul_le_mul_of_nonneg_left hlo
          unfold unitRoundoff
          positivity

theorem binary64_close (q Q ε : ℚ) (hq : |q - Q| ≤ ε) (hbound : |q| ≤ 1000000) :
    |binary64 q - Q| ≤ ε + 1 / 10 ^ 9 := by
  have h1 := binary64_abs_error q
  have h2 : unitRoundoff * |q| ≤ 1 / 10 ^ 9 := by
    calc unitRoundoff * |q| ≤ unitRoundoff * 1000000 :=
          mul_le_mul_of_nonneg_left hbound unitRoundoff_pos.le
      _ ≤ 1 / 10 ^ 9 := by
          unfold unitRoundoff
          norm_num
  have h3 := abs_le.mp (h1.trans h2)
  have h4 := abs_le.mp hq
  rw [abs_le]
  constructor <;> linarith [h3.1, h3.2, h4.1, h4.2]

theorem cloudCount_le (miners : List Miner) : cloudCount miners ≤ miners.length := by
  unfold cloudCount
  induction miners with
  | nil => simp
  | cons m rest ih =>
    simp only [List.countP_cons, List.length_cons]
    by_cases h1 : hostingKey m = "Cloud Provider"
    · simp [h1]
      omega
    · by_cases h2 : hostingKey m = "Hosting/Cloud"
      · simp [h2]
        omega
      · by_cases h3 : hostingKey m = "VPS/Hosting"
        · simp [h3]
          omega
        · simp [h1, h2, h3]
          omega

theorem cloudCentralizationRisk64_eq (miners : List Miner) :
    cloudCentralizationRisk64 miners =
      JSNum.mul64 (JSNum.div64 (JSNum.ofNat (cloudCount miners)) (JSNum.ofNat miners.length))
        100 := by
  unfold cloudCentralizationRisk64 cloudCount
  simp only [hostingTypes_eq, countOf_countBy, Nat.add_assoc]

theorem decentralizationScore64_eq (miners : List Miner) (hne : miners ≠ []) (b : ℚ)
    (hb : baseHHI64 miners = fin b) :
    decentralizationScore64 miners =
      fin (binary64 (((⌊binary64
        (max 0
          (binary64
            (binary64 (max 0 (binary64 (100 - binary64 (b / 100))) -
                min 20 (binary64 (((ipClusters miners).length : ℚ) * 5))) -
              min 30
                (binary64 (binary64 (binary64 ((cloudCount miners : ℚ) / (miners.length : ℚ))
                  * 100) * (1 / 2))))) * 100) + 1 / 2⌋ : ℤ) : ℚ) / 100)) := by
  have hn : (miners.length : ℚ) ≠ 0 := by
    have : miners.length ≠ 0 := by simpa using hne
    exact_mod_cast this
  have h100 : (100 : ℚ) ≠ 0 := by norm_num
  simp only [decentralizationScore64, round2_64, enhancedDecentralizationScore64,
    cloudCentralizationRisk64_eq, hb, lit_eq_fin, ofNat_eq_fin, Nat.cast_ofNat, Nat.cast_zero,
    div64_fin _ _ hn, div64_fin _ _ h100, sub64_fin, mul64_fin, mathMax_fin_fin, mathMin_fin_fin,
    mathRound_fin]

theorem abs_max_sub_max (c x y : ℚ) : |max c x - max c y| ≤ |x - y| := by
  have h1 := neg_abs_le (x - y)
  have h2 := le_abs_self (x - y)
  rw [abs_le]
  rcases le_total c x with hx | hx <;> rcases le_total c y with hy | hy <;>
    simp only [max_eq_right, max_eq_left, hx, hy] <;> constructor <;> linarith

theorem abs_min_sub_min (c x y : ℚ) : |min c x - min c y| ≤ |x - y| := by
  have h1 := neg_abs_le (x - y)
  have h2 := le_abs_self (x - y)
  rw [abs_le]
  rcases le_total c x with hx | hx <;> rcases le_total c y with hy | hy <;>
    simp only [min_eq_right, min_eq_left, hx, hy] <;> constructor <;> linarith

theorem min_twenty_binary64 (k : ℕ) :
    |min 20 (binary64 ((k : ℚ) * 5)) - min 20 ((k : ℚ) * 5)| ≤ 1 / 10 ^ 9 := by
  rcases Nat.lt_or_ge k 4 with hk | hk
  · have hexact : binary64 ((k : ℚ) * 5) = (k : ℚ) * 5 := by
      interval_cases k
      · norm_num [binary64_zero]
      · exact binary64_eq _ _ 2 5629499534213120 (by norm_num) (by norm_num) (by norm_num)
          (by norm_num) (by norm_num)
      · exact binary64_eq _ _ 3 5629499534213120 (by norm_num) (by norm_num) (by norm_num)
          (by norm_num) (by norm_num)
      · exact binary64_eq _ _ 3 8444249301319680 (by norm_num) (by norm_num) (by norm_num)
          (by norm_num) (by norm_num)
    rw [hexact, sub_self, abs_zero]
    norm_num
  · have hq : (20 : ℚ) ≤ (k : ℚ) * 5 := by
      have : (4 : ℚ) ≤ (k : ℚ) := by exact_mod_cast hk
      linarith
    have herr := abs_le.mp (binary64_error _ (le_trans (by norm_num) hq))
    have hu : unitRoundoff * 20 ≤ 1 / 10 ^ 9 := by
      unfold unitRoundoff
      norm_num
    have hu1 : unitRoundoff ≤ 1 := unitRoundoff_lt_one.le
    have hlow : 20 - 1 / 10 ^ 9 ≤ binary64 ((k : ℚ) * 5) := by
      have h3 : (1 - unitRoundoff) * 20 ≤ (1 - unitRoundoff) * ((k : ℚ) * 5) :=
        mul_le_mul_of_nonneg_left hq (by linarith)
      linarith [herr.1]
    rw [min_eq_left hq, abs_le]
    rcases le_total 20 (binary64 ((k : ℚ) * 5)) with h | h
    · rw [min_eq_left h]
      constructor <;> norm_num
    · rw [min_eq_right h]
      constructor <;> linarith

theorem decentralizationScore64_close (miners : List Miner) (hne : miners ≠ [])
    (hsize : miners.length < 2 ^ 32) :
    ∃ s : ℚ, decentralizationScore64 miners = fin s ∧ |s - scoreValue miners| ≤ 3 / 500 := by
  obtain ⟨b, hb, hbS⟩ := baseHHI64_abs_sub_le miners hsize
  refine ⟨_, decentralizationScore64_eq miners hne b hb, ?_⟩
  have hS0 := baseIndex_nonneg miners
  have hS := baseIndex_le miners
  have hn : (0 : ℚ) < (miners.length : ℚ) := by
    have : miners.length ≠ 0 := by simpa using hne
    exact_mod_cast Nat.pos_of_ne_zero this
  have hcc0 : (0 : ℚ) ≤ (cloudCount miners : ℚ) := Nat.cast_nonneg _
  have hcc : (cloudCount miners : ℚ) ≤ (miners.length : ℚ) := by
    exact_mod_cast cloudCount_le miners
  have hratio0 : (0 : ℚ) ≤ (cloudCount miners : ℚ) / (miners.length : ℚ) := by positivity
  have hratio1 : (cloudCount miners : ℚ) / (miners.length : ℚ) ≤ 1 := by
    rw [div_le_one hn]
    exact hcc
  have hk0 : (0 : ℚ) ≤ ((ipClusters miners).length : ℚ) := Nat.cast_nonneg _
  unfold scoreValue
  generalize baseIndex miners = S at hbS hS0 hS ⊢
  generalize (cloudCount miners : ℚ) / (miners.length : ℚ) = ratio at hratio0 hratio1 ⊢
  have hc1 := min_twenty_binary64 (ipClusters miners).length
  generalize ((ipClusters miners).length : ℚ) = cnt at hk0 hc1 ⊢
  -- the base score
  have hbS' := abs_le.mp hbS
  have hx1 : |binary64 (b / 100) - S / 100| ≤ 1 / 10 ^ 4 + 1 / 10 ^ 9 := by
    apply binary64_close
    · rw [abs_le]
      constructor <;> linarith only [hbS'.1, hbS'.2]
    · rw [abs_le]
      constructor <;> linarith only [hbS'.1, hbS'.2, hS0, hS]
  generalize binary64 (b / 100) = x1 at hx1 ⊢
  have hx1' := abs_le.mp hx1
  have hx2 : |binary64 (100 - x1) - (100 - S / 100)| ≤ 1 / 10 ^ 4 + 1 / 10 ^ 9 + 1 / 10 ^ 9 := by
    apply binary64_close
    · rw [abs_le]
      constructor <;> linarith only [hx1'.1, hx1'.2]
    · rw [abs_le]
      constructor <;> linarith only [hx1'.1, hx1'.2, hS0, hS]
  generalize binary64 (100 - x1) = x2 at hx2 ⊢
  have hB := (abs_max_sub_max 0 x2 (100 - S / 100)).trans hx2
  have hB0 : (0 : ℚ) ≤ max 0 (100 - S / 100) := le_max_left _ _
  have hB1 : max 0 (100 - S / 100) ≤ 100 := max_le (by norm_num) (by linarith only [hS0])
  generalize max 0 (100 - S / 100) = B at hB hB0 hB1 ⊢
  generalize max 0 x2 = B64 at hB ⊢
  have hB' := abs_le.mp hB
  -- the cluster penalty
  have hP10 : (0 : ℚ) ≤ min 20 (cnt * 5) := le_min (by norm_num) (by linarith only [hk0])
  have hP11 : min 20 (cnt * 5) ≤ 20 := min_le_left _ _
  generalize min 20 (cnt * 5) = P1 at hc1 hP10 hP11 ⊢
  generalize min 20 (binary64 (cnt * 5)) = c1 at hc1 ⊢
  have hc1' := abs_le.mp hc1
  -- the cloud penalty
  have ha : |binary64 ratio - ratio| ≤ 0 + 1 / 10 ^ 9 := by
    apply binary64_close
    · simp
    · rw [abs_le]
      constructor <;> linarith only [hratio0, hratio1]
  generalize binary64 ratio = a at ha ⊢
  have ha' := abs_le.mp ha
  have hr : |binary64 (a * 100) - ratio * 100| ≤ 1 / 10 ^ 7 + 1 / 10 ^ 9 := by
    apply binary64_close
    · rw [abs_le]
      constructor <;> linarith only [ha'.1, ha'.2]
    · rw [abs_le]
      constructor <;> linarith only [ha'.1, ha'.2, hratio0, hratio1]
  generalize binary64 (a * 100) = r at hr ⊢
  have hr' := abs_le.mp hr
  have hh : |binary64 (r * (1 / 2)) - ratio * 100 * (1 / 2)| ≤ 1 / 10 ^ 7 + 1 / 10 ^ 9 := by
    apply binary64_close
    · rw [abs_le]
      constructor <;> linarith only [hr'.1, hr'.2]
    · rw [abs_le]
      constructor <;> linarith only [hr'.1, hr'.2, hratio0, hratio1]
  generalize binary64 (r * (1 / 2)) = h at hh ⊢
  have hc2 := (abs_min_sub_min 30 h (ratio * 100 * (1 / 2))).trans hh
  have hP20 : (0 : ℚ) ≤ min 30 (ratio * 100 * (1 / 2)) := le_min (by norm_num) (by linarith only [hratio0])
  have hP21 : min 30 (ratio * 100 * (1 / 2)) ≤ 30 := min_le_left _ _
  generalize min 30 (ratio * 100 * (1 / 2)) = P2 at hc2 hP20 hP21 ⊢
  generalize min 30 h = c2 at hc2 ⊢
  have hc2' := abs_le.mp hc2
  -- the two subtractions
  have hx4 : |binary64 (B64 - c1) - (B - P1)| ≤ (1 / 10 ^ 4 + 3 / 10 ^ 9) + 1 / 10 ^ 9 := by
    apply binary64_close
    · rw [abs_le]
      constructor <;> linarith only [hB'.1, hB'.2, hc1'.1, hc1'.2]
    · rw [abs_le]
      constructor <;> linarith only [hB'.1, hB'.2, hc1'.1, hc1'.2, hB0, hB1, hP10, hP11]
  generalize binary64 (B64 - c1) = x4 at hx4 ⊢
  have hx4' := abs_le.mp hx4
  have hx5 : |binary64 (x4 - c2) - (B - P1 - P2)| ≤
      (1 / 10 ^ 4 + 1 / 10 ^ 7 + 5 / 10 ^ 9) + 1 / 10 ^ 9 := by
    apply binary64_close
    · rw [abs_le]
      constructor <;> linarith only [hx4'.1, hx4'.2, hc2'.1, hc2'.2]
    · rw [abs_le]
      constructor <;>
        linarith only [hx4'.1, hx4'.2, hc2'.1, hc2'.2, hB0, hB1, hP10, hP11, hP20, hP21]
  generalize binary64 (x4 - c2) = x5 at hx5 ⊢
  have hraw := (abs_max_sub_max 0 x5 (B - P1 - P2)).trans hx5
  have hsv0 : (0 : ℚ) ≤ max 0 (B - P1 - P2) := le_max_left _ _
  have hsv1 : max 0 (B - P1 - P2) ≤ 100 := max_le (by norm_num) (by linarith only [hB1, hP10, hP20])
  generalize max 0 (B - P1 - P2) = sv at hraw hsv0 hsv1 ⊢
  generalize max 0 x5 = raw at hraw ⊢
  have hraw' := abs_le.mp hraw
  -- the rounding to two decimals
  have hz : |binary64 (raw * 100) - sv * 100| ≤
      (1 / 10 ^ 2 + 1 / 10 ^ 5 + 6 / 10 ^ 7) + 1 / 10 ^ 9 := by
    apply binary64_close
    · rw [abs_le]
      constructor <;> linarith only [hraw'.1, hraw'.2]
    · rw [abs_le]
      constructor <;> linarith only [hraw'.1, hraw'.2, hsv0, hsv1]
  generalize binary64 (raw * 100) = z at hz ⊢
  have hz' := abs_le.mp hz
  have hw1 := Int.floor_le (z + 1 / 2)
  have hw2 := Int.lt_floor_add_one (z + 1 / 2)
  generalize ((⌊z + 1 / 2⌋ : ℤ) : ℚ) = w at hw1 hw2 ⊢
  have hs : |binary64 (w / 100) - w / 100| ≤ 0 + 1 / 10 ^ 9 := by
    apply binary64_close
    · simp
    · rw [abs_le]
      constructor <;> linarith only [hz'.1, hz'.2, hw1, hw2, hsv0, hsv1]
  have hs' := abs_le.mp hs
  rw [abs_le]
  constructor <;> linarith only [hs'.1, hs'.2, hz'.1, hz'.2, hw1, hw2]

/-! ## The claims -/

/-- C1, as stated, fails: for twenty-four participants of three owners who hold 22, 1 and 1 of
them, the sum of the squared percentage shares is 8437.5, whose rounding is 8438, while the
binary64 reduction gives 8437.499999999998 and the reported `hhi` is 8437. -/
theorem C1_rounding_moves_hhi_off_the_exact_sum :
    (∑ k ∈ (unevenOwners.map ownerKey).toFinset,
        (((unevenOwners.filter (fun m => ownerKey m = k)).length : ℚ) / (unevenOwners.length : ℚ) * 100) ^ 2) = 16875 / 2 ∧
      round (16875 / 2 : ℚ) = 8438 ∧
      baseHHI64 unevenOwners = JSNum.fin (4638564679679999 / 549755813888) ∧
      hhi64 unevenOwners = JSNum.fin 8437 := by
  have hsizes : (coldkeyGroups unevenOwners).map (fun e => e.2.length) = [22, 1, 1] := by decide
  have hlen : unevenOwners.length = 24 := by decide
  have hexact : baseIndex unevenOwners = 16875 / 2 := by
    rw [← sum_shareSq_coldkeyGroups, hsizes, hlen]
    norm_num [shareSq]
  have h1 :
      binary64 (22 / 24) =
        8256599316845909 / 9007199254740992 :=
    binary64_eq _ _ (-1) 8256599316845909 (by norm_num) (by norm_num) (by norm_num) (by norm_num)
      (by norm_num)
  have h2 :
      binary64 ((8256599316845909 / 9007199254740992 : ℚ) * 100) =
        3225234108142933 / 35184372088832 :=
    binary64_eq _ _ (6) 6450468216285866 (by norm_num) (by norm_num) (by norm_num) (by norm_num)
      (by norm_num)
  have h3 :
      binary64 ((3225234108142933 / 35184372088832 : ℚ) *
        (3225234108142933 / 35184372088832 : ℚ)) =
        4619475936142221 / 549755813888 :=
    binary64_eq _ _ (13) 4619475936142221 (by norm_num) (by norm_num) (by norm_num) (by norm_num)
      (by norm_num)
  have h4 :
      binary64 (1 / 24) =
        6004799503160661 / 144115188075855872 :=
    binary64_eq _ _ (-5) 6004799503160661 (by norm_num) (by norm_num) (by norm_num) (by norm_num)
      (by norm_num)
  have h5 :
      binary64 ((6004799503160661 / 144115188075855872 : ℚ) * 100) =
        2345624805922133 / 562949953421312 :=
    binary64_eq _ _ (2) 4691249611844266 (by norm_num) (by norm_num) (by norm_num) (by norm_num)
      (by norm_num)
  have h6 :
      binary64 ((2345624805922133 / 562949953421312 : ℚ) *
        (2345624805922133 / 562949953421312 : ℚ)) =
        2443359172835555 / 140737488355328 :=
    binary64_eq _ _ (4) 4886718345671110 (by norm_num) (by norm_num) (by norm_num) (by norm_num)
      (by norm_num)
  have h7 :
      binary64 (0 +
        (4619475936142221 / 549755813888 : ℚ)) =
        4619475936142221 / 549755813888 :=
    binary64_eq _ _ (13) 4619475936142221 (by norm_num) (by norm_num) (by norm_num) (by norm_num)
      (by norm_num)
  have h8 :
      binary64 ((4619475936142221 / 549755813888 : ℚ) +
        (2443359172835555 / 140737488355328 : ℚ)) =
        2314510153955555 / 274877906944 :=
    binary64_eq _ _ (13) 4629020307911110 (by norm_num) (by norm_num) (by norm_num) (by norm_num)
      (by norm_num)
  have h9 :
      binary64 ((2314510153955555 / 274877906944 : ℚ) +
        (2443359172835555 / 140737488355328 : ℚ)) =
        4638564679679999 / 549755813888 :=
    binary64_eq _ _ (13) 4638564679679999 (by norm_num) (by norm_num) (by norm_num) (by norm_num)
      (by norm_num)
  have t22 : shareSq64 24 22 = JSNum.fin (4619475936142221 / 549755813888 : ℚ) := by
    rw [shareSq64_eq 24 22 (by decide)]
    push_cast
    rw [h1, h2, h3]
  have t1 : shareSq64 24 1 = JSNum.fin (2443359172835555 / 140737488355328 : ℚ) := by
    rw [shareSq64_eq 24 1 (by decide)]
    push_cast
    rw [h4, h5, h6]
  have hbase : baseHHI64 unevenOwners = JSNum.fin (4638564679679999 / 549755813888) := by
    rw [baseHHI64_sizes, hsizes, hlen]
    simp only [List.foldl]
    rw [t22, t1, JSNum.add64_fin, h7, JSNum.add64_fin, h8, JSNum.add64_fin, h9]
  refine ⟨hexact, ?_, hbase, ?_⟩
  · rw [round_eq, Int.floor_eq_iff]
    norm_num
  · unfold hhi64
    rw [hbase, mathRound_fin]
    have hfloor : ⌊(4638564679679999 / 549755813888 : ℚ) + 1 / 2⌋ = 8437 := by
      rw [Int.floor_eq_iff]
      norm_num
    rw [hfloor]
    norm_num

/-- C1, amended: the base concentration index is the sum, over the groups of the partition of
the participants by owner key (the coldkey, or "unknown" when it is missing), of
`(groupSize / totalParticipants * 100)^2`, evaluated in binary64 arithmetic in the order in
which the owners first occur. For `k` groups the computed value `b` lies between
`(1 - 2^-53)^(k+5)` and `(1 + 2^-53)^(k+5)` times the exact sum; the reported `hhi` is `b`
rounded to the nearest integer, which is at most 1 away from the rounding of the exact sum when
there are fewer than `2^32` participants; and `uniqueOwners` is the number of groups. -/
theorem C1_base_index_is_rounded_sum_over_owner_groups (subnet : Subnet) (miners : List Miner)
    (now : Nat) :
    baseHHI64 miners =
        (firstOccurrences (miners.map ownerKey)).foldl
          (fun sum k =>
            JSNum.add64 sum
              (shareSq64 miners.length (miners.filter (fun m => ownerKey m = k)).length)) 0 ∧
      (∃ b : ℚ, baseHHI64 miners = JSNum.fin b ∧
        (1 - 1 / 2 ^ 53) ^ ((miners.map ownerKey).toFinset.card + 5) *
            (∑ k ∈ (miners.map ownerKey).toFinset,
              (((miners.filter (fun m => ownerKey m = k)).length : ℚ) / (miners.length : ℚ) * 100)
                ^ 2) ≤ b ∧
        b ≤ (1 + 1 / 2 ^ 53) ^ ((miners.map ownerKey).toFinset.card + 5) *
            (∑ k ∈ (miners.map ownerKey).toFinset,
              (((miners.filter (fun m => ownerKey m = k)).length : ℚ) / (miners.length : ℚ) * 100)
                ^ 2) ∧
        hhi64 miners = JSNum.fin ((round b : ℤ) : ℚ) ∧
        (miners.length < 2 ^ 32 →
          |round b - round (∑ k ∈ (miners.map ownerKey).toFinset,
              (((miners.filter (fun m => ownerKey m = k)).length : ℚ) / (miners.length : ℚ) * 100)
                ^ 2)| ≤ 1)) ∧
      (calculateCentralization subnet miners now).uniqueOwners =
        (miners.map ownerKey).toFinset.card := by
  have hk : (coldkeyGroups miners).length = (miners.map ownerKey).toFinset.card := by
    rw [coldkeyGroups_eq, groupBy_length]
  refine ⟨baseHHI64_eq_foldl miners, ?_, hk⟩
  obtain ⟨b, hb, hnear⟩ := baseHHI64_near miners
  rw [hk] at hnear
  refine ⟨b, hb, hnear.1, hnear.2, ?_, ?_⟩
  · unfold hhi64
    rw [hb, mathRound_fin, round_eq]
  · intro hsize
    apply abs_round_sub_round_le
    have habs : |b - baseIndex miners| ≤ 1 / 100 :=
      hnear.abs_sub_le (baseIndex_nonneg miners) (baseIndex_le miners) (by
        have := coldkeyGroups_length_le miners
        omega)
    exact habs.trans (by norm_num)

/-- C2: the concentration level is decided top-down, first match wins, on the adjusted index
before rounding (always a finite number `a`) and the number of suspicious address clusters. -/
theorem C2_level_decided_on_unrounded_adjusted_index (subnet : Subnet) (miners : List Miner)
    (now : Nat) :
    ∃ a : ℚ, adjustedHHI miners = JSNum.fin a ∧
      (calculateCentralization subnet miners now).adjustedHHI = JSNum.fin ((round a : ℤ) : ℚ) ∧
      (calculateCentralization subnet miners now).concentrationLevel =
        if 2500 < a ∨ 5 < (calculateCentralization subnet miners now).ipClusterCount then
          "Highly Concentrated"
        else if 1500 < a ∨ 2 < (calculateCentralization subnet miners now).ipClusterCount then
          "Moderately Concentrated"
        else if 1000 < a ∨ 0 < (calculateCentralization subnet miners now).ipClusterCount then
          "Unconcentrated"
        else "Highly Decentralized" := by
  obtain ⟨p, hp, _⟩ := adjustedHHI_eq miners
  refine ⟨baseIndex miners + p, hp, ?_, ?_⟩
  · show mathRound (adjustedHHI miners) = _
    rw [hp, mathRound_fin, round_eq]
  · show concentrationLevel miners = _
    unfold concentrationLevel
    rw [hp]
    simp only [calculateCentralization, lit_eq_fin, gt_fin_fin, Bool.or_eq_true,
      decide_eq_true_eq, gt_iff_lt, Nat.cast_ofNat]

/-- C3, as stated, fails on the empty participant list: the score is `NaN`, which lies in no
interval. -/
theorem C3_empty_snapshot_score_is_nan :
    (calculateCentralization sampleSubnet [] 0).decentralizationScore = JSNum.nan ∧
      ¬ ∃ q : ℚ, (calculateCentralization sampleSubnet [] 0).decentralizationScore = JSNum.fin q ∧
        0 ≤ q ∧ q ≤ 100 := by
  have h : (calculateCentralization sampleSubnet [] 0).decentralizationScore = JSNum.nan := by
    simp [calculateCentralization, enhancedDecentralizationScore, cloudCentralizationRisk,
      hostingTypes, countOf]
  refine ⟨h, ?_⟩
  rintro ⟨q, hq, _⟩
  rw [h] at hq
  exact JSNum.noConfusion hq

/-- C3, amended: for every snapshot with at least one participant the decentralization score
is a finite number in the closed interval from 0 to 100. -/
theorem C3_score_in_range_of_nonempty (subnet : Subnet) (miners : List Miner) (now : Nat)
    (h : miners ≠ []) :
    ∃ q : ℚ, (calculateCentralization subnet miners now).decentralizationScore = JSNum.fin q ∧
      0 ≤ q ∧ q ≤ 100 := by
  have hb := scoreValue_bounds miners
  have hr := round2_bounds (scoreValue miners) hb.1 hb.2
  refine ⟨_, ?_, hr.1, hr.2⟩
  show round2 (enhancedDecentralizationScore miners) = _
  rw [enhancedDecentralizationScore_fin miners h, round2_fin]

/-- Witness of the amended C3: one participant with no address. -/
theorem C3_score_in_range_witness :
    [sampleMiner 1 (some "5Fowner") none] ≠ [] ∧
      ∃ q : ℚ, (calculateCentralization sampleSubnet [sampleMiner 1 (some "5Fowner") none]
          0).decentralizationScore = JSNum.fin q ∧ 0 ≤ q ∧ q ≤ 100 :=
  ⟨by simp, C3_score_in_range_of_nonempty sampleSubnet _ 0 (by simp)⟩

/-- C4, as stated, fails: on the empty participant list the ratio metrics are `NaN`, not
zero. -/
theorem C4_empty_snapshot_ratios_are_nan :
    (calculateCentralization sampleSubnet [] 0).cloudCentralizationRisk = JSNum.nan ∧
      (calculateCentralization sampleSubnet [] 0).minerAxonCoverage = JSNum.nan ∧
      (calculateCentralization sampleSubnet [] 0).axonCoverage = JSNum.nan ∧
      (calculateCentralization sampleSubnet [] 0).cloudCentralizationRisk ≠ JSNum.fin 0 ∧
      (calculateCentralization sampleSubnet [] 0).minerAxonCoverage ≠ JSNum.fin 0 ∧
      (calculateCentralization sampleSubnet [] 0).axonCoverage ≠ JSNum.fin 0 := by
  simp [calculateCentralization, cloudCentralizationRisk, minerAxonCoverage, minersWithIPs,
    hostingTypes, countOf]

/-- C4, amended: on the empty participant list the analyzer returns a report, without
failing, in which `hhi`, `adjustedHHI` and every count are zero, every list is empty and the
level is "Highly Decentralized", while the four ratio metrics are `NaN`. -/
theorem C4_empty_snapshot_report (subnet : Subnet) (now : Nat) :
    calculateCentralization subnet [] now =
      { totalMiners := 0
        uniqueOwners := 0
        hhi := JSNum.fin 0
        adjustedHHI := JSNum.fin 0
        concentrationLevel := "Highly Decentralized"
        topOwners := []
        geographicDistribution := []
        decentralizationScore := JSNum.nan
        ipClusters := []
        ipClusterCount := 0
        asnConcentration := []
        hostingDistribution := []
        cloudCentralizationRisk := JSNum.nan
        totalUniqueIPs := 0
        totalUniqueASNs := 0
        minersWithIPs := 0
        minersWithoutIPs := 0
        validatorCount := 0
        validatorsWithoutAxons := 0
        potentiallyInactiveMiners := 0
        minerAxonCoverage := JSNum.nan
        axonCoverage := JSNum.nan
        lastAnalyzed := now } := by
  simp [calculateCentralization, baseHHI, adjustedHHI, ipClusterPenalty, ipClusters, ipGroups,
    asnGroups, coldkeyGroups, hostingTypes, countries, concentrationLevel, topOwners,
    asnConcentration, hostingDistribution, sortByCountDesc, enhancedDecentralizationScore,
    cloudCentralizationRisk, minerAxonCoverage, minersWithIPs, validatorsWithoutAxons,
    nonValidatorsWithoutAxons, countOf]
  norm_num

/-- C5: the adjusted index is at least the base index, both before rounding and as reported. -/
theorem C5_adjusted_index_ge_base_index (subnet : Subnet) (miners : List Miner) (now : Nat) :
    ∃ b a : ℚ, baseHHI miners = JSNum.fin b ∧ adjustedHHI miners = JSNum.fin a ∧ b ≤ a ∧
      (calculateCentralization subnet miners now).hhi = JSNum.fin ((round b : ℤ) : ℚ) ∧
      (calculateCentralization subnet miners now).adjustedHHI = JSNum.fin ((round a : ℤ) : ℚ) ∧
      round b ≤ round a := by
  obtain ⟨p, hp, hp0⟩ := adjustedHHI_eq miners
  have hle : baseIndex miners ≤ baseIndex miners + p := le_add_of_nonneg_right hp0
  refine ⟨baseIndex miners, baseIndex miners + p, baseHHI_eq miners, hp, hle, ?_, ?_, ?_⟩
  · show mathRound (baseHHI miners) = _
    rw [baseHHI_eq, mathRound_fin, round_eq]
  · show mathRound (adjustedHHI miners) = _
    rw [hp, mathRound_fin, round_eq]
  · rw [round_eq, round_eq]
    exact Int.floor_mono (by linarith)

/-- C6: the base concentration index lies between 0 and 10000. It holds for every snapshot,
so in particular for those with at least one participant. -/
theorem C6_base_index_in_range (miners : List Miner) :
    ∃ b : ℚ, baseHHI miners = JSNum.fin b ∧ 0 ≤ b ∧ b ≤ 10000 :=
  ⟨baseIndex miners, baseHHI_eq miners, baseIndex_nonneg miners, baseIndex_le miners⟩

/-- C7: when a non-empty snapshot has all its participants under one coldkey, the base index
is exactly 10000 and the level is "Highly Concentrated". -/
theorem C7_single_owner_is_highly_concentrated (subnet : Subnet) (miners : List Miner)
    (now : Nat) (hne : miners ≠ [])
    (hsame : ∀ m ∈ miners, ∀ m₂ ∈ miners, m.coldkey = m₂.coldkey) :
    baseHHI miners = JSNum.fin 10000 ∧
      (calculateCentralization subnet miners now).hhi = JSNum.fin 10000 ∧
      (calculateCentralization subnet miners now).concentrationLevel = "Highly Concentrated" := by
  have hb : baseIndex miners = 10000 := baseIndex_single_owner miners hne hsame
  obtain ⟨p, hp, hp0⟩ := adjustedHHI_eq miners
  refine ⟨by rw [baseHHI_eq, hb], ?_, ?_⟩
  · show mathRound (baseHHI miners) = _
    rw [baseHHI_eq, hb, mathRound_fin]
    norm_num
  · show concentrationLevel miners = _
    unfold concentrationLevel
    rw [hp, hb]
    have : (2500 : ℚ) < 10000 + p := by linarith
    simp [this]

/-- Witness of C7: two participants under the coldkey "5Fowner". -/
theorem C7_single_owner_witness :
    [sampleMiner 1 (some "5Fowner") none, sampleMiner 2 (some "5Fowner") none] ≠ [] ∧
      (∀ m ∈ [sampleMiner 1 (some "5Fowner") none, sampleMiner 2 (some "5Fowner") none],
        ∀ m₂ ∈ [sampleMiner 1 (some "5Fowner") none, sampleMiner 2 (some "5Fowner") none],
          m.coldkey = m₂.coldkey) ∧
      (baseHHI [sampleMiner 1 (some "5Fowner") none, sampleMiner 2 (some "5Fowner") none] =
          JSNum.fin 10000 ∧
        (calculateCentralization sampleSubnet
          [sampleMiner 1 (some "5Fowner") none, sampleMiner 2 (some "5Fowner") none] 0).hhi =
            JSNum.fin 10000 ∧
        (calculateCentralization sampleSubnet
          [sampleMiner 1 (some "5Fowner") none, sampleMiner 2 (some "5Fowner") none]
            0).concentrationLevel = "Highly Concentrated") :=
  ⟨by simp, by simp [sampleMiner],
    C7_single_owner_is_highly_concentrated sampleSubnet _ 0 (by simp) (by simp [sampleMiner])⟩

/-- C8, as stated, fails: for twenty-four participants of four owners who hold 17, 3, 2 and 2
of them, with no address clusters and no cloud hosting, the formula gives
`100 - 5312.5 / 100 = 46.875`, which rounds to 46.88; the binary64 reduction gives the base
index 5312.500000000001, the score 46.87499999999999 before rounding, and the reported score is
the number 46.87. -/
theorem C8_score_rounds_below_the_exact_formula :
    max 0
        (max 0 (100 - baseIndex fourOwners / 100) -
          min 20 (((ipClusters fourOwners).length : ℚ) * 5) -
          min 30 ((cloudCount fourOwners : ℚ) / (fourOwners.length : ℚ) * 100 * (1 / 2))) =
        375 / 8 ∧
      round ((375 / 8 : ℚ) * 100) = 4688 ∧
      baseHHI64 fourOwners = JSNum.fin (5841155522560001 / 1099511627776) ∧
      decentralizationScore64 fourOwners = JSNum.fin (binary64 (4687 / 100)) ∧
      binary64 (4687 / 100) < 4688 / 100 := by
  have hsizes : (coldkeyGroups fourOwners).map (fun e => e.2.length) = [17, 3, 2, 2] := by
    decide
  have hlen : fourOwners.length = 24 := by decide
  have hclusters : (ipClusters fourOwners).length = 0 := by decide
  have hcloud : cloudCount fourOwners = 0 := by decide
  have hne : fourOwners ≠ [] := by
    intro h
    rw [h] at hlen
    exact absurd hlen (by decide)
  have hexact : baseIndex fourOwners = 10625 / 2 := by
    rw [← sum_shareSq_coldkeyGroups, hsizes, hlen]
    norm_num [shareSq]
  have h1 :
      binary64 (17 / 24) =
        6380099472108203 / 9007199254740992 :=
    binary64_eq _ _ (-1) 6380099472108203 (by norm_num) (by norm_num) (by norm_num) (by norm_num)
      (by norm_num)
  have h2 :
      binary64 ((6380099472108203 / 9007199254740992 : ℚ) * 100) =
        2492226356292267 / 35184372088832 :=
    binary64_eq _ _ (6) 4984452712584534 (by norm_num) (by norm_num) (by norm_num) (by norm_num)
      (by norm_num)
  have h3 :
      binary64 ((2492226356292267 / 35184372088832 : ℚ) *
        (2492226356292267 / 35184372088832 : ℚ)) =
        5516646882417779 / 1099511627776 :=
    binary64_eq _ _ (12) 5516646882417779 (by norm_num) (by norm_num) (by norm_num) (by norm_num)
      (by norm_num)
  have h4 :
      binary64 (3 / 24) =
        1 / 8 :=
    binary64_eq _ _ (-3) 4503599627370496 (by norm_num) (by norm_num) (by norm_num) (by norm_num)
      (by norm_num)
  have h5 :
      binary64 ((1 / 8 : ℚ) * 100) =
        25 / 2 :=
    binary64_eq _ _ (3) 7036874417766400 (by norm_num) (by norm_num) (by norm_num) (by norm_num)
      (by norm_num)
  have h6 :
      binary64 ((25 / 2 : ℚ) *
        (25 / 2 : ℚ)) =
        625 / 4 :=
    binary64_eq _ _ (7) 5497558138880000 (by norm_num) (by norm_num) (by norm_num) (by norm_num)
      (by norm_num)
  have h7 :
      binary64 (2 / 24) =
        6004799503160661 / 72057594037927936 :=
    binary64_eq _ _ (-4) 6004799503160661 (by norm_num) (by norm_num) (by norm_num) (by norm_num)
      (by norm_num)
  have h8 :
      binary64 ((6004799503160661 / 72057594037927936 : ℚ) * 100) =
        2345624805922133 / 281474976710656 :=
    binary64_eq _ _ (3) 4691249611844266 (by norm_num) (by norm_num) (by norm_num) (by norm_num)
      (by norm_num)
  have h9 :
      binary64 ((2345624805922133 / 281474976710656 : ℚ) *
        (2345624805922133 / 281474976710656 : ℚ)) =
        2443359172835555 / 35184372088832 :=
    binary64_eq _ _ (6) 4886718345671110 (by norm_num) (by norm_num) (by norm_num) (by norm_num)
      (by norm_num)
  have h10 :
      binary64 (0 +
        (5516646882417779 / 1099511627776 : ℚ)) =
        5516646882417779 / 1099511627776 :=
    binary64_eq _ _ (12) 5516646882417779 (by norm_num) (by norm_num) (by norm_num) (by norm_num)
      (by norm_num)
  have h11 :
      binary64 ((5516646882417779 / 1099511627776 : ℚ) +
        (625 / 4 : ℚ)) =
        5688445574257779 / 1099511627776 :=
    binary64_eq _ _ (12) 5688445574257779 (by norm_num) (by norm_num) (by norm_num) (by norm_num)
      (by norm_num)
  have h12 :
      binary64 ((5688445574257779 / 1099511627776 : ℚ) +
        (2443359172835555 / 35184372088832 : ℚ)) =
        2882400274204445 / 549755813888 :=
    binary64_eq _ _ (12) 5764800548408890 (by norm_num) (by norm_num) (by norm_num) (by norm_num)
      (by norm_num)
  have h13 :
      binary64 ((2882400274204445 / 549755813888 : ℚ) +
        (2443359172835555 / 35184372088832 : ℚ)) =
        5841155522560001 / 1099511627776 :=
    binary64_eq _ _ (12) 5841155522560001 (by norm_num) (by norm_num) (by norm_num) (by norm_num)
      (by norm_num)
  have t17 : shareSq64 24 17 = JSNum.fin (5516646882417779 / 1099511627776 : ℚ) := by
    rw [shareSq64_eq 24 17 (by decide)]
    push_cast
    rw [h1, h2, h3]
  have t3 : shareSq64 24 3 = JSNum.fin (625 / 4 : ℚ) := by
    rw [shareSq64_eq 24 3 (by decide)]
    push_cast
    rw [h4, h5, h6]
  have t2 : shareSq64 24 2 = JSNum.fin (2443359172835555 / 35184372088832 : ℚ) := by
    rw [shareSq64_eq 24 2 (by decide)]
    push_cast
    rw [h7, h8, h9]
  have hbase : baseHHI64 fourOwners = JSNum.fin (5841155522560001 / 1099511627776) := by
    rw [baseHHI64_sizes, hsizes, hlen]
    simp only [List.foldl]
    rw [t17, t3, t2, JSNum.add64_fin, h10, JSNum.add64_fin, h11, JSNum.add64_fin, h12, JSNum.add64_fin, h13]
  have hx1 :
      binary64 ((5841155522560001 / 1099511627776 : ℚ) / 100) =
        7476679068876801 / 140737488355328 :=
    binary64_eq _ _ (5) 7476679068876801 (by norm_num) (by norm_num) (by norm_num) (by norm_num)
      (by norm_num)
  have hx2 :
      binary64 (100 - (7476679068876801 / 140737488355328 : ℚ)) =
        6597069766655999 / 140737488355328 :=
    binary64_eq _ _ (5) 6597069766655999 (by norm_num) (by norm_num) (by norm_num) (by norm_num)
      (by norm_num)
  have hx3 :
      binary64 ((6597069766655999 / 140737488355328 : ℚ) - 0) =
        6597069766655999 / 140737488355328 :=
    binary64_eq _ _ (5) 6597069766655999 (by norm_num) (by norm_num) (by norm_num) (by norm_num)
      (by norm_num)
  have hx4 :
      binary64 ((6597069766655999 / 140737488355328 : ℚ) * 100) =
        5153960755199999 / 1099511627776 :=
    binary64_eq _ _ (12) 5153960755199999 (by norm_num) (by norm_num) (by norm_num) (by norm_num)
      (by norm_num)
  have hscore : binary64 (4687 / 100) = 6596366079214223 / 140737488355328 :=
    binary64_eq _ _ (5) 6596366079214223 (by norm_num) (by norm_num) (by norm_num) (by norm_num)
      (by norm_num)
  have hfloor : ⌊(5153960755199999 / 1099511627776 : ℚ) + 1 / 2⌋ = 4687 := by
    rw [Int.floor_eq_iff]
    norm_num
  have hmax : max (0 : ℚ) (6597069766655999 / 140737488355328) = 6597069766655999 / 140737488355328 := max_eq_right (by norm_num)
  have hmin20 : min (20 : ℚ) 0 = 0 := min_eq_right (by norm_num)
  have hmin30 : min (30 : ℚ) 0 = 0 := min_eq_right (by norm_num)
  refine ⟨?_, ?_, hbase, ?_, ?_⟩
  · rw [hexact, hclusters, hcloud, hlen]
    norm_num
  · rw [round_eq, Int.floor_eq_iff]
    norm_num
  · rw [decentralizationScore64_eq fourOwners hne _ hbase, hclusters, hcloud, hlen]
    simp only [Nat.cast_zero, Nat.cast_ofNat, zero_mul, zero_div, binary64_zero, hmin20, hmin30,
      hx1, hx2, hmax, hx3, hx4, hfloor]
    norm_num
  · rw [hscore]
    norm_num

/-- C8, amended: the decentralization score is `max(0, base - clusterPenalty - cloudPenalty)`
rounded to two decimals, with `base = max(0, 100 - baseIndex / 100)`,
`clusterPenalty = min(20, suspiciousClusterCount * 5)`, `cloudPenalty = min(30, cloudRisk * 0.5)`
and `cloudRisk` the percentage of participants whose hosting type is "Cloud Provider",
"Hosting/Cloud" or "VPS/Hosting", every operation being the binary64 operation and `baseIndex`
the base index as computed. For a snapshot that has a first participant and fewer than `2^32`
participants the reported score is a number within 0.006 of the exact value of the formula
before rounding, so that its second decimal can differ by one from the exact formula's. -/
theorem C8_decentralization_score_formula_in_binary64 (subnet : Subnet) (miners : List Miner)
    (now : Nat) :
    decentralizationScore64 miners =
        JSNum.round2_64
          (JSNum.mathMax 0
            (JSNum.sub64
              (JSNum.sub64
                (JSNum.mathMax 0 (JSNum.sub64 100 (JSNum.div64 (baseHHI64 miners) 100)))
                (JSNum.mathMin 20
                  (JSNum.mul64
                    (JSNum.ofNat (calculateCentralization subnet miners now).ipClusterCount) 5)))
              (JSNum.mathMin 30
                (JSNum.mul64
                  (JSNum.mul64
                    (JSNum.div64
                      (JSNum.ofNat
                        (miners.countP (fun m => hostingKey m = "Cloud Provider") +
                          miners.countP (fun m => hostingKey m = "Hosting/Cloud") +
                          miners.countP (fun m => hostingKey m = "VPS/Hosting")))
                      (JSNum.ofNat miners.length)) 100)
                  (JSNum.fin (1 / 2)))))) ∧
      ∀ (m : Miner) (rest : List Miner), (m :: rest).length < 2 ^ 32 →
        ∃ s : ℚ, decentralizationScore64 (m :: rest) = JSNum.fin s ∧
          |s - max 0
              (max 0 (100 - baseIndex (m :: rest) / 100) -
                min 20 (((ipClusters (m :: rest)).length : ℚ) * 5) -
                min 30 ((cloudCount (m :: rest) : ℚ) / ((m :: rest).length : ℚ) * 100 * (1 / 2)))|
            ≤ 3 / 500 := by
  constructor
  · unfold decentralizationScore64 enhancedDecentralizationScore64
    rw [cloudCentralizationRisk64_eq]
    rfl
  · intro m rest hsize
    exact decentralizationScore64_close (m :: rest) (List.cons_ne_nil m rest) hsize

/-- C9, as stated, fails: the reduction adds the groups in the order in which the owners first
occur, and binary64 addition is not associative. Twenty-four participants of seven owners who
hold 16, 3, 1, 1, 1, 1 and 1 of them give the base index 4687.5 and `hhi` 4688 when the
sixteen come first, and 4687.499999999999 and `hhi` 4687 when the sixteen come last. -/
theorem C9_hhi_depends_on_participant_order :
    largestOwnerFirst.Perm largestOwnerLast ∧
      baseHHI64 largestOwnerFirst = JSNum.fin (9375 / 2) ∧
      hhi64 largestOwnerFirst = JSNum.fin 4688 ∧
      baseHHI64 largestOwnerLast = JSNum.fin (5153960755199999 / 1099511627776) ∧
      hhi64 largestOwnerLast = JSNum.fin 4687 := by
  have hsizes : (coldkeyGroups largestOwnerFirst).map (fun e => e.2.length) =
      [16, 3, 1, 1, 1, 1, 1] := by decide
  have hsizes₂ : (coldkeyGroups largestOwnerLast).map (fun e => e.2.length) =
      [3, 1, 1, 1, 1, 1, 16] := by decide
  have hlen : largestOwnerFirst.length = 24 := by decide
  have hlen₂ : largestOwnerLast.length = 24 := by decide
  have h1 :
      binary64 (16 / 24) =
        6004799503160661 / 9007199254740992 :=
    binary64_eq _ _ (-1) 6004799503160661 (by norm_num) (by norm_num) (by norm_num) (by norm_num)
      (by norm_num)
  have h2 :
      binary64 ((6004799503160661 / 9007199254740992 : ℚ) * 100) =
        2345624805922133 / 35184372088832 :=
    binary64_eq _ _ (6) 4691249611844266 (by norm_num) (by norm_num) (by norm_num) (by norm_num)
      (by norm_num)
  have h3 :
      binary64 ((2345624805922133 / 35184372088832 : ℚ) *
        (2345624805922133 / 35184372088832 : ℚ)) =
        2443359172835555 / 549755813888 :=
    binary64_eq _ _ (12) 4886718345671110 (by norm_num) (by norm_num) (by norm_num) (by norm_num)
      (by norm_num)
  have h4 :
      binary64 (3 / 24) =
        1 / 8 :=
    binary64_eq _ _ (-3) 4503599627370496 (by norm_num) (by norm_num) (by norm_num) (by norm_num)
      (by norm_num)
  have h5 :
      binary64 ((1 / 8 : ℚ) * 100) =
        25 / 2 :=
    binary64_eq _ _ (3) 7036874417766400 (by norm_num) (by norm_num) (by norm_num) (by norm_num)
      (by norm_num)
  have h6 :
      binary64 ((25 / 2 : ℚ) *
        (25 / 2 : ℚ)) =
        625 / 4 :=
    binary64_eq _ _ (7) 5497558138880000 (by norm_num) (by norm_num) (by norm_num) (by norm_num)
      (by norm_num)
  have h7 :
      binary64 (1 / 24) =
        6004799503160661 / 144115188075855872 :=
    binary64_eq _ _ (-5) 6004799503160661 (by norm_num) (by norm_num) (by norm_num) (by norm_num)
      (by norm_num)
  have h8 :
      binary64 ((6004799503160661 / 144115188075855872 : ℚ) * 100) =
        2345624805922133 / 562949953421312 :=
    binary64_eq _ _ (2) 4691249611844266 (by norm_num) (by norm_num) (by norm_num) (by norm_num)
      (by norm_num)
  have h9 :
      binary64 ((2345624805922133 / 562949953421312 : ℚ) *
        (2345624805922133 / 562949953421312 : ℚ)) =
        2443359172835555 / 140737488355328 :=
    binary64_eq _ _ (4) 4886718345671110 (by norm_num) (by norm_num) (by norm_num) (by norm_num)
      (by norm_num)
  have h10 :
      binary64 (0 +
        (2443359172835555 / 549755813888 : ℚ)) =
        2443359172835555 / 549755813888 :=
    binary64_eq _ _ (12) 4886718345671110 (by norm_num) (by norm_num) (by norm_num) (by norm_num)
      (by norm_num)
  have h11 :
      binary64 ((2443359172835555 / 549755813888 : ℚ) +
        (625 / 4 : ℚ)) =
        2529258518755555 / 549755813888 :=
    binary64_eq _ _ (12) 5058517037511110 (by norm_num) (by norm_num) (by norm_num) (by norm_num)
      (by norm_num)
  have h12 :
      binary64 ((2529258518755555 / 549755813888 : ℚ) +
        (2443359172835555 / 140737488355328 : ℚ)) =
        634700722631111 / 137438953472 :=
    binary64_eq _ _ (12) 5077605781048888 (by norm_num) (by norm_num) (by norm_num) (by norm_num)
      (by norm_num)
  have h13 :
      binary64 ((634700722631111 / 137438953472 : ℚ) +
        (2443359172835555 / 140737488355328 : ℚ)) =
        2548347262293333 / 549755813888 :=
    binary64_eq _ _ (12) 5096694524586666 (by norm_num) (by norm_num) (by norm_num) (by norm_num)
      (by norm_num)
  have h14 :
      binary64 ((2548347262293333 / 549755813888 : ℚ) +
        (2443359172835555 / 140737488355328 : ℚ)) =
        1278945817031111 / 274877906944 :=
    binary64_eq _ _ (12) 5115783268124444 (by norm_num) (by norm_num) (by norm_num) (by norm_num)
      (by norm_num)
  have h15 :
      binary64 ((1278945817031111 / 274877906944 : ℚ) +
        (2443359172835555 / 140737488355328 : ℚ)) =
        2567436005831111 / 549755813888 :=
    binary64_eq _ _ (12) 5134872011662222 (by norm_num) (by norm_num) (by norm_num) (by norm_num)
      (by norm_num)
  have h16 :
      binary64 ((2567436005831111 / 549755813888 : ℚ) +
        (2443359172835555 / 140737488355328 : ℚ)) =
        9375 / 2 :=
    binary64_eq _ _ (12) 5153960755200000 (by norm_num) (by norm_num) (by norm_num) (by norm_num)
      (by norm_num)
  have h17 :
      binary64 (0 +
        (625 / 4 : ℚ)) =
        625 / 4 :=
    binary64_eq _ _ (7) 5497558138880000 (by norm_num) (by norm_num) (by norm_num) (by norm_num)
      (by norm_num)
  have h18 :
      binary64 ((625 / 4 : ℚ) +
        (2443359172835555 / 140737488355328 : ℚ)) =
        6108397932088889 / 35184372088832 :=
    binary64_eq _ _ (7) 6108397932088889 (by norm_num) (by norm_num) (by norm_num) (by norm_num)
      (by norm_num)
  have h19 :
      binary64 ((6108397932088889 / 35184372088832 : ℚ) +
        (2443359172835555 / 140737488355328 : ℚ)) =
        3359618862648889 / 17592186044416 :=
    binary64_eq _ _ (7) 6719237725297778 (by norm_num) (by norm_num) (by norm_num) (by norm_num)
      (by norm_num)
  have h20 :
      binary64 ((3359618862648889 / 17592186044416 : ℚ) +
        (2443359172835555 / 140737488355328 : ℚ)) =
        7330077518506667 / 35184372088832 :=
    binary64_eq _ _ (7) 7330077518506667 (by norm_num) (by norm_num) (by norm_num) (by norm_num)
      (by norm_num)
  have h21 :
      binary64 ((7330077518506667 / 35184372088832 : ℚ) +
        (2443359172835555 / 140737488355328 : ℚ)) =
        1985229327928889 / 8796093022208 :=
    binary64_eq _ _ (7) 7940917311715556 (by norm_num) (by norm_num) (by norm_num) (by norm_num)
      (by norm_num)
  have h22 :
      binary64 ((1985229327928889 / 8796093022208 : ℚ) +
        (2443359172835555 / 140737488355328 : ℚ)) =
        8551757104924445 / 35184372088832 :=
    binary64_eq _ _ (7) 8551757104924445 (by norm_num) (by norm_num) (by norm_num) (by norm_num)
      (by norm_num)
  have h23 :
      binary64 ((8551757104924445 / 35184372088832 : ℚ) +
        (2443359172835555 / 549755813888 : ℚ)) =
        5153960755199999 / 1099511627776 :=
    binary64_eq _ _ (12) 5153960755199999 (by norm_num) (by norm_num) (by norm_num) (by norm_num)
      (by norm_num)
  have t16 : shareSq64 24 16 = JSNum.fin (2443359172835555 / 549755813888 : ℚ) := by
    rw [shareSq64_eq 24 16 (by decide)]
    push_cast
    rw [h1, h2, h3]
  have t3 : shareSq64 24 3 = JSNum.fin (625 / 4 : ℚ) := by
    rw [shareSq64_eq 24 3 (by decide)]
    push_cast
    rw [h4, h5, h6]
  have t1 : shareSq64 24 1 = JSNum.fin (2443359172835555 / 140737488355328 : ℚ) := by
    rw [shareSq64_eq 24 1 (by decide)]
    push_cast
    rw [h7, h8, h9]
  have hbase : baseHHI64 largestOwnerFirst = JSNum.fin (9375 / 2) := by
    rw [baseHHI64_sizes, hsizes, hlen]
    simp only [List.foldl]
    rw [t16, t3, t1, JSNum.add64_fin, h10, JSNum.add64_fin, h11, JSNum.add64_fin, h12, JSNum.add64_fin, h13, JSNum.add64_fin, h14, JSNum.add64_fin, h15, JSNum.add64_fin, h16]
  have hbase₂ : baseHHI64 largestOwnerLast = JSNum.fin (5153960755199999 / 1099511627776) := by
    rw [baseHHI64_sizes, hsizes₂, hlen₂]
    simp only [List.foldl]
    rw [t16, t3, t1, JSNum.add64_fin, h17, JSNum.add64_fin, h18, JSNum.add64_fin, h19, JSNum.add64_fin, h20, JSNum.add64_fin, h21, JSNum.add64_fin, h22, JSNum.add64_fin, h23]
  refine ⟨List.perm_append_comm, hbase, ?_, hbase₂, ?_⟩
  · unfold hhi64
    rw [hbase, mathRound_fin]
    have hfloor : ⌊(9375 / 2 : ℚ) + 1 / 2⌋ = 4688 := by
      rw [Int.floor_eq_iff]
      norm_num
    rw [hfloor]
    norm_num
  · unfold hhi64
    rw [hbase₂, mathRound_fin]
    have hfloor : ⌊(5153960755199999 / 1099511627776 : ℚ) + 1 / 2⌋ = 4687 := by
      rw [Int.floor_eq_iff]
      norm_num
    rw [hfloor]
    norm_num

/-- C9, amended: `uniqueOwners` does not change when the participant list is permuted, each
ownership group consists of exactly the participants whose owner key is the same string as the
key of the group, and the exact sum of the squared percentage shares does not change. The
base index and the reported `hhi` are invariant up to binary64 rounding only: for fewer than
`2^32` participants the computed base indices of the two orders differ by at most 0.02 and the
two values of `hhi` by at most 1. -/
theorem C9_owner_count_invariant_index_up_to_rounding (subnet : Subnet)
    (miners miners₂ : List Miner) (now : Nat) (hperm : miners.Perm miners₂)
    (hsize : miners.length < 2 ^ 32) :
    (calculateCentralization subnet miners now).uniqueOwners =
        (calculateCentralization subnet miners₂ now).uniqueOwners ∧
      (∀ e ∈ coldkeyGroups miners, e.2 = miners.filter (fun m => ownerKey m = e.1)) ∧
      baseIndex miners = baseIndex miners₂ ∧
      ∃ b b₂ : ℚ, baseHHI64 miners = JSNum.fin b ∧ baseHHI64 miners₂ = JSNum.fin b₂ ∧
        |b - b₂| ≤ 1 / 50 ∧
        hhi64 miners = JSNum.fin ((round b : ℤ) : ℚ) ∧
        hhi64 miners₂ = JSNum.fin ((round b₂ : ℤ) : ℚ) ∧
        |round b - round b₂| ≤ 1 := by
  have hindex : baseIndex miners = baseIndex miners₂ := baseIndex_perm miners miners₂ hperm
  have hsize₂ : miners₂.length < 2 ^ 32 := by
    rw [← hperm.length_eq]
    exact hsize
  obtain ⟨b, hb, hnear⟩ := baseHHI64_abs_sub_le miners hsize
  obtain ⟨b₂, hb₂, hnear₂⟩ := baseHHI64_abs_sub_le miners₂ hsize₂
  rw [← hindex] at hnear₂
  have hclose : |b - b₂| ≤ 1 / 50 := by
    have h1 := abs_le.mp hnear
    have h2 := abs_le.mp hnear₂
    rw [abs_le]
    constructor <;> linarith [h1.1, h1.2, h2.1, h2.2]
  refine ⟨?_, mem_coldkeyGroups miners, hindex, b, b₂, hb, hb₂, hclose, ?_, ?_, ?_⟩
  · show (coldkeyGroups miners).length = (coldkeyGroups miners₂).length
    rw [coldkeyGroups_eq, coldkeyGroups_eq, groupBy_length, groupBy_length,
      List.toFinset_eq_of_perm _ _ (hperm.map ownerKey)]
  · unfold hhi64
    rw [hb, mathRound_fin, round_eq]
  · unfold hhi64
    rw [hb₂, mathRound_fin, round_eq]
  · exact abs_round_sub_round_le _ _ (hclose.trans (by norm_num))

/-- Witness of the amended C9: the twenty-four participants of seven owners, the sixteen of the
largest owner first and last. -/
theorem C9_two_orders_witness :
    largestOwnerFirst.Perm largestOwnerLast ∧ largestOwnerFirst.length < 2 ^ 32 ∧
      ((calculateCentralization sampleSubnet largestOwnerFirst 0).uniqueOwners =
          (calculateCentralization sampleSubnet largestOwnerLast 0).uniqueOwners ∧
        (∀ e ∈ coldkeyGroups largestOwnerFirst,
          e.2 = largestOwnerFirst.filter (fun m => ownerKey m = e.1)) ∧
        baseIndex largestOwnerFirst = baseIndex largestOwnerLast ∧
        ∃ b b₂ : ℚ, baseHHI64 largestOwnerFirst = JSNum.fin b ∧
          baseHHI64 largestOwnerLast = JSNum.fin b₂ ∧
          |b - b₂| ≤ 1 / 50 ∧
          hhi64 largestOwnerFirst = JSNum.fin ((round b : ℤ) : ℚ) ∧
          hhi64 largestOwnerLast = JSNum.fin ((round b₂ : ℤ) : ℚ) ∧
          |round b - round b₂| ≤ 1) :=
  ⟨List.perm_append_comm, by decide,
    C9_owner_count_invariant_index_up_to_rounding sampleSubnet largestOwnerFirst
      largestOwnerLast 0 List.perm_append_comm (by decide)⟩

/-- C10, as stated, fails: two calls on the same snapshot at different instants return
reports that differ in `lastAnalyzed`. -/
theorem C10_reports_differ_in_lastAnalyzed :
    calculateCentralization sampleSubnet [] 0 ≠ calculateCentralization sampleSubnet [] 1 := by
  intro h
  have := congrArg Report.lastAnalyzed h
  simp [calculateCentralization] at this

/-- C10, amended: the report is deterministic except for `lastAnalyzed`, which is the instant
of the call. Two calls on the same participant list agree in every other field, whatever the
subnet object and the instants, and return identical reports exactly when they are made at the
same instant. Identical reports are what the analyze endpoint gives: when a first request at
`t₁` computes the report of the cached snapshot, a second request at an instant `t₂` not later
than 300 seconds after `t₁` is answered with the same report, `lastAnalyzed` being `t₁` in
both. -/
theorem C10_reports_agree_except_lastAnalyzed (SUBNET_ID : String) (cache : Cache)
    (param : Option String) (data : SubnetData) (t₁ t₂ : Nat)
    (hreport : cache.get ("analysis_" ++ orDefault param SUBNET_ID) t₁ = none)
    (hsnapshot : cache.get ("subnet_" ++ orDefault param SUBNET_ID) t₁ =
      some (CacheValue.subnetData data))
    (hcached : t₂ ≤ t₁ + stdTTL) :
    (∀ (subnet₂ : Subnet) (now₂ : Nat),
        { calculateCentralization data.subnet data.miners t₁ with lastAnalyzed := 0 } =
            { calculateCentralization subnet₂ data.miners now₂ with lastAnalyzed := 0 } ∧
          (calculateCentralization subnet₂ data.miners now₂).lastAnalyzed = now₂ ∧
          (calculateCentralization subnet₂ data.miners now₂ =
              calculateCentralization data.subnet data.miners t₁ ↔ now₂ = t₁)) ∧
      (analyzeEndpoint SUBNET_ID cache param t₁).1 =
        { status := 200
          body := Body.data
            (CacheValue.analysis (calculateCentralization data.subnet data.miners t₁)) } ∧
      (analyzeEndpoint SUBNET_ID (analyzeEndpoint SUBNET_ID cache param t₁).2 param t₂).1 =
        { status := 200
          body := Body.data
            (CacheValue.analysis (calculateCentralization data.subnet data.miners t₁)) } := by
  have hfirst : analyzeEndpoint SUBNET_ID cache param t₁ =
      ({ status := 200
         body := Body.data
           (CacheValue.analysis (calculateCentralization data.subnet data.miners t₁)) },
        cache.set ("analysis_" ++ orDefault param SUBNET_ID)
          (CacheValue.analysis (calculateCentralization data.subnet data.miners t₁)) t₁) := by
    unfold analyzeEndpoint
    simp only [hreport, hsnapshot]
  refine ⟨?_, ?_, ?_⟩
  · intro subnet₂ now₂
    refine ⟨rfl, rfl, ?_⟩
    constructor
    · intro h
      exact congrArg Report.lastAnalyzed h
    · intro h
      rw [h]
      rfl
  · rw [hfirst]
  · rw [hfirst]
    have hget : (cache.set ("analysis_" ++ orDefault param SUBNET_ID)
        (CacheValue.analysis (calculateCentralization data.subnet data.miners t₁)) t₁).get
          ("analysis_" ++ orDefault param SUBNET_ID) t₂ =
        some (CacheValue.analysis (calculateCentralization data.subnet data.miners t₁)) := by
      simp only [Cache.get, Cache.set, if_true, if_neg (not_lt.mpr hcached)]
    unfold analyzeEndpoint
    simp only [hget]

/-- Witness of the amended C10: the snapshot of ten participants is cached at instant 0, the
first request comes at 100 seconds and the second at 200 seconds. -/
theorem C10_repeated_request_witness :
    (Cache.empty.set "subnet_8"
          (CacheValue.subnetData
            { subnet := sampleSubnet, miners := tenMiners, lastUpdated := 0 }) 0).get
        ("analysis_" ++ orDefault (some "8") "8") 100000 = none ∧
      (Cache.empty.set "subnet_8"
          (CacheValue.subnetData
            { subnet := sampleSubnet, miners := tenMiners, lastUpdated := 0 }) 0).get
        ("subnet_" ++ orDefault (some "8") "8") 100000 =
          some (CacheValue.subnetData
            { subnet := sampleSubnet, miners := tenMiners, lastUpdated := 0 }) ∧
      (200000 : Nat) ≤ 100000 + stdTTL ∧
      (analyzeEndpoint "8"
          (analyzeEndpoint "8"
            (Cache.empty.set "subnet_8"
              (CacheValue.subnetData
                { subnet := sampleSubnet, miners := tenMiners, lastUpdated := 0 }) 0)
            (some "8") 100000).2 (some "8") 200000).1 =
        { status := 200
          body := Body.data
            (CacheValue.analysis (calculateCentralization sampleSubnet tenMiners 100000)) } :=
  ⟨rfl, rfl, by decide,
    (C10_reports_agree_except_lastAnalyzed "8"
      (Cache.empty.set "subnet_8"
        (CacheValue.subnetData
          { subnet := sampleSubnet, miners := tenMiners, lastUpdated := 0 }) 0)
      (some "8") { subnet := sampleSubnet, miners := tenMiners, lastUpdated := 0 }
      100000 200000 rfl rfl (by decide)).2.2⟩

/-- C11: in a snapshot whose participants have pairwise distinct uids, every entry of
`ipClusters` with count `k` lists exactly `k` uids, all distinct, and every participant whose
uid is listed has the address of the entry as its own address string. -/
theorem C11_cluster_lists_its_members (subnet : Subnet) (miners : List Miner) (now : Nat)
    (huid : (miners.map (·.uid)).Nodup) :
    ∀ c ∈ (calculateCentralization subnet miners now).ipClusters,
      c.uids.length = c.count ∧ c.uids.Nodup ∧
        ∀ m ∈ miners, m.uid ∈ c.uids → m.ip = some c.ip := by
  intro c hc
  obtain ⟨e, he, _, rfl⟩ := (mem_ipClusters miners c).mp hc
  obtain ⟨_, _, hg, _⟩ := (mem_ipGroups miners e).mp he
  have hsub : (e.2.map (·.uid)).Sublist (miners.map (·.uid)) := by
    rw [hg]
    exact List.Sublist.map _ (List.filter_sublist _)
  refine ⟨by simp [ipClusterOf], hsub.nodup huid, ?_⟩
  intro m hm hmem
  simp only [ipClusterOf, List.mem_map] at hmem
  obtain ⟨m₂, hm₂, huid₂⟩ := hmem
  rw [hg] at hm₂
  simp only [List.mem_filter, decide_eq_true_eq] at hm₂
  have : m₂ = m := List.inj_on_of_nodup_map huid hm₂.1 hm huid₂
  rw [← this]
  exact hm₂.2

/-- Witness of C11: ten participants with the uids 0 to 9. -/
theorem C11_cluster_members_witness :
    (tenMiners.map (·.uid)).Nodup ∧
      ∀ c ∈ (calculateCentralization sampleSubnet tenMiners 0).ipClusters,
        c.uids.length = c.count ∧ c.uids.Nodup ∧
          ∀ m ∈ tenMiners, m.uid ∈ c.uids → m.ip = some c.ip :=
  ⟨by decide, C11_cluster_lists_its_members sampleSubnet tenMiners 0 (by decide)⟩

/-- C12: `ipClusters` has exactly one entry for each address, other than an absent one or
"N/A", that two or more participants hold, and none for any other address; the count of an
entry is the number of participants holding its address, and `ipClusterCount` is the number
of such addresses. In the scenario of ten participants of which exactly two share "1.2.3.4"
there is one cluster, of size 2. -/
theorem C12_clusters_are_the_shared_addresses (subnet : Subnet) (miners : List Miner)
    (now : Nat) :
    ((calculateCentralization subnet miners now).ipClusters.map (·.ip)).Nodup ∧
      (∀ a : String, a ∈ (calculateCentralization subnet miners now).ipClusters.map (·.ip) ↔
        a ≠ "" ∧ a ≠ "N/A" ∧ 2 ≤ (miners.filter (fun m => m.ip = some a)).length) ∧
      (∀ c ∈ (calculateCentralization subnet miners now).ipClusters,
        c.count = (miners.filter (fun m => m.ip = some c.ip)).length) ∧
      (calculateCentralization subnet miners now).ipClusterCount =
        ((miners.filterMap Miner.ip).toFinset.filter (fun a =>
          a ≠ "" ∧ a ≠ "N/A" ∧ 2 ≤ (miners.filter (fun m => m.ip = some a)).length)).card ∧
      (calculateCentralization subnet tenMiners now).ipClusters.map (fun c => (c.ip, c.count)) =
        [("1.2.3.4", 2)] ∧
      (calculateCentralization subnet tenMiners now).ipClusterCount = 1 := by
  have hmem : ∀ a : String, a ∈ (ipClusters miners).map (·.ip) ↔
      a ≠ "" ∧ a ≠ "N/A" ∧ 2 ≤ (miners.filter (fun m => m.ip = some a)).length := by
    intro a
    simp only [List.mem_map]
    constructor
    · rintro ⟨c, hc, rfl⟩
      obtain ⟨e, he, hl, rfl⟩ := (mem_ipClusters miners c).mp hc
      obtain ⟨h1, h2, hg, _⟩ := (mem_ipGroups miners e).mp he
      refine ⟨h1, h2, ?_⟩
      show 2 ≤ (miners.filter (fun m => m.ip = some e.1)).length
      rw [← hg]
      exact hl
    · rintro ⟨h1, h2, hl⟩
      refine ⟨ipClusterOf (a, miners.filter (fun m => m.ip = some a)), ?_, rfl⟩
      rw [mem_ipClusters]
      refine ⟨(a, miners.filter (fun m => m.ip = some a)), ?_, hl, rfl⟩
      rw [mem_ipGroups]
      refine ⟨h1, h2, rfl, ?_⟩
      intro hnil
      simp only at hnil
      rw [hnil] at hl
      simp at hl
  have hten : (ipClusters tenMiners).map (fun c => (c.ip, c.count)) = [("1.2.3.4", 2)] := by
    decide
  have hten₂ : (ipClusters tenMiners).length = 1 := by decide
  refine ⟨ipClusters_ip_nodup miners, hmem, ?_, ?_, hten, hten₂⟩
  · intro c hc
    obtain ⟨e, he, _, rfl⟩ := (mem_ipClusters miners c).mp hc
    obtain ⟨_, _, hg, _⟩ := (mem_ipGroups miners e).mp he
    show e.2.length = (miners.filter (fun m => m.ip = some e.1)).length
    rw [← hg]
  · show (ipClusters miners).length = _
    rw [← List.length_map (ipClusters miners) (·.ip),
      ← List.toFinset_card_of_nodup (ipClusters_ip_nodup miners)]
    congr 1
    ext a
    simp only [List.mem_toFinset, Finset.mem_filter, List.mem_filterMap]
    rw [hmem a]
    constructor
    · rintro ⟨h1, h2, hl⟩
      refine ⟨?_, h1, h2, hl⟩
      have : miners.filter (fun m => m.ip = some a) ≠ [] := by
        intro hnil
        rw [hnil] at hl
        simp at hl
      obtain ⟨m, hm⟩ := List.exists_mem_of_ne_nil _ this
      simp only [List.mem_filter, decide_eq_true_eq] at hm
      exact ⟨m, hm.1, hm.2⟩
    · rintro ⟨_, h⟩
      exact h

/-- C13: the entries of `ipClusters` are in non-increasing order of count, and the uid list
of each entry keeps the order in which the participants appear in the snapshot. -/
theorem C13_clusters_sorted_and_uids_in_order (subnet : Subnet) (miners : List Miner)
    (now : Nat) :
    (calculateCentralization subnet miners now).ipClusters.Pairwise
        (fun a b => b.count ≤ a.count) ∧
      ∀ c ∈ (calculateCentralization subnet miners now).ipClusters,
        c.uids.Sublist (miners.map (·.uid)) := by
  refine ⟨sortByCountDesc_sorted _ _, ?_⟩
  intro c hc
  obtain ⟨e, he, _, rfl⟩ := (mem_ipClusters miners c).mp hc
  obtain ⟨_, _, hg, _⟩ := (mem_ipGroups miners e).mp he
  show (e.2.map (·.uid)).Sublist (miners.map (·.uid))
  rw [hg]
  exact List.Sublist.map _ (List.filter_sublist _)

/-- C14: `validatorsWithoutAxons` counts exactly the participants that have no address (the
address is absent, empty or "N/A") and are validator-eligible, `potentiallyInactiveMiners`
counts exactly those that have no address and are not validator-eligible, and a participant
`v` with no address and a validator permit, placed anywhere in a snapshot, adds one to the
first number and nothing to the second. -/
theorem C14_no_address_validators_counted_apart (subnet : Subnet) (pre post : List Miner)
    (v : Miner) (now : Nat)
    (hno : v.ip = none ∨ v.ip = some "" ∨ v.ip = some "N/A")
    (hval : v.validator_permit = true) :
    (∀ miners : List Miner,
        (calculateCentralization subnet miners now).validatorsWithoutAxons =
            miners.countP (fun m =>
              (m.ip = none ∨ m.ip = some "" ∨ m.ip = some "N/A") ∧ m.validator_permit = true) ∧
          (calculateCentralization subnet miners now).potentiallyInactiveMiners =
            miners.countP (fun m =>
              (m.ip = none ∨ m.ip = some "" ∨ m.ip = some "N/A") ∧
                m.validator_permit = false)) ∧
      (calculateCentralization subnet (pre ++ v :: post) now).validatorsWithoutAxons =
        (calculateCentralization subnet (pre ++ post) now).validatorsWithoutAxons + 1 ∧
      (calculateCentralization subnet (pre ++ v :: post) now).potentiallyInactiveMiners =
        (calculateCentralization subnet (pre ++ post) now).potentiallyInactiveMiners := by
  have hl : lacksIP v = true := (lacksIP_iff v).mpr hno
  refine ⟨?_, ?_, ?_⟩
  · intro miners
    constructor
    · show validatorsWithoutAxons miners = _
      unfold validatorsWithoutAxons
      rw [← List.countP_eq_length_filter]
      apply List.countP_congr
      intro m _
      simp [lacksIP_iff]
    · show nonValidatorsWithoutAxons miners = _
      unfold nonValidatorsWithoutAxons
      rw [← List.countP_eq_length_filter]
      apply List.countP_congr
      intro m _
      simp [lacksIP_iff]
  · show validatorsWithoutAxons (pre ++ v :: post) = validatorsWithoutAxons (pre ++ post) + 1
    unfold validatorsWithoutAxons
    simp [List.filter_append, List.filter_cons, hl, hval]
    omega
  · show nonValidatorsWithoutAxons (pre ++ v :: post) = nonValidatorsWithoutAxons (pre ++ post)
    unfold nonValidatorsWithoutAxons
    simp [List.filter_append, List.filter_cons, hl, hval]

/-- Witness of C14: a validator without axon record placed between two other participants. -/
theorem C14_no_address_validator_witness :
    (sampleValidator.ip = none ∨ sampleValidator.ip = some "" ∨
        sampleValidator.ip = some "N/A") ∧
      sampleValidator.validator_permit = true ∧
      ((∀ miners : List Miner,
          (calculateCentralization sampleSubnet miners 0).validatorsWithoutAxons =
              miners.countP (fun m =>
                (m.ip = none ∨ m.ip = some "" ∨ m.ip = some "N/A") ∧
                  m.validator_permit = true) ∧
            (calculateCentralization sampleSubnet miners 0).potentiallyInactiveMiners =
              miners.countP (fun m =>
                (m.ip = none ∨ m.ip = some "" ∨ m.ip = some "N/A") ∧
                  m.validator_permit = false)) ∧
        (calculateCentralization sampleSubnet
            ([sampleMiner 1 (some "5Fa") (some "1.2.3.4")] ++
              sampleValidator :: [sampleMiner 2 (some "5Fb") none]) 0).validatorsWithoutAxons =
          (calculateCentralization sampleSubnet
            ([sampleMiner 1 (some "5Fa") (some "1.2.3.4")] ++
              [sampleMiner 2 (some "5Fb") none]) 0).validatorsWithoutAxons + 1 ∧
        (calculateCentralization sampleSubnet
            ([sampleMiner 1 (some "5Fa") (some "1.2.3.4")] ++
              sampleValidator :: [sampleMiner 2 (some "5Fb") none])
              0).potentiallyInactiveMiners =
          (calculateCentralization sampleSubnet
            ([sampleMiner 1 (some "5Fa") (some "1.2.3.4")] ++
              [sampleMiner 2 (some "5Fb") none]) 0).potentiallyInactiveMiners) :=
  ⟨Or.inl rfl, rfl,
    C14_no_address_validators_counted_apart sampleSubnet _ _ _ 0 (Or.inl rfl) rfl⟩

/-- C15: `classifyHostingType` returns "Hosting/Cloud" whenever the hosting flag is set, and
otherwise "Cloud Provider" whenever one of the three lower-cased strings contains a name of
the cloud-vendor list; the result is fixed by that alone, whatever else the strings match. -/
theorem C15_flag_and_cloud_vendor_win (toLowerCase : String → String)
    (isp org asn : Option String) (isHosting : Bool)
    (h : isHosting = true ∨ ∃ p ∈ cloudProviders,
      p.toList <:+: (toLowerCase (orDefault isp "")).toList ∨
        p.toList <:+: (toLowerCase (orDefault org "")).toList ∨
        p.toList <:+: (toLowerCase (orDefault asn "")).toList) :
    classifyHostingType toLowerCase isp org asn isHosting =
      if isHosting = true then "Hosting/Cloud" else "Cloud Provider" := by
  unfold classifyHostingType
  by_cases hf : isHosting = true
  · simp [hf]
  · rcases h with h | ⟨p, hp, hm⟩
    · exact absurd h hf
    · have hany : cloudProviders.any (fun provider =>
          includes (toLowerCase (orDefault isp "")) provider ||
            includes (toLowerCase (orDefault org "")) provider ||
            includes (toLowerCase (orDefault asn "")) provider) = true := by
        rw [List.any_eq_true]
        refine ⟨p, hp, ?_⟩
        simp only [Bool.or_eq_true, includes_iff]
        tauto
      simp only [hf, hany, if_true, if_false]

/-- Witness of C15: an unflagged address of a cloud vendor whose organization name also holds
the VPS name "contabo" and the generic token "hosting". -/
theorem C15_cloud_vendor_witness :
    (false = true ∨ ∃ p ∈ cloudProviders,
        p.toList <:+: (asciiLower (orDefault (some "Amazon.com, Inc.") "")).toList ∨
          p.toList <:+: (asciiLower (orDefault (some "Contabo Hosting") "")).toList ∨
          p.toList <:+: (asciiLower (orDefault (some "AS16509 Amazon.com, Inc.") "")).toList) ∧
      classifyHostingType asciiLower (some "Amazon.com, Inc.") (some "Contabo Hosting")
          (some "AS16509 Amazon.com, Inc.") false =
        if false = true then "Hosting/Cloud" else "Cloud Provider" :=
  ⟨Or.inr ⟨"amazon", by decide, Or.inl (by decide)⟩,
    C15_flag_and_cloud_vendor_win asciiLower _ _ _ false
      (Or.inr ⟨"amazon", by decide, Or.inl (by decide)⟩)⟩

/-- C16, as stated, fails: an unflagged input whose AS description alone holds the VPS vendor
name "contabo", with no cloud vendor name anywhere, is classified "Unknown" by the code, while
the precedence list evaluated on all three strings gives "VPS/Hosting". -/
theorem C16_vps_name_in_as_description_only :
    classifyHostingType asciiLower (some "Example Net") (some "Example Net")
        (some "AS51167 Contabo GmbH") false = "Unknown" ∧
      classifyOnAllThree asciiLower (some "Example Net") (some "Example Net")
        (some "AS51167 Contabo GmbH") false = "VPS/Hosting" ∧
      classifyHostingType asciiLower (some "Example Net") (some "Example Net")
          (some "AS51167 Contabo GmbH") false ≠
        classifyOnAllThree asciiLower (some "Example Net") (some "Example Net")
          (some "AS51167 Contabo GmbH") false := by
  decide

/-- C16, amended: `classifyHostingType` is the seven-step precedence list in which the cloud
vendors are looked for in the lower-cased ISP name, organization name and AS description,
the VPS vendors and the residential ISPs in the ISP and organization names only, and the
generic tokens in the ISP name only. -/
theorem C16_precedence_list_with_its_operands (toLowerCase : String → String)
    (isp org asn : Option String) (isHosting : Bool) :
    classifyHostingType toLowerCase isp org asn isHosting =
      if isHosting = true then "Hosting/Cloud"
      else if ∃ p ∈ cloudProviders,
          p.toList <:+: (toLowerCase (orDefault isp "")).toList ∨
            p.toList <:+: (toLowerCase (orDefault org "")).toList ∨
            p.toList <:+: (toLowerCase (orDefault asn "")).toList
        then "Cloud Provider"
      else if ∃ p ∈ vpsProviders,
          p.toList <:+: (toLowerCase (orDefault isp "")).toList ∨
            p.toList <:+: (toLowerCase (orDefault org "")).toList
        then "VPS/Hosting"
      else if ∃ p ∈ residentialISPs,
          p.toList <:+: (toLowerCase (orDefault isp "")).toList ∨
            p.toList <:+: (toLowerCase (orDefault org "")).toList
        then "Residential"
      else if ∃ p ∈ ["datacenter", "server", "hosting"],
          p.toList <:+: (toLowerCase (orDefault isp "")).toList
        then "Hosting/Datacenter"
      else if ∃ p ∈ ["cable", "fiber", "broadband"],
          p.toList <:+: (toLowerCase (orDefault isp "")).toList
        then "Residential"
      else "Unknown" := by
  unfold classifyHostingType
  simp only [List.any_eq_true, Bool.or_eq_true, includes_iff, List.mem_cons,
    List.mem_singleton, exists_eq_or_imp, exists_eq_left, List.not_mem_nil, false_and,
    exists_false, or_false, or_assoc]

/-- C17, as stated, fails: two participants in the same autonomous system whose AS strings
differ after the identifier give two entries with the same `asn` identifier, each with
count 1. -/
theorem C17_same_identifier_in_two_entries :
    (calculateCentralization sampleSubnet
        [sampleMinerWithAsn 1 "AS64500 Example Net", sampleMinerWithAsn 2 "AS64500 EXAMPLE-NET"]
        0).asnConcentration.map (fun e => (e.asn, e.count)) =
        [("AS64500", 1), ("AS64500", 1)] ∧
      ¬ ((calculateCentralization sampleSubnet
        [sampleMinerWithAsn 1 "AS64500 Example Net", sampleMinerWithAsn 2 "AS64500 EXAMPLE-NET"]
        0).asnConcentration.map (·.asn)).Nodup := by
  have h : (asnConcentration
      [sampleMinerWithAsn 1 "AS64500 Example Net",
        sampleMinerWithAsn 2 "AS64500 EXAMPLE-NET"]).map (fun e => (e.asn, e.count)) =
      [("AS64500", 1), ("AS64500", 1)] := by
    decide
  refine ⟨h, ?_⟩
  have h₂ : (asnConcentration
      [sampleMinerWithAsn 1 "AS64500 Example Net",
        sampleMinerWithAsn 2 "AS64500 EXAMPLE-NET"]).map (·.asn) = ["AS64500", "AS64500"] := by
    have := congrArg (List.map Prod.fst) h
    simpa [List.map_map] using this
  show ¬ ((asnConcentration _).map (·.asn)).Nodup
  rw [h₂]
  decide

/-- C17, amended: `asnConcentration` is derived from the partition of the participants with
a known AS value by their whole AS string. There is a duplicate-free list `keys` of AS
strings, each known and held by a participant, such that the entries are, in order, those of
`keys`: the `asn` field is the part of the string before its first space and the count is
the number of participants with exactly that string. The list has at most 10 entries in
non-increasing count order, and a known AS string left out has no larger count than any entry
kept. -/
theorem C17_asn_entries_keyed_by_whole_string (subnet : Subnet) (miners : List Miner)
    (now : Nat) :
    ∃ keys : List String, keys.Nodup ∧
      (∀ s ∈ keys, s ≠ "" ∧ s ≠ "Unknown" ∧ ∃ m ∈ miners, m.asn = some s) ∧
      (calculateCentralization subnet miners now).asnConcentration.map
          (fun e => (e.asn, e.count)) =
        keys.map (fun s => (asnNumber s, (miners.filter (fun m => m.asn = some s)).length)) ∧
      (calculateCentralization subnet miners now).asnConcentration.length ≤ 10 ∧
      (calculateCentralization subnet miners now).asnConcentration.Pairwise
        (fun a b => b.count ≤ a.count) ∧
      ∀ s : String, s ≠ "" → s ≠ "Unknown" → (∃ m ∈ miners, m.asn = some s) → s ∉ keys →
        ∀ e ∈ (calculateCentralization subnet miners now).asnConcentration,
          (miners.filter (fun m => m.asn = some s)).length ≤ e.count := by
  obtain ⟨S, hSdef⟩ : ∃ S, S = sortByCountDesc (fun e : String × List Miner => e.2.length)
      (asnGroups miners) := ⟨_, rfl⟩
  have hS : S.Perm (asnGroups miners) := hSdef ▸ sortByCountDesc_perm _ _
  have hsorted : S.Pairwise (fun a b => b.2.length ≤ a.2.length) :=
    hSdef ▸ sortByCountDesc_sorted (fun e : String × List Miner => e.2.length) _
  have hrep : (calculateCentralization subnet miners now).asnConcentration =
      (S.take 10).map (asnEntryOf miners.length) := by
    show asnConcentration miners = _
    rw [asnConcentration_eq, hSdef]
  have hgroup : ∀ e ∈ S.take 10, e.1 ≠ "" ∧ e.1 ≠ "Unknown" ∧
      e.2 = miners.filter (fun m => m.asn = some e.1) ∧ e.2 ≠ [] := fun e he =>
    (mem_asnGroups miners e).mp (hS.mem_iff.mp (List.mem_of_mem_take he))
  have hnd : (S.map Prod.fst).Nodup := by
    refine (hS.map Prod.fst).nodup_iff.mpr ?_
    rw [asnGroups_eq]
    exact groupBy_keys_nodup _ _
  refine ⟨(S.take 10).map Prod.fst, ?_, ?_, ?_, ?_, ?_, ?_⟩
  · exact ((List.take_sublist 10 S).map Prod.fst).nodup hnd
  · intro s hs
    simp only [List.mem_map] at hs
    obtain ⟨e, he, rfl⟩ := hs
    obtain ⟨h1, h2, hg, hne⟩ := hgroup e he
    refine ⟨h1, h2, ?_⟩
    obtain ⟨m, hm⟩ := List.exists_mem_of_ne_nil _ hne
    rw [hg] at hm
    simp only [List.mem_filter, decide_eq_true_eq] at hm
    exact ⟨m, hm.1, hm.2⟩
  · rw [hrep, List.map_map, List.map_map]
    apply List.map_congr_left
    intro e he
    obtain ⟨_, _, hg, _⟩ := hgroup e he
    show (asnNumber e.1, e.2.length) = (asnNumber e.1, _)
    rw [← hg]
  · rw [hrep, List.length_map, List.length_take]
    exact min_le_left _ _
  · rw [hrep, List.pairwise_map]
    exact hsorted.sublist (List.take_sublist 10 S)
  · intro s h1 h2 hheld hnot e he
    rw [hrep] at he
    simp only [List.mem_map] at he
    obtain ⟨a, ha, rfl⟩ := he
    show _ ≤ a.2.length
    have hne : miners.filter (fun m => m.asn = some s) ≠ [] := by
      obtain ⟨m, hm, hms⟩ := hheld
      intro hnil
      have : m ∈ miners.filter (fun m => m.asn = some s) := by
        simp [List.mem_filter, hm, hms]
      rw [hnil] at this
      simp at this
    have hin : (s, miners.filter (fun m => m.asn = some s)) ∈ S :=
      hS.mem_iff.mpr ((mem_asnGroups miners _).mpr ⟨h1, h2, rfl, hne⟩)
    rw [← List.take_append_drop 10 S] at hin hsorted
    rcases List.mem_append.mp hin with hin | hin
    · exact absurd (List.mem_map_of_mem Prod.fst hin) hnot
    · exact (List.pairwise_append.mp hsorted).2.2 a ha _ hin

/-- C18: `hostingDistribution` has exactly one entry for each hosting type that occurs among
the participants, a participant without hosting type counting as "Unknown"; the count of an
entry is the number of participants of its type, the counts sum to `totalMiners`, and the
entries are in non-increasing order of count. -/
theorem C18_hosting_distribution_counts_each_type (subnet : Subnet) (miners : List Miner)
    (now : Nat) :
    ((calculateCentralization subnet miners now).hostingDistribution.map (·.type)).Nodup ∧
      (∀ t : String,
        t ∈ (calculateCentralization subnet miners now).hostingDistribution.map (·.type) ↔
          ∃ m ∈ miners, orDefault m.hostingType "Unknown" = t) ∧
      (∀ e ∈ (calculateCentralization subnet miners now).hostingDistribution,
        e.count = miners.countP (fun m => orDefault m.hostingType "Unknown" = e.type)) ∧
      ((calculateCentralization subnet miners now).hostingDistribution.map (·.count)).sum =
        (calculateCentralization subnet miners now).totalMiners ∧
      (calculateCentralization subnet miners now).hostingDistribution.Pairwise
        (fun a b => b.count ≤ a.count) := by
  have hperm : (calculateCentralization subnet miners now).hostingDistribution.Perm
      ((hostingTypes miners).map (hostingEntryOf miners.length)) := by
    show (hostingDistribution miners).Perm _
    rw [hostingDistribution_eq]
    exact sortByCountDesc_perm _ _
  have htypes : ((hostingTypes miners).map (hostingEntryOf miners.length)).map (·.type) =
      (hostingTypes miners).map Prod.fst := by
    rw [List.map_map]
    rfl
  have hcounts : ((hostingTypes miners).map (hostingEntryOf miners.length)).map (·.count) =
      (hostingTypes miners).map Prod.snd := by
    rw [List.map_map]
    rfl
  refine ⟨?_, ?_, ?_, ?_, ?_⟩
  · rw [(hperm.map _).nodup_iff, htypes, hostingTypes_eq]
    exact countBy_keys_nodup _ _
  · intro t
    rw [(hperm.map _).mem_iff, htypes, hostingTypes_eq, mem_countBy_keys]
    simp only [List.mem_map]
    rfl
  · intro e he
    rw [hperm.mem_iff] at he
    simp only [List.mem_map] at he
    obtain ⟨p, hp, rfl⟩ := he
    rw [hostingTypes_eq, mem_countBy] at hp
    exact hp.2
  · rw [(hperm.map _).sum_eq, hcounts, hostingTypes_eq, countBy_sum]
    rfl
  · show (hostingDistribution miners).Pairwise _
    rw [hostingDistribution_eq]
    exact sortByCountDesc_sorted _ _

/-- C19, as stated, fails: `topOwners` keeps ten groups only, so for eleven participants
under eleven coldkeys its ten percentages are 9.09 each and sum to 90.9, further from 100
than ten roundings to two decimals can account for. -/
theorem C19_eleven_owners_sum_below_hundred :
    ∃ ps : List ℚ,
      (calculateCentralization sampleSubnet elevenMiners 0).topOwners.map (·.percentage) =
          ps.map JSNum.fin ∧
        ps.sum = 909 / 10 ∧ ¬ |ps.sum - 100| ≤ (ps.length : ℚ) * (1 / 200) := by
  have hcount : (topOwners elevenMiners).map (·.count) = List.replicate 10 1 := by decide
  have hp : percent2 11 1 = 909 / 100 := by
    unfold percent2
    have : (⌊((1 : ℕ) : ℚ) / ((11 : ℕ) : ℚ) * 100 * 100 + 1 / 2⌋ : ℤ) = 909 := by
      rw [Int.floor_eq_iff]
      norm_num
    rw [this]
    norm_num
  have hsum : (List.replicate 10 (909 / 100 : ℚ)).sum = 909 / 10 := by
    simp
    norm_num
  refine ⟨List.replicate 10 (909 / 100), ?_, hsum, ?_⟩
  · show (topOwners elevenMiners).map (·.percentage) = _
    rw [topOwners_percentages elevenMiners (by decide), hcount]
    have hlen : elevenMiners.length = 11 := rfl
    rw [hlen]
    simp [hp]
  · intro habs
    rw [hsum, abs_le, List.length_replicate] at habs
    norm_num at habs

/-- C19, amended: for a snapshot with at least one participant and at most ten distinct
owners, the percentages of `topOwners`, one for each owner, sum to 100 up to the rounding of
each to two decimals, that is, up to 0.005 times their number. -/
theorem C19_percentages_sum_to_hundred_when_few_owners (subnet : Subnet) (miners : List Miner)
    (now : Nat) (hne : miners ≠ [])
    (hfew : (calculateCentralization subnet miners now).uniqueOwners ≤ 10) :
    ∃ ps : List ℚ,
      (calculateCentralization subnet miners now).topOwners.map (·.percentage) =
          ps.map JSNum.fin ∧
        ps.length = (calculateCentralization subnet miners now).uniqueOwners ∧
        |ps.sum - 100| ≤ (ps.length : ℚ) * (1 / 200) := by
  have hfew₂ : (coldkeyGroups miners).length ≤ 10 := hfew
  obtain ⟨S, hSdef⟩ : ∃ S, S = sortByCountDesc (fun e : String × List Miner => e.2.length)
      (coldkeyGroups miners) := ⟨_, rfl⟩
  have hS : S.Perm (coldkeyGroups miners) := hSdef ▸ sortByCountDesc_perm _ _
  have htake : S.take 10 = S := List.take_of_length_le (by rw [hS.length_eq]; exact hfew₂)
  have htop : topOwners miners = S.map (ownerEntryOf miners.length) := by
    rw [topOwners_eq, ← hSdef, htake]
  refine ⟨S.map (fun e => percent2 miners.length e.2.length), ?_, ?_, ?_⟩
  · show (topOwners miners).map (·.percentage) = _
    rw [topOwners_percentages miners hne, htop, List.map_map, List.map_map, List.map_map]
    rfl
  · show _ = (coldkeyGroups miners).length
    rw [List.length_map, hS.length_eq]
  · have hnear := sum_near (fun e : String × List Miner => percent2 miners.length e.2.length)
      (fun e => ((e.2.length : ℕ) : ℚ) / (miners.length : ℚ) * 100) (1 / 200) S
      (fun e _ => percent2_near miners.length e.2.length)
    rw [sum_shares miners hne S hS] at hnear
    rw [List.length_map]
    exact hnear

/-- Witness of the amended C19: ten participants under ten coldkeys. -/
theorem C19_few_owners_witness :
    tenMiners ≠ [] ∧ (calculateCentralization sampleSubnet tenMiners 0).uniqueOwners ≤ 10 ∧
      ∃ ps : List ℚ,
        (calculateCentralization sampleSubnet tenMiners 0).topOwners.map (·.percentage) =
            ps.map JSNum.fin ∧
          ps.length = (calculateCentralization sampleSubnet tenMiners 0).uniqueOwners ∧
          |ps.sum - 100| ≤ (ps.length : ℚ) * (1 / 200) :=
  ⟨by decide, by decide,
    C19_percentages_sum_to_hundred_when_few_owners sampleSubnet tenMiners 0 (by decide)
      (by decide)⟩

/-- C20, as stated, fails: 350 seconds after the snapshot of subnet 8 was cached, and 250
seconds after a first analysis, the snapshot has expired and the report has not; the analyze
endpoint then answers 200 with the cached report although no snapshot is cached. -/
theorem C20_cached_report_outlives_snapshot :
    cacheAfterAnalysis.get "subnet_8" 350000 = none ∧
      (analyzeEndpoint "8" cacheAfterAnalysis (some "8") 350000).1 =
        { status := 200
          body := Body.data
            (CacheValue.analysis (calculateCentralization sampleSubnet tenMiners 100000)) } := by
  constructor
  · rfl
  · rfl

/-- C20, amended: the report cache is read first. In every cache state, a report that is
cached for the subnet id is sent with status 200 and the cache is left as it was, whether or
not a snapshot is cached; and when neither a report nor a snapshot of the id is cached, the
analyze endpoint answers 400 with the error "Subnet data not found. Fetch subnet data first.",
sends no report and leaves the cache as it was. -/
theorem C20_report_cache_is_read_before_snapshot (SUBNET_ID : String) (cache : Cache)
    (param : Option String) (now : Nat) :
    (∀ report : CacheValue,
        cache.get ("analysis_" ++ orDefault param SUBNET_ID) now = some report →
          analyzeEndpoint SUBNET_ID cache param now =
            ({ status := 200, body := Body.data report }, cache)) ∧
      (cache.get ("analysis_" ++ orDefault param SUBNET_ID) now = none →
        cache.get ("subnet_" ++ orDefault param SUBNET_ID) now = none →
          analyzeEndpoint SUBNET_ID cache param now =
            ({ status := 400
               body := Body.error "Subnet data not found. Fetch subnet data first." none },
              cache)) := by
  unfold analyzeEndpoint
  constructor
  · intro report hreport
    simp only [hreport]
  · intro hreport hsnapshot
    simp only [hreport, hsnapshot]

/-- C21, as stated, fails: a report outlives the snapshot it was computed from. After a
snapshot of one participant is analysed, expires and is replaced by a snapshot of two
participants, the analyze endpoint still answers 200 with the cached report of the first
snapshot, which is the analysis of the snapshot now cached at no instant. -/
theorem C21_cached_report_of_replaced_snapshot :
    ∃ (snapshot : SubnetData) (report : Report),
      cacheAfterRebuild.get "subnet_8" 320000 = some (CacheValue.subnetData snapshot) ∧
        (analyzeEndpoint "8" cacheAfterRebuild (some "8") 320000).1 =
          { status := 200, body := Body.data (CacheValue.analysis report) } ∧
        report.totalMiners = 1 ∧ snapshot.miners.length = 2 ∧
        ∀ t : Nat, report ≠ calculateCentralization snapshot.subnet snapshot.miners t := by
  refine ⟨_, _, rfl, rfl, rfl, rfl, ?_⟩
  intro t h
  have hlen : (1 : Nat) = 2 := congrArg Report.totalMiners h
  exact absurd hlen (by decide)

/-- C21, amended: in every run of the server from the empty cache, whatever the order of
snapshot builds, analyze requests, cache clearings and expiries, the analyze endpoint either
answers 400, or answers 200 with a report that is the analysis, at an instant `t` at most 300
seconds back, of the snapshot `data` that was cached for that subnet id at `t`, when the report
was computed: after the first part `pre` of the run the clock showed `t`, no report was cached
for the id, the cache held `data` under the `subnet_` key of the id, and `pre` had stored
`data` for the id. Either `pre` is the whole run, and then `data` is the snapshot cached now;
or the step after `pre` is the analyze request for the id that computed the report, which is
still cached and is sent as it is, whichever snapshot is cached now. -/
theorem C21_report_is_analysis_of_snapshot_cached_then (SUBNET_ID : String) (start : Nat)
    (steps : List ServerStep) (param : Option String) :
    (analyzeEndpoint SUBNET_ID
          (serverRun SUBNET_ID { cache := Cache.empty, now := start } steps).cache param
          (serverRun SUBNET_ID { cache := Cache.empty, now := start } steps).now).1 =
        { status := 400
          body := Body.error "Subnet data not found. Fetch subnet data first." none } ∨
      ∃ (pre post : List ServerStep) (data : SubnetData) (t : Nat),
        steps = pre ++ post ∧
          (serverRun SUBNET_ID { cache := Cache.empty, now := start } pre).now = t ∧
          (serverRun SUBNET_ID { cache := Cache.empty, now := start } pre).cache.get
              ("analysis_" ++ orDefault param SUBNET_ID) t = none ∧
          (serverRun SUBNET_ID { cache := Cache.empty, now := start } pre).cache.get
              ("subnet_" ++ orDefault param SUBNET_ID) t = some (CacheValue.subnetData data) ∧
          (orDefault param SUBNET_ID, data) ∈ storedIn SUBNET_ID pre ∧
          t ≤ (serverRun SUBNET_ID { cache := Cache.empty, now := start } steps).now ∧
          (serverRun SUBNET_ID { cache := Cache.empty, now := start } steps).now ≤ t + stdTTL ∧
          (analyzeEndpoint SUBNET_ID
              (serverRun SUBNET_ID { cache := Cache.empty, now := start } steps).cache param
              (serverRun SUBNET_ID { cache := Cache.empty, now := start } steps).now).1 =
            { status := 200
              body := Body.data
                (CacheValue.analysis (calculateCentralization data.subnet data.miners t)) } ∧
          (post = [] ∨
            ∃ (param₂ : Option String) (rest : List ServerStep),
              post = ServerStep.analyze param₂ :: rest ∧
                orDefault param₂ SUBNET_ID = orDefault param SUBNET_ID ∧
                (serverRun SUBNET_ID { cache := Cache.empty, now := start } steps).cache.get
                    ("analysis_" ++ orDefault param SUBNET_ID)
                    (serverRun SUBNET_ID { cache := Cache.empty, now := start } steps).now =
                  some (CacheValue.analysis
                    (calculateCentralization data.subnet data.miners t))) := by
  have hco := coherent_run SUBNET_ID start steps
  generalize hstate :
    serverRun SUBNET_ID { cache := Cache.empty, now := start } steps = state at hco ⊢
  obtain ⟨h1, h2⟩ := hco
  rcases analyzeEndpoint_cases SUBNET_ID state.cache param state.now with
    ⟨v, hget, heq⟩ | ⟨_, _, heq⟩ | ⟨hmiss, data, hsnap, heq⟩ | ⟨_, report, hsnap, _⟩
  · right
    obtain ⟨entry, hentry, hlive, hval⟩ := cache_get_eq_some _ _ _ _ hget
    obtain ⟨d, t, ⟨pre, rest, param₂, hsplit, hid, hnow, hnone, hthen, hstored⟩, ht, hexp, hv⟩ :=
      h1 _ entry hentry
    refine ⟨pre, ServerStep.analyze param₂ :: rest, d, t, hsplit, hnow, hnone, hthen, hstored,
      ht, by omega, ?_, Or.inr ⟨param₂, rest, rfl, hid, ?_⟩⟩
    · rw [heq, ← hval, hv]
    · rw [hget, ← hval, hv]
  · left
    rw [heq]
  · right
    obtain ⟨entry, hentry, _, hval⟩ := cache_get_eq_some _ _ _ _ hsnap
    obtain ⟨d, hd, hv⟩ := h2 _ entry hentry
    have hdd : d = data := by
      rw [hval] at hv
      injection hv with hv
      exact hv.symm
    refine ⟨steps, [], data, state.now, (List.append_nil _).symm, by rw [hstate], ?_, ?_,
      hdd ▸ hd, le_refl _, Nat.le_add_right _ _, ?_, Or.inl rfl⟩
    · rw [hstate]
      exact hmiss
    · rw [hstate]
      exact hsnap
    · rw [heq]
  · exfalso
    obtain ⟨entry, hentry, _, hval⟩ := cache_get_eq_some _ _ _ _ hsnap
    obtain ⟨d, _, hv⟩ := h2 _ entry hentry
    rw [hval] at hv
    exact CacheValue.noConfusion hv

/-- C22: the build loop produces one element of `processedMiners` for each element of the
registry's list, in the same order, and the element carries the uid, stake, trust, consensus,
incentive, dividends and emission of the registry entry it is made from. -/
theorem C22_builder_keeps_order_and_scores (toLowerCase : String → String)
    (geo : Nat → String → Option IpApiData) (registry : List RegistryMiner) :
    (processMiners toLowerCase geo registry).processedMiners.length = registry.length ∧
      (processMiners toLowerCase geo registry).processedMiners.map
          (fun p => (p.uid, p.stake, p.trust, p.consensus, p.incentive, p.dividends,
            p.emission)) =
        registry.map
          (fun m => (m.uid, m.stake, m.trust, m.consensus, m.incentive, m.dividends,
            m.emission)) := by
  have h := processMiners_builtFrom toLowerCase geo registry
  refine ⟨h.length_eq.symm, ?_⟩
  refine map_eq_of_forall₂ BuiltFrom _ _ ?_ _ _ h
  rintro m p (⟨_, rfl⟩ | ⟨_, axonIp, location, _, rfl⟩) <;> rfl

/-- C23: the build loop calls the resolver once for each registry entry whose advertised
address is present and is neither "0.0.0.0" nor "127.0.0.1", with that address and in the
order of the list, and for no other entry; those entries keep their address, and every other
entry gets the address "N/A". -/
theorem C23_resolver_called_for_routable_only (toLowerCase : String → String)
    (geo : Nat → String → Option IpApiData) (registry : List RegistryMiner) :
    lookups (processMiners toLowerCase geo registry).events = registry.filterMap routableIp ∧
      (processMiners toLowerCase geo registry).processedMiners.map (·.axon_info.ip) =
        registry.map (fun m => (routableIp m).getD "N/A") ∧
      ∀ m : RegistryMiner, routableIp m =
        match m.axon.bind (·.ip) with
        | none => none
        | some axonIp =>
          if axonIp ≠ "" ∧ axonIp ≠ "0.0.0.0" ∧ axonIp ≠ "127.0.0.1" then some axonIp
          else none := by
  refine ⟨processMiners_lookups toLowerCase geo registry, ?_, ?_⟩
  · refine map_eq_of_forall₂ BuiltFrom _ _ ?_ _ _
      (processMiners_builtFrom toLowerCase geo registry)
    rintro m p (⟨h, rfl⟩ | ⟨h, axonIp, location, hip, rfl⟩)
    · simp [routableIp, h, unresolvedEntry]
    · simp [routableIp, h, hip, resolvedEntry]
  · intro m
    unfold routableIp isRoutable
    cases m.axon.bind (·.ip) with
    | none => rfl
    | some axonIp =>
      by_cases h1 : axonIp = "" <;> by_cases h2 : axonIp = "0.0.0.0" <;>
        by_cases h3 : axonIp = "127.0.0.1" <;> simp [h1, h2, h3]

/-- C24 fails on the code: for a participant that advertises "0.0.0.0" the build loop assigns
a location record of six fields, without organization, AS identifier, AS name, hosting type,
flags and time zone, which is not the record that `getLocationFromIP` returns when a lookup
fails. -/
theorem C24_no_address_location_lacks_fields :
    ((processMiners asciiLower noGeo [sampleEntry 0 (some "0.0.0.0")]).processedMiners.map
        (·.location)) =
        [{ country := some "Unknown", city := some "Unknown", lat := some 0, lon := some 0,
           region := some "Unknown", isp := some "Unknown", organization := none, asn := none,
           asname := none, hostingType := none, isProxy := none, isMobile := none,
           isHosting := none, timezone := none }] ∧
      ((processMiners asciiLower noGeo [sampleEntry 0 (some "0.0.0.0")]).processedMiners.map
        (fun p => (p.location.hostingType, p.location.asn))) = [(none, none)] ∧
      ((getLocationFromIP asciiLower none).hostingType, (getLocationFromIP asciiLower none).asn) =
        (some "Unknown", some "Unknown") ∧
      ((processMiners asciiLower noGeo [sampleEntry 0 (some "0.0.0.0")]).processedMiners.map
        (·.location)) ≠ [getLocationFromIP asciiLower none] := by
  refine ⟨rfl, rfl, rfl, ?_⟩
  intro h
  have h₂ := congrArg (List.map (fun g : GeoRecord => g.hostingType)) h
  exact absurd h₂ (by decide)

/-- C25 fails on the code: the pacing test reads the length of `processedMiners`, which also
counts the participants without address. For nineteen routable participants, one without
address and one more routable participant the loop makes twenty resolver calls and no pause;
for one participant without address followed by twenty routable ones it pauses after the
nineteenth call and not after the twentieth. -/
theorem C25_pause_follows_processed_count :
    (processMiners asciiLower noGeo pausedRegistry).events =
        List.replicate 20 (BuildEvent.lookup "1.1.1.1") ∧
      (processMiners asciiLower noGeo
        (sampleEntry 0 (some "0.0.0.0") ::
          (List.range 20).map (fun i => sampleEntry (i + 1) (some "1.1.1.1")))).events =
        List.replicate 19 (BuildEvent.lookup "1.1.1.1") ++
          [BuildEvent.pause 1000, BuildEvent.lookup "1.1.1.1"] := by
  constructor <;> decide

/-- C26 fails on the code: `lastApiCall` is written only after the wait. One second after an
upstream call, the callers 2 and 3 enter at the same instant, both read the same
`lastApiCall`, both wait eleven seconds, and both issue their upstream call at the same
instant, 0 ms apart. -/
theorem C26_concurrent_callers_issue_together :
    (limiterRun { now := 1000000, lastApiCall := 0, sleeping := [], issued := [] }
        [LimiterStep.call 1, LimiterStep.elapse 1000, LimiterStep.call 2, LimiterStep.call 3,
          LimiterStep.elapse 11000, LimiterStep.wake 2, LimiterStep.wake 3]).issued =
      [(1, 1000000), (2, 1012000), (3, 1012000)] := by
  decide

/-- C27 fails on the code: when the last attempt is answered with 429 the loop sleeps,
continues, ends, and `fetchWithRetry` returns `undefined` instead of throwing; when the
attempts are answered with 500, or rejected, it throws the last error after the last
attempt. -/
theorem C27_last_attempt_429_returns_undefined :
    fetchWithRetry (fun _ => FetchResult.response 429 none) 3 2000 =
        (RetryOutcome.returnedUndefined,
          [RetryEvent.attempt 1, RetryEvent.sleep 2000, RetryEvent.attempt 2,
            RetryEvent.sleep 2000, RetryEvent.attempt 3, RetryEvent.sleep 2000]) ∧
      fetchWithRetry (fun _ => FetchResult.response 500 none) 3 2000 =
        (RetryOutcome.threw (FetchError.http 500),
          [RetryEvent.attempt 1, RetryEvent.sleep 2000, RetryEvent.attempt 2,
            RetryEvent.sleep 2000, RetryEvent.attempt 3]) ∧
      fetchWithRetry (fun _ => FetchResult.rejected "Failed to fetch") 3 2000 =
        (RetryOutcome.threw (FetchError.network "Failed to fetch"),
          [RetryEvent.attempt 1, RetryEvent.sleep 2000, RetryEvent.attempt 2,
            RetryEvent.sleep 2000, RetryEvent.attempt 3]) := by
  decide

/-- C28: for a non-empty snapshot the base index is at least 10000 divided by the number of
distinct owners; when the level is "Highly Decentralized" no address is held by two
participants and there are at least 10 distinct owners; and a snapshot with at most three
participants is reported "Highly Concentrated". -/
theorem C28_highly_decentralized_needs_ten_owners (subnet : Subnet) (miners : List Miner)
    (now : Nat) (hne : miners ≠ []) :
    (∃ b : ℚ, baseHHI miners = JSNum.fin b ∧
        10000 ≤ b * ((calculateCentralization subnet miners now).uniqueOwners : ℚ)) ∧
      ((calculateCentralization subnet miners now).concentrationLevel =
          "Highly Decentralized" →
        (∀ a : String, a ≠ "" → a ≠ "N/A" →
          (miners.filter (fun m => m.ip = some a)).length ≤ 1) ∧
          10 ≤ (calculateCentralization subnet miners now).uniqueOwners) ∧
      (miners.length ≤ 3 →
        (calculateCentralization subnet miners now).concentrationLevel =
          "Highly Concentrated") := by
  have howners : (calculateCentralization subnet miners now).uniqueOwners =
      (miners.map ownerKey).toFinset.card := by
    show (coldkeyGroups miners).length = _
    rw [coldkeyGroups_eq, groupBy_length]
  have hcs := baseIndex_mul_owners_ge miners hne
  have hb0 := baseIndex_nonneg miners
  have hp0 := penaltyValue_nonneg miners
  rw [howners]
  refine ⟨⟨baseIndex miners, baseHHI_eq miners, hcs⟩, ?_, ?_⟩
  · intro hdec
    have hlevel := concentrationLevel_eq miners
    have hdec₂ : concentrationLevel miners = "Highly Decentralized" := hdec
    rw [hlevel] at hdec₂
    split_ifs at hdec₂ with h1 h2 h3
    · exact absurd hdec₂ (by decide)
    · exact absurd hdec₂ (by decide)
    · exact absurd hdec₂ (by decide)
    · have ha : baseIndex miners + penaltyValue miners ≤ 1000 :=
        not_lt.mp (fun c => h3 (Or.inl c))
      have hc : (ipClusters miners).length = 0 :=
        Nat.eq_zero_of_not_pos (fun c => h3 (Or.inr c))
      constructor
      · intro a ha1 ha2
        have hnil : ipClusters miners = [] := List.length_eq_zero.mp hc
        have hnot : a ∉ (ipClusters miners).map (·.ip) := by
          rw [hnil]
          simp
        rw [mem_ipClusters_ip] at hnot
        by_contra hcon
        exact hnot ⟨ha1, ha2, by omega⟩
      · have hk : (10 : ℚ) ≤ ((miners.map ownerKey).toFinset.card : ℚ) := by
          by_contra hcon
          have hlt : ((miners.map ownerKey).toFinset.card : ℚ) < 10 := not_le.mp hcon
          have hk0 : (0 : ℚ) ≤ ((miners.map ownerKey).toFinset.card : ℚ) := Nat.cast_nonneg _
          nlinarith
        exact_mod_cast hk
  · intro hsmall
    have hk : (miners.map ownerKey).toFinset.card ≤ 3 := by
      have := List.toFinset_card_le (miners.map ownerKey)
      rw [List.length_map] at this
      omega
    have hk' : ((miners.map ownerKey).toFinset.card : ℚ) ≤ 3 := by exact_mod_cast hk
    have hbig : 2500 < baseIndex miners + penaltyValue miners := by nlinarith
    show concentrationLevel miners = _
    rw [concentrationLevel_eq]
    simp [hbig]

/-- Witness of C28: three participants under three coldkeys. -/
theorem C28_three_participants_witness :
    [sampleMiner 1 (some "5Fa") none, sampleMiner 2 (some "5Fb") none,
        sampleMiner 3 (some "5Fc") none] ≠ [] ∧
      ((∃ b : ℚ,
          baseHHI [sampleMiner 1 (some "5Fa") none, sampleMiner 2 (some "5Fb") none,
            sampleMiner 3 (some "5Fc") none] = JSNum.fin b ∧
          10000 ≤ b * ((calculateCentralization sampleSubnet
            [sampleMiner 1 (some "5Fa") none, sampleMiner 2 (some "5Fb") none,
              sampleMiner 3 (some "5Fc") none] 0).uniqueOwners : ℚ)) ∧
        ((calculateCentralization sampleSubnet
            [sampleMiner 1 (some "5Fa") none, sampleMiner 2 (some "5Fb") none,
              sampleMiner 3 (some "5Fc") none] 0).concentrationLevel = "Highly Decentralized" →
          (∀ a : String, a ≠ "" → a ≠ "N/A" →
            ([sampleMiner 1 (some "5Fa") none, sampleMiner 2 (some "5Fb") none,
              sampleMiner 3 (some "5Fc") none].filter (fun m => m.ip = some a)).length ≤ 1) ∧
            10 ≤ (calculateCentralization sampleSubnet
              [sampleMiner 1 (some "5Fa") none, sampleMiner 2 (some "5Fb") none,
                sampleMiner 3 (some "5Fc") none] 0).uniqueOwners) ∧
        (([sampleMiner 1 (some "5Fa") none, sampleMiner 2 (some "5Fb") none,
            sampleMiner 3 (some "5Fc") none] : List Miner).length ≤ 3 →
          (calculateCentralization sampleSubnet
            [sampleMiner 1 (some "5Fa") none, sampleMiner 2 (some "5Fb") none,
              sampleMiner 3 (some "5Fc") none] 0).concentrationLevel =
            "Highly Concentrated")) :=
  ⟨by simp, C28_highly_decentralized_needs_ten_owners sampleSubnet _ 0 (by simp)⟩

/-- C29: the address-cluster penalty is at most 5000, so the adjusted index is at most the
base index plus 5000 and never exceeds 15000; the counts of the clusters, which are disjoint
groups of participants, add up to at most the number of participants. It holds for every
snapshot, so in particular for the non-empty ones. -/
theorem C29_cluster_penalty_at_most_5000 (subnet : Subnet) (miners : List Miner) (now : Nat) :
    ∃ b p : ℚ, baseHHI miners = JSNum.fin b ∧ ipClusterPenalty miners = JSNum.fin p ∧
      adjustedHHI miners = JSNum.fin (b + p) ∧ 0 ≤ p ∧ p ≤ 5000 ∧ b + p ≤ b + 5000 ∧
      b + p ≤ 15000 ∧
      ((calculateCentralization subnet miners now).ipClusters.map (·.count)).sum ≤
        (calculateCentralization subnet miners now).totalMiners := by
  have hp := penaltyValue_le miners
  have hb := baseIndex_le miners
  refine ⟨baseIndex miners, penaltyValue miners, baseHHI_eq miners,
    ipClusterPenalty_value miners, adjustedHHI_value miners, penaltyValue_nonneg miners, hp,
    by linarith, by linarith, ipClusters_counts_sum_le miners⟩

/-- C30: the coverage counts are consistent: `minersWithIPs + minersWithoutIPs = totalMiners`,
`validatorsWithoutAxons + potentiallyInactiveMiners = minersWithoutIPs`,
`validatorsWithoutAxons <= validatorCount` and
`minersWithIPs >= totalUniqueIPs + ipClusterCount`. -/
theorem C30_coverage_counts_consistent (subnet : Subnet) (miners : List Miner) (now : Nat) :
    (calculateCentralization subnet miners now).minersWithIPs +
          (calculateCentralization subnet miners now).minersWithoutIPs =
        (calculateCentralization subnet miners now).totalMiners ∧
      (calculateCentralization subnet miners now).validatorsWithoutAxons +
          (calculateCentralization subnet miners now).potentiallyInactiveMiners =
        (calculateCentralization subnet miners now).minersWithoutIPs ∧
      (calculateCentralization subnet miners now).validatorsWithoutAxons ≤
        (calculateCentralization subnet miners now).validatorCount ∧
      (calculateCentralization subnet miners now).totalUniqueIPs +
          (calculateCentralization subnet miners now).ipClusterCount ≤
        (calculateCentralization subnet miners now).minersWithIPs := by
  refine ⟨?_, without_axons_split miners, validatorsWithoutAxons_le miners,
    ipGroups_length_add_clusters_le miners⟩
  show minersWithIPs miners + (miners.length - minersWithIPs miners) = miners.length
  have := minersWithIPs_le miners
  omega

end MinerSpy
